import Mathlib

/-!
# todoist: a client for the Todoist task API

A shallow embedding of `todoist/todoist.go` (package `todoist`) and of the parts of the Go
standard library it calls (`fmt.Errorf`, `net/http`, `io.ReadAll`, `encoding/json`, `time`),
followed by the properties of `NewClient`, `ListTasks` and `CreateTask`.

Conventions of the embedding:

* a Go `string` / `[]byte` is a `GoString`: the sequence of valid runes and stray
  (not UTF-8) bytes that Go's own `range` loop sees;
* a Go `error` is a `GoError` (message plus the error it wraps), a nil error is `none`;
* a Go slice is an `Option (List _)`: `none` is the nil slice;
* the network is a function from requests to outcomes, and every operation returns, next to
  its Go results, the list of requests it handed to the transport.

Limits of the embedding, each stated again at the definition concerned:

* a `Response` has no `Location` header, so over a `RoundTripper` `http.Client.Do` is one
  exchange with the transport; the section on redirects embeds the client a second time,
  over transports that may answer with a 307 or 308, with the follow-up request
  `http.Client` then issues on its own (one redirect; no cookie jar, no timeout);
* of `url.Parse` only the check for control characters is kept (the package passes one
  constant URL);
* `time.Time` is its civil reading plus the zone offset (no monotonic clock, no zone name),
  and `Time.UnmarshalJSON` is the strict RFC 3339 reading of the resolved string: a text
  only the lenient second reading of Go accepts (an hour of one digit, say) is refused, and
  a timestamp written with escape sequences, which the method does not resolve, is read;
* a slice being decoded into has no spare capacity, and the error of `Time.UnmarshalJSON`
  ends the decoding (later versions of `encoding/json` go on with the rest of the input):
  both matter only for input that gives a field twice or holds a text that is no
  timestamp.
-/

set_option maxRecDepth 100000

namespace Todoist

/-- Equality of Go results (`Except`) is decidable when it is on both sides. -/
instance instDecidableEqExcept {ε α : Type} [DecidableEq ε] [DecidableEq α] :
    DecidableEq (Except ε α)
  | .ok a, .ok b => if h : a = b then isTrue (by rw [h]) else isFalse (by intro h2; cases h2; exact h rfl)
  | .error a, .error b =>
    if h : a = b then isTrue (by rw [h]) else isFalse (by intro h2; cases h2; exact h rfl)
  | .ok _, .error _ => isFalse (by intro h; cases h)
  | .error _, .ok _ => isFalse (by intro h; cases h)

/-! ## Go strings -/

/-- One step of Go's `range` loop over a string: a validly encoded rune, or a single byte
that is not part of a valid UTF-8 sequence. -/
inductive StrElem where
  | rune (c : Char)
  | raw (b : Nat)
  deriving DecidableEq, Repr

/-- Go `string` (and `[]byte` holding text). -/
abbrev GoString := List StrElem

/-- Go string literal. -/
def gs (s : String) : GoString := s.toList.map StrElem.rune

/-- The runes of a string as `utf8.DecodeRune` reports them: a stray byte reads as
U+FFFD (`utf8.RuneError`). -/
def StrElem.toRune : StrElem → Char
  | .rune c => c
  | .raw _ => Char.ofNat 0xFFFD

/-- `utf8.ValidString`. -/
def validUTF8 (s : GoString) : Bool :=
  s.all fun e => match e with
    | .rune _ => true
    | .raw _ => false

/-! ## Go errors and `fmt.Errorf` -/

/-- Go `error` value: `new` is an error without a cause (`errors.New`, `fmt.Errorf` without
`%w`), `wrap` one whose `Unwrap` method returns `cause`. -/
inductive GoError where
  | new (msg : GoString)
  | wrap (msg : GoString) (cause : GoError)
  deriving DecidableEq, Repr

/-- Go `err.Error()`. -/
def GoError.Error : GoError → GoString
  | .new m => m
  | .wrap m _ => m

/-- Go `errors.Unwrap(err)`. -/
def GoError.Unwrap : GoError → Option GoError
  | .new _ => none
  | .wrap _ c => some c

/-- The errors reachable from `err` by repeated `Unwrap`, `err` itself first: the chain
`errors.Is` walks. -/
def GoError.chain : GoError → List GoError
  | .new m => [.new m]
  | .wrap m c => .wrap m c :: c.chain

/-- Go `fmt.Errorf(format + "%w", err)` for a non-nil `err`: the message is the format text
followed by `err.Error()`, and the result wraps `err`. -/
def Errorf_w (format : GoString) (err : GoError) : GoError :=
  .wrap (format ++ err.Error) err

/-- Go `fmt.Errorf(format + "%s", err)` for an operand of type `error`: no wrapping; a nil
operand is printed as `%!s(<nil>)`. -/
def Errorf_s_error (format : GoString) (err : Option GoError) : GoError :=
  match err with
  | some e => .new (format ++ e.Error)
  | none => .new (format ++ gs "%!s(<nil>)")

/-- Go `fmt.Errorf(format + "%s", b)` for an operand of type `[]byte`: the bytes are
written as they are. -/
def Errorf_s_bytes (format : GoString) (b : GoString) : GoError :=
  .new (format ++ b)

/-! ## net/http -/

/-- Go `http.Header`: values per key, in insertion order. -/
abbrev Header := List (GoString × List GoString)

/-- Go `Header.Add(key, value)`. The keys this package passes are already in canonical
MIME form, so canonicalisation is the identity on them. -/
def Header.Add : Header → GoString → GoString → Header
  | [], key, value => [(key, [value])]
  | (k, vs) :: rest, key, value =>
    if k = key then (k, vs ++ [value]) :: rest else (k, vs) :: Header.Add rest key value

/-- Go `Header.Values(key)`. -/
def Header.Values : Header → GoString → List GoString
  | [], _ => []
  | (k, vs) :: rest, key => if k = key then vs else Header.Values rest key

/-- Go `Header.Get(key)`: the first value of the key, or the empty string. -/
def Header.Get (h : Header) (key : GoString) : GoString :=
  (Header.Values h key).headD []

/-- Go `http.Request`, the fields this package sets: `Body = none` is a nil body. -/
structure Request where
  Method : GoString
  URL : GoString
  Header : Header
  Body : Option GoString
  deriving DecidableEq, Repr

/-- Go `http.Response` without a `Location` header: the status code and the bytes
`io.ReadAll(resp.Body)` yields (what was read before end of stream or a read error, the
read error being discarded by both callers). -/
structure Response where
  StatusCode : Int
  Body : GoString
  deriving DecidableEq, Repr

/-- Go `http.RoundTripper` that never redirects: one request, one response without a
`Location` header or an error. -/
abbrev RoundTripper := Request → Except GoError Response

/-- Go `http.Client`. `CheckRedirect` and `Jar` are only ever nil or not in this package and
`Timeout` is a duration in nanoseconds. -/
structure HttpClient where
  Transport : Option RoundTripper := none
  CheckRedirect : Option Unit := none
  Jar : Option Unit := none
  Timeout : Int := 0

/-- Go `http.MethodGet`. -/
def MethodGet : GoString := gs "GET"

/-- Go `http.MethodPost`. -/
def MethodPost : GoString := gs "POST"

/-- Go `http.StatusOK`. -/
def StatusOK : Int := 200

/-- The token characters of RFC 7230 (`httpguts.IsTokenRune`). -/
def isTokenRune : StrElem → Bool
  | .raw _ => false
  | .rune c =>
    c.isAlphanum || "!#$%&*+-.^_|~".toList.contains c || c = Char.ofNat 39 || c = Char.ofNat 96

/-- Go `http.validMethod`. -/
def validMethod (method : GoString) : Bool :=
  !method.isEmpty && method.all isTokenRune

/-- The first check of `url.Parse`: no ASCII control character in the URL. -/
def stringContainsCTLByte (s : GoString) : Bool :=
  s.any fun e => match e with
    | .rune c => c.toNat < 0x20 || c.toNat = 0x7f
    | .raw _ => false

/-- Go `http.NewRequest(method, url, body)`: an empty method means GET, an invalid method or
a URL that does not parse is an error. Of `url.Parse` only the control-character check is
modelled. -/
def NewRequest (method url : GoString) (body : Option GoString) : Except GoError Request :=
  let method := if method.isEmpty then gs "GET" else method
  if !validMethod method then
    .error (.new (gs "net/http: invalid method " ++ gs "\"" ++ method ++ gs "\""))
  else if stringContainsCTLByte url then
    .error (.wrap (gs "parse \"" ++ url ++ gs "\": net/url: invalid control character in URL")
      (.new (gs "net/url: invalid control character in URL")))
  else
    .ok { Method := method, URL := url, Header := [], Body := body }

/-- Go `http.urlErrorOp`: the method with its first letter kept and the rest lowered. -/
def urlErrorOp (method : GoString) : GoString :=
  match method with
  | [] => gs "Get"
  | e :: rest => e :: rest.map fun x => match x with
    | .rune c => .rune c.toLower
    | .raw b => .raw b

/-- Go `(*url.Error).Error()` wrapped around the transport's error: `Op "URL": cause`. -/
def urlError (op url : GoString) (err : GoError) : GoError :=
  .wrap (op ++ gs " \"" ++ url ++ gs "\": " ++ err.Error) err

/-- Go `(*http.Client).Do(req)` over a transport that never redirects, which is one
exchange: the configured transport, or the default transport `dflt` when none is
configured, is handed the request; its error comes back inside a `*url.Error`. The second
component is the list of requests handed to the transport. (A response of any status
without a `Location` header is returned as it is; `Redirects.Do` is `Do` over a transport
that may redirect. Cookies and the timeout are not modelled.) -/
def HttpClient.Do (dflt : RoundTripper) (hc : HttpClient) (req : Request) :
    Except GoError Response × List Request :=
  let rt := hc.Transport.getD dflt
  match rt req with
  | .error e => (.error (urlError (urlErrorOp req.Method) req.URL e), [req])
  | .ok resp => (.ok resp, [req])

/-! ## Decimal numbers -/

/-- The decimal digit character of `d % 10`. -/
def digitChar (d : Nat) : Char := Char.ofNat (48 + d % 10)

/-- Worker of `natDigits`: the digits of `n` put in front of `acc`. -/
def natDigitsAux : Nat → Nat → List Char → List Char
  | 0, _, acc => acc
  | fuel + 1, n, acc =>
    if n < 10 then digitChar n :: acc else natDigitsAux fuel (n / 10) (digitChar n :: acc)

/-- Go `strconv.Itoa` on a natural number: its decimal digits, most significant first. -/
def natDigits (n : Nat) : List Char := natDigitsAux (n + 1) n []

/-- Go `strconv.AppendInt(nil, n, 10)`. -/
def intDigits (n : Int) : List Char :=
  if n < 0 then '-' :: natDigits n.natAbs else natDigits n.natAbs

/-- Go `time.appendInt(nil, x, width)` for `x ≥ 0`: decimal digits, zero-padded on the left
to `width`. -/
def appendInt (x width : Nat) : List Char :=
  let ds := natDigits x
  List.replicate (width - ds.length) '0' ++ ds

/-- The value of a decimal digit character, if it is one. -/
def digitVal (c : Char) : Option Nat :=
  if 48 ≤ c.toNat ∧ c.toNat ≤ 57 then some (c.toNat - 48) else none

/-- The number a sequence of decimal digits denotes, `acc` being the value of the digits
read so far; `none` when a character is not a digit. -/
def parseDigits : List Char → Nat → Option Nat
  | [], acc => some acc
  | c :: cs, acc =>
    match digitVal c with
    | some d => parseDigits cs (acc * 10 + d)
    | none => none

/-! ## time.Time and its JSON form -/

/-- Go `time.Time`, as the civil reading in its own location together with that location's
offset in seconds east of UTC (which is what the instant and the location determine). The
monotonic clock reading and the location's name are not part of the model. -/
structure Time where
  year : Int
  month : Nat
  day : Nat
  hour : Nat
  minute : Nat
  second : Nat
  nanosecond : Nat
  offset : Int
  deriving DecidableEq, Repr

/-- The zero `time.Time`: January 1, year 1, 00:00:00 UTC. -/
def Time.zero : Time :=
  { year := 1, month := 1, day := 1, hour := 0, minute := 0, second := 0, nanosecond := 0,
    offset := 0 }

/-- Go `time.appendNano` with the `.999999999` layout: nothing for zero nanoseconds, else a
dot and nine digits with the trailing zeros removed. -/
def appendNano (nanosec : Nat) : List Char :=
  if nanosec = 0 then []
  else '.' :: ((appendInt nanosec 9).reverse.dropWhile (· = '0')).reverse

/-- The zone suffix of `Time.appendFormatRFC3339`: `Z` for offset zero, else the offset
cut to whole minutes as `±hh:mm`. -/
def appendZone (offset : Int) : List Char :=
  if offset = 0 then ['Z']
  else
    let zone := offset.tdiv 60
    let sign := if zone < 0 then '-' else '+'
    let zone := zone.natAbs
    sign :: (appendInt (zone / 60) 2 ++ ':' :: appendInt (zone % 60) 2)

/-- Go `Time.appendFormatRFC3339(nil, true)` for a year that is not negative. -/
def Time.appendFormatRFC3339 (t : Time) : List Char :=
  appendInt t.year.natAbs 4 ++ '-' :: appendInt t.month 2 ++ '-' :: appendInt t.day 2
    ++ 'T' :: appendInt t.hour 2 ++ ':' :: appendInt t.minute 2 ++ ':' :: appendInt t.second 2
    ++ appendNano t.nanosecond ++ appendZone t.offset

/-- Go `Time.MarshalJSON()` without the surrounding quotes: the RFC 3339 text with
nanoseconds, or an error when the year is outside 0..9999 or the zone offset reaches a day. -/
def Time.MarshalJSON (t : Time) : Except GoError GoString :=
  if t.year < 0 ∨ 9999 < t.year then
    .error (.new (gs "Time.MarshalJSON: year outside of range [0,9999]"))
  else if 24 ≤ (t.offset.tdiv 60).natAbs / 60 then
    .error (.new (gs "Time.MarshalJSON: timezone hour outside of range [0,23]"))
  else
    .ok (t.appendFormatRFC3339.map StrElem.rune)

/-- Go `time.daysIn(month, year)`. -/
def daysIn (month year : Nat) : Nat :=
  if month = 2 then
    if year % 4 = 0 ∧ (year % 100 ≠ 0 ∨ year % 400 = 0) then 29 else 28
  else if month = 4 ∨ month = 6 ∨ month = 9 ∨ month = 11 then 30
  else 31

/-- The `parseUint` closure of `time.parseRFC3339`: a run of decimal digits denoting a
number between `min` and `max`. -/
def parseUint (s : List Char) (min max : Nat) : Option Nat :=
  match parseDigits s 0 with
  | some x => if x < min ∨ max < x then none else some x
  | none => none

/-- Go `time.parseNanoseconds` on the digits after the dot: the first nine digits, read as
a fraction of a second. -/
def parseNanoseconds (digits : List Char) : Option Nat :=
  let ds := digits.take 9
  (parseDigits ds 0).map fun x => x * 10 ^ (9 - ds.length)

/-- The zone suffix of `time.parseRFC3339`: `Z`, or `±hh:mm` with `hh ≤ 23` and `mm ≤ 59`. -/
def parseZone (s : List Char) : Option Int :=
  match s with
  | ['Z'] => some 0
  | [sg, h1, h2, c, m1, m2] =>
    match parseUint [h1, h2] 0 23, parseUint [m1, m2] 0 59 with
    | some hr, some mm =>
      if (sg = '-' ∨ sg = '+') ∧ c = ':' then
        let zoneOffset : Int := ((hr * 60 + mm) * 60 : Nat)
        some (if sg = '-' then -zoneOffset else zoneOffset)
      else none
    | _, _ => none
  | _ => none

/-- The fractional second of `time.parseRFC3339`: when the input goes on with a dot and a
digit, the digits after the dot and the input after them; else no digits and the input. -/
def splitFraction (s : List Char) : List Char × List Char :=
  match s with
  | '.' :: d :: more =>
    if (digitVal d).isSome then
      ((d :: more).takeWhile fun c => (digitVal c).isSome,
       (d :: more).dropWhile fun c => (digitVal c).isSome)
    else ([], s)
  | _ => ([], s)

/-- The nanoseconds the digits of a fractional second denote; none of them means zero. -/
def parseFraction (digits : List Char) : Option Nat :=
  if digits.isEmpty then some 0 else parseNanoseconds digits

/-- Go `time.parseRFC3339`: the strict reading of `2006-01-02T15:04:05[.fraction]zone`. -/
def parseRFC3339 (s : List Char) : Option Time :=
  match s with
  | y1 :: y2 :: y3 :: y4 :: d1 :: mo1 :: mo2 :: d2 :: dy1 :: dy2 :: tt :: h1 :: h2 :: c1 ::
      mi1 :: mi2 :: c2 :: s1 :: s2 :: rest =>
    match parseUint [y1, y2, y3, y4] 0 9999, parseUint [mo1, mo2] 1 12 with
    | some year, some month =>
      match parseUint [dy1, dy2] 1 (daysIn month year), parseUint [h1, h2] 0 23,
          parseUint [mi1, mi2] 0 59, parseUint [s1, s2] 0 59 with
      | some day, some hour, some min, some sec =>
        if d1 = '-' ∧ d2 = '-' ∧ tt = 'T' ∧ c1 = ':' ∧ c2 = ':' then
          let frac := splitFraction rest
          match parseFraction frac.1, parseZone frac.2 with
          | some nsec, some off =>
            some { year := year, month := month, day := day, hour := hour, minute := min,
                   second := sec, nanosecond := nsec, offset := off }
          | _, _ => none
        else none
      | _, _, _, _ => none
    | _, _ => none
  | _ => none

/-- The characters of a string made of valid runes only. -/
def runesOf : GoString → Option (List Char)
  | [] => some []
  | .rune c :: rest => (runesOf rest).map (c :: ·)
  | .raw _ :: _ => none

/-- Go `(*Time).UnmarshalJSON` on the contents of a JSON string: the strict RFC 3339
reading. (The lenient second reading Go falls back to for texts the strict one refuses is
not modelled: such texts are refused.) -/
def Time.UnmarshalJSON (s : GoString) : Except GoError Time :=
  match (runesOf s).bind parseRFC3339 with
  | some t => .ok t
  | none => .error (.new (gs "parsing time " ++ s ++ gs ": cannot parse as RFC 3339"))

/-! ## encoding/json: values and their text -/

/-- JSON value, as `encoding/json` reads and writes it. A number literal with neither
fraction nor exponent is an `int`; any other number literal is kept as its text. -/
inductive Json where
  | null
  | bool (b : Bool)
  | int (n : Int)
  | float (lit : List Char)
  | str (s : GoString)
  | arr (elems : List Json)
  | obj (members : List (GoString × Json))
  deriving Repr

/-- The double quote character. -/
def dquote : Char := Char.ofNat 34

/-- The backslash character. -/
def bslash : Char := Char.ofNat 92

/-- The lower-case hexadecimal digit of `d % 16`. -/
def hexChar (d : Nat) : Char :=
  if d % 16 < 10 then Char.ofNat (48 + d % 16) else Char.ofNat (87 + d % 16)

/-- The `htmlSafeSet` of `encoding/json`: the ASCII characters written as they are. -/
def htmlSafe (c : Char) : Bool :=
  0x20 ≤ c.toNat && c.toNat < 0x80 && c != dquote && c != bslash
    && c != '<' && c != '>' && c != '&'

/-- One step of `encoding/json.appendString` (HTML escaping on, as `json.Marshal` has it). -/
def escapeElem : StrElem → List Char
  | .raw _ => [bslash, 'u', 'f', 'f', 'f', 'd']
  | .rune c =>
    if c.toNat < 0x80 then
      if htmlSafe c then [c]
      else if c = bslash ∨ c = dquote then [bslash, c]
      else if c.toNat = 8 then [bslash, 'b']
      else if c.toNat = 12 then [bslash, 'f']
      else if c.toNat = 10 then [bslash, 'n']
      else if c.toNat = 13 then [bslash, 'r']
      else if c.toNat = 9 then [bslash, 't']
      else [bslash, 'u', '0', '0', hexChar (c.toNat / 16), hexChar c.toNat]
    else if c.toNat = 0x2028 ∨ c.toNat = 0x2029 then
      [bslash, 'u', '2', '0', '2', hexChar c.toNat]
    else [c]

/-- Go `encoding/json.appendString`: the quoted, escaped text of a string. -/
def renderString (s : GoString) : List Char :=
  dquote :: (s.flatMap escapeElem ++ [dquote])

mutual
/-- The compact text `json.Marshal` writes for a value. -/
def Json.render : Json → List Char
  | .null => ['n', 'u', 'l', 'l']
  | .bool true => ['t', 'r', 'u', 'e']
  | .bool false => ['f', 'a', 'l', 's', 'e']
  | .int n => intDigits n
  | .float lit => lit
  | .str s => renderString s
  | .arr elems => '[' :: (renderElems elems ++ [']'])
  | .obj members => Char.ofNat 123 :: (renderMembers members ++ [Char.ofNat 125])
/-- The elements of an array, separated by commas. -/
def renderElems : List Json → List Char
  | [] => []
  | [x] => x.render
  | x :: y :: rest => x.render ++ ',' :: renderElems (y :: rest)
/-- The members of an object, separated by commas. -/
def renderMembers : List (GoString × Json) → List Char
  | [] => []
  | [(k, x)] => renderString k ++ ':' :: x.render
  | (k, x) :: m :: rest => renderString k ++ ':' :: x.render ++ ',' :: renderMembers (m :: rest)
end

/-! ## encoding/json: reading text -/

/-- JSON white space: space, tab, line feed, carriage return. -/
def isSpace (c : Char) : Bool :=
  c = ' ' || c.toNat = 9 || c.toNat = 10 || c.toNat = 13

/-- The input without its leading white space. -/
def skipWS : List StrElem → List StrElem
  | .rune c :: rest => if isSpace c then skipWS rest else .rune c :: rest
  | s => s

/-- The value of a hexadecimal digit, either case. -/
def hexVal (c : Char) : Option Nat :=
  if 48 ≤ c.toNat ∧ c.toNat ≤ 57 then some (c.toNat - 48)
  else if 97 ≤ c.toNat ∧ c.toNat ≤ 102 then some (c.toNat - 87)
  else if 65 ≤ c.toNat ∧ c.toNat ≤ 70 then some (c.toNat - 55)
  else none

/-- Go `encoding/json.getu4` on the four characters after a backslash and u. -/
def getu4 (h1 h2 h3 h4 : Char) : Option Nat :=
  match hexVal h1, hexVal h2, hexVal h3, hexVal h4 with
  | some a, some b, some c, some d => some (((a * 16 + b) * 16 + c) * 16 + d)
  | _, _, _, _ => none

/-- The character a one-letter escape stands for. -/
def simpleEscape (e : Char) : Option Char :=
  if e = dquote ∨ e = bslash ∨ e = '/' then some e
  else if e = 'b' then some (Char.ofNat 8)
  else if e = 'f' then some (Char.ofNat 12)
  else if e = 'n' then some (Char.ofNat 10)
  else if e = 'r' then some (Char.ofNat 13)
  else if e = 't' then some (Char.ofNat 9)
  else none

/-- Go `utf16.IsSurrogate`. -/
def isSurrogate (r : Nat) : Bool := 0xD800 ≤ r && r < 0xE000

/-- Go `utf16.DecodeRune`: the code point of a surrogate pair, or `none` where Go returns
U+FFFD because the two halves do not form a pair. -/
def decodeSurrogates (r1 r2 : Nat) : Option Nat :=
  if 0xD800 ≤ r1 ∧ r1 < 0xDC00 ∧ 0xDC00 ≤ r2 ∧ r2 < 0xE000 then
    some ((r1 - 0xD800) * 1024 + (r2 - 0xDC00) + 0x10000)
  else none

/-- The second half of a surrogate pair, when the input goes on with one that pairs with
`r1`: the code point of the pair and the input after it. -/
def secondSurrogate (r1 : Nat) : List StrElem → Option (Nat × List StrElem)
  | .rune b :: .rune u :: .rune h1 :: .rune h2 :: .rune h3 :: .rune h4 :: rest =>
    if b = bslash ∧ u = 'u' then
      match getu4 h1 h2 h3 h4 with
      | some r2 => (decodeSurrogates r1 r2).map fun dec => (dec, rest)
      | none => none
    else none
  | _ => none

/-- The string literal whose opening quote has been read (`scanner` and `unquote` of
`encoding/json` in one pass): the string and the input after the closing quote. A stray
byte and an unpaired surrogate escape read as U+FFFD; a control character, a bad escape or
a missing closing quote is a syntax error. -/
def parseString : Nat → List StrElem → Option (GoString × List StrElem)
  | 0, _ => none
  | _ + 1, [] => none
  | fuel + 1, .raw _ :: rest =>
    (parseString fuel rest).map fun r => (.rune (Char.ofNat 0xFFFD) :: r.1, r.2)
  | fuel + 1, .rune c :: rest =>
    if c = dquote then some ([], rest)
    else if c = bslash then
      match rest with
      | .rune e :: rest2 =>
        if e = 'u' then
          match rest2 with
          | .rune h1 :: .rune h2 :: .rune h3 :: .rune h4 :: rest3 =>
            match getu4 h1 h2 h3 h4 with
            | none => none
            | some rr =>
              if isSurrogate rr then
                match secondSurrogate rr rest3 with
                | some (dec, rest4) =>
                  (parseString fuel rest4).map fun r => (.rune (Char.ofNat dec) :: r.1, r.2)
                | none =>
                  (parseString fuel rest3).map fun r => (.rune (Char.ofNat 0xFFFD) :: r.1, r.2)
              else (parseString fuel rest3).map fun r => (.rune (Char.ofNat rr) :: r.1, r.2)
          | _ => none
        else
          match simpleEscape e with
          | some ch => (parseString fuel rest2).map fun r => (.rune ch :: r.1, r.2)
          | none => none
      | _ => none
    else if c.toNat < 0x20 then none
    else (parseString fuel rest).map fun r => (.rune c :: r.1, r.2)

/-- The leading decimal digits of the input and what follows them. -/
def spanDigits : List StrElem → List Char × List StrElem
  | .rune c :: rest =>
    if (digitVal c).isSome then
      let r := spanDigits rest
      (c :: r.1, r.2)
    else ([], .rune c :: rest)
  | s => ([], s)

/-- The optional fraction of a number literal: a dot and at least one digit. `none` is a
syntax error (a dot without a digit). -/
def parseFrac (s : List StrElem) : Option (List Char × List StrElem) :=
  match s with
  | .rune '.' :: rest =>
    match spanDigits rest with
    | ([], _) => none
    | (ds, rest2) => some ('.' :: ds, rest2)
  | _ => some ([], s)

/-- The optional exponent of a number literal: e or E, an optional sign and at least one
digit. `none` is a syntax error. -/
def parseExp (s : List StrElem) : Option (List Char × List StrElem) :=
  match s with
  | .rune e :: rest =>
    if e = 'e' ∨ e = 'E' then
      let signed : List Char × List StrElem :=
        match rest with
        | .rune sg :: rest2 => if sg = '+' ∨ sg = '-' then ([sg], rest2) else ([], rest)
        | _ => ([], rest)
      match spanDigits signed.2 with
      | ([], _) => none
      | (ds, rest3) => some (e :: (signed.1 ++ ds), rest3)
    else some ([], s)
  | _ => some ([], s)

/-- The number literal whose optional minus sign has been read (`neg` tells whether there
was one): an integer part without leading zero, then the optional fraction and exponent. -/
def parseNumber (neg : Bool) (s : List StrElem) : Option (Json × List StrElem) :=
  match spanDigits s with
  | ([], _) => none
  | (d :: ds, rest) =>
    if d = '0' ∧ ds ≠ [] then none
    else
      match parseFrac rest with
      | none => none
      | some (frac, rest2) =>
        match parseExp rest2 with
        | none => none
        | some (ex, rest3) =>
          if frac = [] ∧ ex = [] then
            match parseDigits (d :: ds) 0 with
            | some n => some (.int (if neg then -(n : Int) else (n : Int)), rest3)
            | none => none
          else
            some (.float ((if neg then ['-'] else []) ++ (d :: ds) ++ frac ++ ex), rest3)

/-- Go `encoding/json.maxNestingDepth`: arrays and objects may nest this deep. -/
def maxNestingDepth : Nat := 10000

mutual
/-- One JSON value at the start of the input, after optional white space: the value and
the input after it, `none` for a syntax error. `fuel` bounds the recursion and `depth` is
the number of arrays and objects that may still be opened. -/
def parseValue : Nat → Nat → List StrElem → Option (Json × List StrElem)
  | 0, _, _ => none
  | fuel + 1, depth, s =>
    match skipWS s with
    | .rune c :: rest =>
      if c = dquote then
        (parseString (rest.length + 1) rest).map fun r => (.str r.1, r.2)
      else if c = '[' then
        match depth with
        | 0 => none
        | depth + 1 =>
          match skipWS rest with
          | .rune ']' :: rest2 => some (.arr [], rest2)
          | _ => (parseElems fuel depth rest).map fun r => (.arr r.1, r.2)
      else if c.toNat = 123 then
        match depth with
        | 0 => none
        | depth + 1 =>
          match skipWS rest with
          | .rune cl :: rest2 =>
            if cl.toNat = 125 then some (.obj [], rest2)
            else (parseMembers fuel depth rest).map fun r => (.obj r.1, r.2)
          | _ => none
      else if c = '-' then parseNumber true rest
      else if (digitVal c).isSome then parseNumber false (.rune c :: rest)
      else
        match .rune c :: rest with
        | .rune 'n' :: .rune 'u' :: .rune 'l' :: .rune 'l' :: rest2 => some (.null, rest2)
        | .rune 't' :: .rune 'r' :: .rune 'u' :: .rune 'e' :: rest2 => some (.bool true, rest2)
        | .rune 'f' :: .rune 'a' :: .rune 'l' :: .rune 's' :: .rune 'e' :: rest2 =>
          some (.bool false, rest2)
        | _ => none
    | _ => none
/-- The elements of an array up to and including its closing bracket. -/
def parseElems : Nat → Nat → List StrElem → Option (List Json × List StrElem)
  | 0, _, _ => none
  | fuel + 1, depth, s =>
    match parseValue fuel depth s with
    | none => none
    | some (v, rest) =>
      match skipWS rest with
      | .rune c :: rest2 =>
        if c = ',' then (parseElems fuel depth rest2).map fun r => (v :: r.1, r.2)
        else if c = ']' then some ([v], rest2)
        else none
      | _ => none
/-- The members of an object up to and including its closing brace. -/
def parseMembers : Nat → Nat → List StrElem → Option (List (GoString × Json) × List StrElem)
  | 0, _, _ => none
  | fuel + 1, depth, s =>
    match skipWS s with
    | .rune q :: rest =>
      if q = dquote then
        match parseString (rest.length + 1) rest with
        | none => none
        | some (key, rest2) =>
          match skipWS rest2 with
          | .rune col :: rest3 =>
            if col = ':' then
              match parseValue fuel depth rest3 with
              | none => none
              | some (v, rest4) =>
                match skipWS rest4 with
                | .rune c :: rest5 =>
                  if c = ',' then
                    (parseMembers fuel depth rest5).map fun r => ((key, v) :: r.1, r.2)
                  else if c.toNat = 125 then some ([(key, v)], rest5)
                  else none
                | _ => none
            else none
          | _ => none
      else none
    | _ => none
end

/-- The JSON value a text denotes (`checkValid` followed by the scan of the decoder): one
value with white space around it and nothing else; `none` when the text is not well-formed
JSON. -/
def parseJSON (data : GoString) : Option Json :=
  match parseValue (2 * data.length + 2) maxNestingDepth data with
  | some (j, rest) => if skipWS rest = [] then some j else none
  | none => none

/-! ## encoding/json: Marshal -/

/-- The `json:"name,omitempty"` tag of a struct field. -/
structure FieldTag where
  name : GoString
  omitEmpty : Bool
  deriving DecidableEq, Repr

/-- Go value as `encoding/json` sees it through reflection, for the kinds of the `Task`
type: `time` is the struct `time.Time`, which brings its own `MarshalJSON`. -/
inductive GoValue where
  | string (s : GoString)
  | int (n : Int)
  | bool (b : Bool)
  | time (t : Time)
  | struct (fields : List (FieldTag × GoValue))
  | nilPtr
  | ptr (pointee : GoValue)
  | nilSlice
  | slice (elems : List GoValue)

/-- Go `encoding/json.isEmptyValue`: false, 0, a nil pointer and an empty string or slice are
empty. A struct never is. -/
def isEmptyValue : GoValue → Bool
  | .string s => s.length == 0
  | .int n => n == 0
  | .bool b => !b
  | .nilPtr => true
  | .ptr _ => false
  | .nilSlice => true
  | .slice elems => elems.length == 0
  | .time _ => false
  | .struct _ => false

mutual
/-- The JSON value `json.Marshal` produces for a Go value (`reflectValue`), or the error of
a `MarshalJSON` method. -/
def GoValue.toJson : GoValue → Except GoError Json
  | .string s => .ok (.str s)
  | .int n => .ok (.int n)
  | .bool b => .ok (.bool b)
  | .time t =>
    match t.MarshalJSON with
    | .ok s => .ok (.str s)
    | .error err =>
      .error (.wrap (gs "json: error calling MarshalJSON for type time.Time: " ++ err.Error) err)
  | .struct fields => (fieldsToJson fields).map Json.obj
  | .nilPtr => .ok .null
  | .ptr v => v.toJson
  | .nilSlice => .ok .null
  | .slice elems => (elemsToJson elems).map Json.arr
/-- The struct encoder: the fields in declaration order, a field tagged `omitempty` being
skipped when `isEmptyValue` holds of it. -/
def fieldsToJson : List (FieldTag × GoValue) → Except GoError (List (GoString × Json))
  | [] => .ok []
  | (tag, v) :: rest =>
    if tag.omitEmpty && isEmptyValue v then fieldsToJson rest
    else
      match v.toJson with
      | .error err => .error err
      | .ok j => (fieldsToJson rest).map ((tag.name, j) :: ·)
/-- The slice encoder. -/
def elemsToJson : List GoValue → Except GoError (List Json)
  | [] => .ok []
  | v :: rest =>
    match v.toJson with
    | .error err => .error err
    | .ok j => (elemsToJson rest).map (j :: ·)
end

/-- Go `json.Marshal(v)`: the compact text of the value's JSON form. -/
def Marshal (v : GoValue) : Except GoError GoString :=
  v.toJson.map fun j => j.render.map StrElem.rune

/-! ## The data model -/

/-- Go `int`: a 64-bit signed integer. -/
abbrev GoInt := { n : Int // -2 ^ 63 ≤ n ∧ n < 2 ^ 63 }

/-- The zero `int`. -/
def GoInt.zero : GoInt := ⟨0, by decide⟩

/-- Go `Due`. -/
structure Due where
  Date : GoString
  IsRecurring : Bool
  Datetime : GoString
  String : GoString
  Timezone : GoString
  deriving DecidableEq, Repr

/-- Go `Duration`. -/
structure Duration where
  Amount : GoInt
  Unit : GoString
  deriving DecidableEq, Repr

/-- Go `Task`. `Duration = none` is the nil pointer and `Labels = none` the nil slice. -/
structure Task where
  CreatorID : GoString
  CreatedAt : Time
  AssigneeID : GoString
  AssignerID : GoString
  CommentCount : GoInt
  IsCompleted : Bool
  Content : GoString
  Description : GoString
  Due : Due
  Duration : Option Duration
  ID : GoString
  Labels : Option (List GoString)
  Order : GoInt
  Priority : GoInt
  ProjectID : GoString
  SectionID : GoString
  ParentID : GoString
  URL : GoString
  deriving DecidableEq, Repr

/-- The zero `Due`. -/
def Due.zero : Due :=
  { Date := [], IsRecurring := false, Datetime := [], String := [], Timezone := [] }

/-- The zero `Duration`. -/
def Duration.zero : Duration := { Amount := GoInt.zero, Unit := [] }

/-- The zero `Task`. -/
def Task.zero : Task :=
  { CreatorID := [], CreatedAt := Time.zero, AssigneeID := [], AssignerID := [],
    CommentCount := GoInt.zero, IsCompleted := false, Content := [], Description := [],
    Due := Due.zero, Duration := none, ID := [], Labels := none, Order := GoInt.zero,
    Priority := GoInt.zero, ProjectID := [], SectionID := [], ParentID := [], URL := [] }

/-- The struct `Due` with its field tags, as reflection shows it. -/
def Due.reflect (d : Due) : GoValue :=
  .struct [
    (⟨gs "date", false⟩, .string d.Date),
    (⟨gs "is_recurring", false⟩, .bool d.IsRecurring),
    (⟨gs "datetime", false⟩, .string d.Datetime),
    (⟨gs "string", false⟩, .string d.String),
    (⟨gs "timezone", false⟩, .string d.Timezone)]

/-- The struct `Duration` with its field tags, as reflection shows it. -/
def Duration.reflect (d : Duration) : GoValue :=
  .struct [
    (⟨gs "amount", false⟩, .int d.Amount.val),
    (⟨gs "unit", false⟩, .string d.Unit)]

/-- A `*Duration`, as reflection shows it. -/
def Duration.reflectPtr : Option Duration → GoValue
  | none => .nilPtr
  | some d => .ptr d.reflect

/-- A `[]string`, as reflection shows it. -/
def reflectStrings : Option (List GoString) → GoValue
  | none => .nilSlice
  | some ls => .slice (ls.map GoValue.string)

/-- The struct `Task` with its field tags, as reflection shows it. -/
def Task.reflect (t : Task) : GoValue :=
  .struct [
    (⟨gs "creator_id", true⟩, .string t.CreatorID),
    (⟨gs "created_at", true⟩, .time t.CreatedAt),
    (⟨gs "assignee_id", true⟩, .string t.AssigneeID),
    (⟨gs "assigner_id", true⟩, .string t.AssignerID),
    (⟨gs "comment_count", true⟩, .int t.CommentCount.val),
    (⟨gs "is_completed", true⟩, .bool t.IsCompleted),
    (⟨gs "content", false⟩, .string t.Content),
    (⟨gs "description", true⟩, .string t.Description),
    (⟨gs "due", true⟩, t.Due.reflect),
    (⟨gs "duration", true⟩, Duration.reflectPtr t.Duration),
    (⟨gs "id", true⟩, .string t.ID),
    (⟨gs "labels", true⟩, reflectStrings t.Labels),
    (⟨gs "order", true⟩, .int t.Order.val),
    (⟨gs "priority", true⟩, .int t.Priority.val),
    (⟨gs "project_id", true⟩, .string t.ProjectID),
    (⟨gs "section_id", true⟩, .string t.SectionID),
    (⟨gs "parent_id", true⟩, .string t.ParentID),
    (⟨gs "url", true⟩, .string t.URL)]

/-! ## encoding/json: Unmarshal -/

/-- How decoding a value went: without complaint, with a type mismatch (which
`encoding/json` saves, going on with the rest of the input), or with the error of an
`UnmarshalJSON` method (which ends the decoding there). -/
inductive Status where
  | fine
  | saved (err : GoError)
  | aborted (err : GoError)
  deriving DecidableEq, Repr

/-- The status after two steps in a row: an abort ends the decoding, and of the type
mismatches the first is kept. -/
def Status.andThen : Status → Status → Status
  | .fine, s => s
  | .saved _, .aborted e2 => .aborted e2
  | .saved e, _ => .saved e
  | .aborted e, _ => .aborted e

/-- The error `json.Unmarshal` returns for a status. -/
def Status.toError : Status → Option GoError
  | .fine => none
  | .saved e => some e
  | .aborted e => some e

/-- The JSON kind named in an `UnmarshalTypeError`. -/
def Json.kindName : Json → GoString
  | .null => gs "null"
  | .bool _ => gs "bool"
  | .int _ => gs "number"
  | .float _ => gs "number"
  | .str _ => gs "string"
  | .arr _ => gs "array"
  | .obj _ => gs "object"

/-- Go `(*UnmarshalTypeError).Error()`. -/
def typeError (j : Json) (goType : String) : GoError :=
  .new (gs "json: cannot unmarshal " ++ j.kindName ++ gs " into Go value of type " ++ gs goType)

/-- Decoding into a `string`: null leaves the value as it is, a JSON string replaces it. -/
def decodeString (j : Json) (cur : GoString) : GoString × Status :=
  match j with
  | .null => (cur, .fine)
  | .str s => (s, .fine)
  | _ => (cur, .saved (typeError j "string"))

/-- Decoding into a `bool`. -/
def decodeBool (j : Json) (cur : Bool) : Bool × Status :=
  match j with
  | .null => (cur, .fine)
  | .bool b => (b, .fine)
  | _ => (cur, .saved (typeError j "bool"))

/-- Decoding into an `int`: a number literal that `strconv.ParseInt` reads as a 64-bit
integer. -/
def decodeInt (j : Json) (cur : GoInt) : GoInt × Status :=
  match j with
  | .null => (cur, .fine)
  | .int n =>
    if h : -2 ^ 63 ≤ n ∧ n < 2 ^ 63 then (⟨n, h⟩, .fine) else (cur, .saved (typeError j "int"))
  | _ => (cur, .saved (typeError j "int"))

/-- Decoding into a `time.Time`, which brings its own `UnmarshalJSON`: null leaves the value
as it is, anything else goes to the method, whose error ends the decoding. (Go hands the
method the text of the literal; here escape sequences are already resolved, which makes a
difference only for a timestamp written with escape sequences. Later versions of
`encoding/json` go on with the rest of the input after the error of the method.) -/
def decodeTime (j : Json) (cur : Time) : Time × Status :=
  match j with
  | .null => (cur, .fine)
  | .str s =>
    match Time.UnmarshalJSON s with
    | .ok t => (t, .fine)
    | .error err => (cur, .aborted err)
  | _ => (cur, .aborted (.new (gs "Time.UnmarshalJSON: input is not a JSON string")))

/-- The array decoder of `encoding/json` on a slice: element `i` of the array is decoded into
element `i` of the slice, which is the zero value when the slice is shorter; the slice ends
up as long as the array. An abort leaves the rest of the slice as it was. (A slice element
past the length starts out zero: spare capacity left by an earlier, longer content is not
modelled.) -/
def decodeElems {α : Type} (dec : Json → α → α × Status) (zero : α) :
    List Json → List α → List α × Status
  | [], _ => ([], .fine)
  | j :: js, cur =>
    match dec j (cur.headD zero) with
    | (v, .aborted err) => (v :: cur.tail, .aborted err)
    | (v, st) =>
      let r := decodeElems dec zero js cur.tail
      (v :: r.1, st.andThen r.2)

/-- Decoding into a slice: null makes it nil, an array is decoded element by element into a
non-nil slice, anything else is a type mismatch. -/
def decodeSlice {α : Type} (dec : Json → α → α × Status) (zero : α) (goType : String)
    (j : Json) (cur : Option (List α)) : Option (List α) × Status :=
  match j with
  | .null => (none, .fine)
  | .arr elems =>
    let r := decodeElems dec zero elems (cur.getD [])
    (some r.1, r.2)
  | _ => (cur, .saved (typeError j goType))

/-- Go `encoding/json.foldRune` as far as it matters for ASCII field names: letters fold to
upper case, and so do the long s and the Kelvin sign. -/
def foldElem : StrElem → StrElem
  | .raw b => .raw b
  | .rune c =>
    if 97 ≤ c.toNat ∧ c.toNat ≤ 122 then .rune (Char.ofNat (c.toNat - 32))
    else if c.toNat = 0x17F then .rune 'S'
    else if c.toNat = 0x212A then .rune 'K'
    else .rune c

/-- Go `encoding/json.foldName`. -/
def foldName (s : GoString) : GoString := s.map foldElem

/-- The struct field a JSON object key selects: the one with exactly that name, else the
first one with the same folded name; `none` for a key that selects no field. -/
def fieldIndex (names : List GoString) (key : GoString) : Option Nat :=
  match names.indexOf? key with
  | some i => some i
  | none => (names.map foldName).indexOf? (foldName key)

/-- The object decoder of `encoding/json` on a struct: the members in the order of the text,
each decoded into the field its key selects (`store`), a key that selects none being
skipped; an abort ends it. -/
def decodeMembers {α : Type} (store : GoString → Json → α → α × Status) :
    List (GoString × Json) → α → α × Status
  | [], cur => (cur, .fine)
  | (key, j) :: rest, cur =>
    match store key j cur with
    | (v, .aborted err) => (v, .aborted err)
    | (v, st) =>
      let r := decodeMembers store rest v
      (r.1, st.andThen r.2)

/-- Decoding into a struct: null leaves it as it is, an object is decoded member by member,
anything else is a type mismatch. -/
def decodeStruct {α : Type} (store : GoString → Json → α → α × Status) (goType : String)
    (j : Json) (cur : α) : α × Status :=
  match j with
  | .null => (cur, .fine)
  | .obj members => decodeMembers store members cur
  | _ => (cur, .saved (typeError j goType))

/-- Decoding into a pointer: null makes it nil, anything else is decoded into the pointee,
a zero one being allocated for a nil pointer. -/
def decodePtr {α : Type} (dec : Json → α → α × Status) (zero : α) (j : Json)
    (cur : Option α) : Option α × Status :=
  match j with
  | .null => (none, .fine)
  | _ =>
    let r := dec j (cur.getD zero)
    (some r.1, r.2)

/-- The JSON names of the fields of `Due`, in declaration order. -/
def Due.fieldNames : List GoString :=
  [gs "date", gs "is_recurring", gs "datetime", gs "string", gs "timezone"]

/-- Storing the value of one member of a JSON object into a `Due`. -/
def Due.store (key : GoString) (j : Json) (d : Due) : Due × Status :=
  match fieldIndex Due.fieldNames key with
  | some 0 => let r := decodeString j d.Date; ({ d with Date := r.1 }, r.2)
  | some 1 => let r := decodeBool j d.IsRecurring; ({ d with IsRecurring := r.1 }, r.2)
  | some 2 => let r := decodeString j d.Datetime; ({ d with Datetime := r.1 }, r.2)
  | some 3 => let r := decodeString j d.String; ({ d with String := r.1 }, r.2)
  | some 4 => let r := decodeString j d.Timezone; ({ d with Timezone := r.1 }, r.2)
  | _ => (d, .fine)

/-- Decoding into a `Due`. -/
def Due.decode : Json → Due → Due × Status :=
  decodeStruct Due.store "todoist.Due"

/-- The JSON names of the fields of `Duration`, in declaration order. -/
def Duration.fieldNames : List GoString := [gs "amount", gs "unit"]

/-- Storing the value of one member of a JSON object into a `Duration`. -/
def Duration.store (key : GoString) (j : Json) (d : Duration) : Duration × Status :=
  match fieldIndex Duration.fieldNames key with
  | some 0 => let r := decodeInt j d.Amount; ({ d with Amount := r.1 }, r.2)
  | some 1 => let r := decodeString j d.Unit; ({ d with Unit := r.1 }, r.2)
  | _ => (d, .fine)

/-- Decoding into a `Duration`. -/
def Duration.decode : Json → Duration → Duration × Status :=
  decodeStruct Duration.store "todoist.Duration"

/-- The JSON names of the fields of `Task`, in declaration order. -/
def Task.fieldNames : List GoString :=
  [gs "creator_id", gs "created_at", gs "assignee_id", gs "assigner_id", gs "comment_count",
   gs "is_completed", gs "content", gs "description", gs "due", gs "duration", gs "id",
   gs "labels", gs "order", gs "priority", gs "project_id", gs "section_id", gs "parent_id",
   gs "url"]

/-- Storing the value of one member of a JSON object into a `Task`. -/
def Task.store (key : GoString) (j : Json) (t : Task) : Task × Status :=
  match fieldIndex Task.fieldNames key with
  | some 0 => let r := decodeString j t.CreatorID; ({ t with CreatorID := r.1 }, r.2)
  | some 1 => let r := decodeTime j t.CreatedAt; ({ t with CreatedAt := r.1 }, r.2)
  | some 2 => let r := decodeString j t.AssigneeID; ({ t with AssigneeID := r.1 }, r.2)
  | some 3 => let r := decodeString j t.AssignerID; ({ t with AssignerID := r.1 }, r.2)
  | some 4 => let r := decodeInt j t.CommentCount; ({ t with CommentCount := r.1 }, r.2)
  | some 5 => let r := decodeBool j t.IsCompleted; ({ t with IsCompleted := r.1 }, r.2)
  | some 6 => let r := decodeString j t.Content; ({ t with Content := r.1 }, r.2)
  | some 7 => let r := decodeString j t.Description; ({ t with Description := r.1 }, r.2)
  | some 8 => let r := Due.decode j t.Due; ({ t with Due := r.1 }, r.2)
  | some 9 =>
    let r := decodePtr Duration.decode Duration.zero j t.Duration
    ({ t with Duration := r.1 }, r.2)
  | some 10 => let r := decodeString j t.ID; ({ t with ID := r.1 }, r.2)
  | some 11 =>
    let r := decodeSlice decodeString [] "[]string" j t.Labels
    ({ t with Labels := r.1 }, r.2)
  | some 12 => let r := decodeInt j t.Order; ({ t with Order := r.1 }, r.2)
  | some 13 => let r := decodeInt j t.Priority; ({ t with Priority := r.1 }, r.2)
  | some 14 => let r := decodeString j t.ProjectID; ({ t with ProjectID := r.1 }, r.2)
  | some 15 => let r := decodeString j t.SectionID; ({ t with SectionID := r.1 }, r.2)
  | some 16 => let r := decodeString j t.ParentID; ({ t with ParentID := r.1 }, r.2)
  | some 17 => let r := decodeString j t.URL; ({ t with URL := r.1 }, r.2)
  | _ => (t, .fine)

/-- Decoding into a `Task`. -/
def Task.decode : Json → Task → Task × Status :=
  decodeStruct Task.store "todoist.Task"

/-- Go `(*SyntaxError)`, whatever its text. -/
def syntaxError : GoError := .new (gs "invalid character or unexpected end of JSON input")

/-- Go `json.Unmarshal(data, &v)` for a `v` that `dec` decodes into: text that is not
well-formed JSON is refused before `v` is touched; otherwise the value is decoded into `v`,
and the error is the abort or else the first type mismatch. -/
def Unmarshal {α : Type} (dec : Json → α → α × Status) (data : GoString) (v : α) :
    α × Option GoError :=
  match parseJSON data with
  | none => (v, some syntaxError)
  | some j =>
    let r := dec j v
    (r.1, r.2.toError)

/-- Go `json.Unmarshal(data, &tasks)` for `tasks []Task`. -/
def UnmarshalTasks (data : GoString) (tasks : Option (List Task)) :
    Option (List Task) × Option GoError :=
  Unmarshal (decodeSlice Task.decode Task.zero "[]todoist.Task") data tasks

/-- Go `json.Unmarshal(data, &task)` for `task Task`. -/
def UnmarshalTask (data : GoString) (task : Task) : Task × Option GoError :=
  Unmarshal Task.decode data task

/-! ## The client -/

/-- Go `todoistAPIBaseURL`. -/
def todoistAPIBaseURL : GoString := gs "https://api.todoist.com/rest/v2"

/-- Go `todositAPITasksURL`. -/
def todositAPITasksURL : GoString := todoistAPIBaseURL ++ gs "/tasks"

/-- Go `Client`. -/
structure Client where
  token : GoString
  httpClient : HttpClient

/-- Go `ClientOption`: a function that updates the client in place. -/
abbrev ClientOption := Client → Client

/-- Go `NewClient(token, opts...)`: a client with the token and a zero `http.Client`, to which
the options are applied in argument order. -/
def NewClient (token : GoString) (opts : List ClientOption) : Client :=
  opts.foldl (fun client opt => opt client) { token := token, httpClient := {} }

/-- Go `WithHTTPTransport(transport)`. -/
def WithHTTPTransport (transport : RoundTripper) : ClientOption :=
  fun c => { c with httpClient := { c.httpClient with Transport := some transport } }

/-- Go `(*Client).makeRequest(method, url, body)`. The `url` argument is not used: the request
always goes to `todositAPITasksURL`. -/
def Client.makeRequest (dflt : RoundTripper) (c : Client) (method _url : GoString)
    (body : Option GoString) : Except GoError Response × List Request :=
  match NewRequest method todositAPITasksURL body with
  | .error err => (.error (Errorf_w (gs "error creating request: ") err), [])
  | .ok req =>
    let req := { req with Header := req.Header.Add (gs "Authorization") (gs "Bearer " ++ c.token) }
    let req := { req with Header := req.Header.Add (gs "Content-Type") (gs "application/json") }
    match c.httpClient.Do dflt req with
    | (.error err, sent) => (.error (Errorf_w (gs "error sending request: ") err), sent)
    | (.ok resp, sent) => (.ok resp, sent)

/-- Go `(*Client).ListTasks()`: the tasks, the error, and the requests handed to the
transport. -/
def Client.ListTasks (dflt : RoundTripper) (c : Client) :
    (Option (List Task) × Option GoError) × List Request :=
  match c.makeRequest dflt MethodGet todositAPITasksURL none with
  | (.error err, sent) =>
    ((none, some (Errorf_w (gs "error making get task request: ") err)), sent)
  | (.ok resp, sent) =>
    let err : Option GoError := none
    let body := resp.Body
    if resp.StatusCode ≠ StatusOK then
      ((none, some (Errorf_s_error (gs "error making get task request: ") err)), sent)
    else
      let tasks : Option (List Task) := none
      let tasks := (UnmarshalTasks body tasks).1
      ((tasks, none), sent)

/-- Go `(*Client).CreateTask(task)`: the error, and the requests handed to the transport. -/
def Client.CreateTask (dflt : RoundTripper) (c : Client) (task : Task) :
    Option GoError × List Request :=
  match Marshal task.reflect with
  | .error err => (some (Errorf_w (gs "error marshalling task: ") err), [])
  | .ok jsonValue =>
    match c.makeRequest dflt MethodPost todositAPITasksURL (some jsonValue) with
    | (.error err, sent) =>
      (some (Errorf_w (gs "error making create task request: ") err), sent)
    | (.ok resp, sent) =>
      let body := resp.Body
      if resp.StatusCode ≠ StatusOK then
        (some (Errorf_s_bytes (gs "error making create task request: ") body), sent)
      else (none, sent)

/-! ## The client over a transport that redirects -/

/-- Go `Header.Set(key, value)`, on a canonical key. -/
def Header.Set : Header → GoString → GoString → Header
  | [], key, value => [(key, [value])]
  | (k, vs) :: rest, key, value =>
    if k = key then (k, [value]) :: rest else (k, vs) :: Header.Set rest key value

/-- The headers `http.Client` does not copy to a follow-up request that leaves the domain
of the first request. (Older versions of `net/http` list only the first four; this package
sets none but `Authorization`.) -/
def sensitiveHeader (key : GoString) : Bool :=
  [gs "Authorization", gs "Www-Authenticate", gs "Cookie", gs "Cookie2",
   gs "Proxy-Authorization", gs "Proxy-Authenticate"].contains key

/-- The headers that describe a request body. -/
def contentHeader (key : GoString) : Bool :=
  [gs "Content-Encoding", gs "Content-Language", gs "Content-Location",
   gs "Content-Type"].contains key

namespace Redirects

/-- What `http.Client` reads from a response with status 307 or 308 and a `Location`
header, seen against the request it answers: the URL the header resolves to, whether the
host of that URL is the host of the request or a subdomain of it
(`isDomainOrSubdomain`), and whether the request went over https and that URL is plain
http. -/
structure Redirection where
  URL : GoString
  SameDomain : Bool
  Downgrade : Bool
  deriving DecidableEq, Repr

/-- What a transport that may redirect answers: a response without a `Location` header
(a `Response` of this model), or a 307 or 308 with one. (A 301, 302 or 303 with a
`Location` header is left out: `http.Client` follows it with a GET without body.) -/
inductive Reply where
  | response (resp : Response)
  | redirect (target : Redirection)
  deriving DecidableEq, Repr

/-- Go `http.RoundTripper` that may redirect once: what it answers to a request of the
client, and what it answers to the follow-up request, which is a response without a
`Location` header. -/
structure RoundTripper where
  first : Request → Except GoError Reply
  next : Request → Except GoError Response

/-- A transport that never redirects, as a transport of this section. -/
def RoundTripper.ofPlain (rt : Todoist.RoundTripper) : RoundTripper :=
  { first := fun req => (rt req).map Reply.response, next := rt }

/-- Go `http.Client` with a transport that may redirect. `CheckRedirect` and `Jar` are only
ever nil or not in this package and `Timeout` is a duration in nanoseconds. -/
structure HttpClient where
  Transport : Option RoundTripper := none
  CheckRedirect : Option Unit := none
  Jar : Option Unit := none
  Timeout : Int := 0

/-- Go `Client`, with a transport that may redirect. -/
structure Client where
  token : GoString
  httpClient : HttpClient

/-- Go `ClientOption`: a function that updates the client in place. -/
abbrev ClientOption := Client → Client

/-- Go `NewClient(token, opts...)`: a client with the token and a zero `http.Client`, to which
the options are applied in argument order. -/
def NewClient (token : GoString) (opts : List ClientOption) : Client :=
  opts.foldl (fun client opt => opt client) { token := token, httpClient := {} }

/-- Go `WithHTTPTransport(transport)`. -/
def WithHTTPTransport (transport : RoundTripper) : ClientOption :=
  fun c => { c with httpClient := { c.httpClient with Transport := some transport } }

/-- The request `http.Client` issues on its own after a 307 or 308: the method and the
body of the first request (`NewRequest` gave it a `GetBody`), the URL of the `Location`
header, the headers of the first request, of which the sensitive ones are left out when
the redirect leaves the domain, and a `Referer` with the URL of the first request unless
the redirect goes from https to plain http. Versions of `net/http` differ in whether the
headers that describe a body are copied to a follow-up request without body:
`dropContent` tells that they are not. -/
def followUp (dropContent : Bool) (req : Request) (target : Redirection) : Request :=
  let kept := req.Header.filter fun kv =>
    !(sensitiveHeader kv.1 && !target.SameDomain) &&
    !(contentHeader kv.1 && dropContent && req.Body.isNone)
  { Method := req.Method, URL := target.URL,
    Header := if target.Downgrade then kept else Header.Set kept (gs "Referer") req.URL,
    Body := req.Body }

/-- Go `(*http.Client).Do(req)` with the one redirect a transport of this section can ask for: the
configured transport, or the default transport `dflt` when none is configured, is handed
the request, and after a 307 or 308 with a `Location` header it is handed the follow-up
request. An error comes back inside a `*url.Error` that names the URL of the request that
failed. The second component is the list of requests handed to the transport. Cookies and
the timeout are not modelled. -/
def Do (dropContent : Bool) (dflt : RoundTripper) (hc : HttpClient) (req : Request) :
    Except GoError Response × List Request :=
  let rt := hc.Transport.getD dflt
  match rt.first req with
  | .error e => (.error (urlError (urlErrorOp req.Method) req.URL e), [req])
  | .ok (.response resp) => (.ok resp, [req])
  | .ok (.redirect target) =>
    let req2 := followUp dropContent req target
    match rt.next req2 with
    | .error e => (.error (urlError (urlErrorOp req.Method) req2.URL e), [req, req2])
    | .ok resp => (.ok resp, [req, req2])

/-- Go `(*Client).makeRequest(method, url, body)`. The `url` argument is not used: the request
always goes to `todositAPITasksURL`. -/
def makeRequest (dropContent : Bool) (dflt : RoundTripper) (c : Client) (method _url : GoString)
    (body : Option GoString) : Except GoError Response × List Request :=
  match NewRequest method todositAPITasksURL body with
  | .error err => (.error (Errorf_w (gs "error creating request: ") err), [])
  | .ok req =>
    let req := { req with Header := req.Header.Add (gs "Authorization") (gs "Bearer " ++ c.token) }
    let req := { req with Header := req.Header.Add (gs "Content-Type") (gs "application/json") }
    match Do dropContent dflt c.httpClient req with
    | (.error err, sent) => (.error (Errorf_w (gs "error sending request: ") err), sent)
    | (.ok resp, sent) => (.ok resp, sent)

/-- Go `(*Client).ListTasks()`: the tasks, the error, and the requests handed to the
transport. -/
def ListTasks (dropContent : Bool) (dflt : RoundTripper) (c : Client) :
    (Option (List Task) × Option GoError) × List Request :=
  match makeRequest dropContent dflt c MethodGet todositAPITasksURL none with
  | (.error err, sent) =>
    ((none, some (Errorf_w (gs "error making get task request: ") err)), sent)
  | (.ok resp, sent) =>
    let err : Option GoError := none
    let body := resp.Body
    if resp.StatusCode ≠ StatusOK then
      ((none, some (Errorf_s_error (gs "error making get task request: ") err)), sent)
    else
      let tasks : Option (List Task) := none
      let tasks := (UnmarshalTasks body tasks).1
      ((tasks, none), sent)

/-- Go `(*Client).CreateTask(task)`: the error, and the requests handed to the transport. -/
def CreateTask (dropContent : Bool) (dflt : RoundTripper) (c : Client) (task : Task) :
    Option GoError × List Request :=
  match Marshal task.reflect with
  | .error err => (some (Errorf_w (gs "error marshalling task: ") err), [])
  | .ok jsonValue =>
    match makeRequest dropContent dflt c MethodPost todositAPITasksURL (some jsonValue) with
    | (.error err, sent) =>
      (some (Errorf_w (gs "error making create task request: ") err), sent)
    | (.ok resp, sent) =>
      let body := resp.Body
      if resp.StatusCode ≠ StatusOK then
        (some (Errorf_s_bytes (gs "error making create task request: ") body), sent)
      else (none, sent)

/-- The transport the requests of a client go to: the configured one, else the default. -/
def transport (dflt : RoundTripper) (c : Client) : RoundTripper :=
  c.httpClient.Transport.getD dflt

/-- The request `makeRequest` builds for a method and a body. -/
def request (c : Client) (method : GoString) (body : Option GoString) : Request :=
  { Method := method, URL := todositAPITasksURL,
    Header := [(gs "Authorization", [gs "Bearer " ++ c.token]),
               (gs "Content-Type", [gs "application/json"])],
    Body := body }

/-- A client over transports that never redirect, as a client of this section. -/
def ofPlain (c : Todoist.Client) : Client :=
  { token := c.token,
    httpClient :=
      { Transport := c.httpClient.Transport.map RoundTripper.ofPlain,
        CheckRedirect := c.httpClient.CheckRedirect,
        Jar := c.httpClient.Jar,
        Timeout := c.httpClient.Timeout } }

/-- An option that replaces the token: every `func(*Client)` is a `ClientOption`. -/
def replaceToken (token : GoString) : ClientOption :=
  fun c => { c with token := token }

end Redirects

/-! ## What the statements below talk about -/

/-- The transport a client's requests go to: the configured one, else the default. -/
def Client.transport (dflt : RoundTripper) (c : Client) : RoundTripper :=
  c.httpClient.Transport.getD dflt

/-- The request `makeRequest` builds for a method and a body. -/
def Client.request (c : Client) (method : GoString) (body : Option GoString) : Request :=
  { Method := method, URL := todositAPITasksURL,
    Header := [(gs "Authorization", [gs "Bearer " ++ c.token]),
               (gs "Content-Type", [gs "application/json"])],
    Body := body }

/-- Two tasks have the same value in the field with the given index (in declaration
order); indices past the last field constrain nothing. -/
def Task.agreeOn (f : Nat) (a b : Task) : Prop :=
  match f with
  | 0 => a.CreatorID = b.CreatorID
  | 1 => a.CreatedAt = b.CreatedAt
  | 2 => a.AssigneeID = b.AssigneeID
  | 3 => a.AssignerID = b.AssignerID
  | 4 => a.CommentCount = b.CommentCount
  | 5 => a.IsCompleted = b.IsCompleted
  | 6 => a.Content = b.Content
  | 7 => a.Description = b.Description
  | 8 => a.Due = b.Due
  | 9 => a.Duration = b.Duration
  | 10 => a.ID = b.ID
  | 11 => a.Labels = b.Labels
  | 12 => a.Order = b.Order
  | 13 => a.Priority = b.Priority
  | 14 => a.ProjectID = b.ProjectID
  | 15 => a.SectionID = b.SectionID
  | 16 => a.ParentID = b.ParentID
  | 17 => a.URL = b.URL
  | _ => True

/-- Two `Due` values have the same value in the field with the given index (in declaration
order); indices past the last field constrain nothing. -/
def Due.agreeOn (f : Nat) (a b : Due) : Prop :=
  match f with
  | 0 => a.Date = b.Date
  | 1 => a.IsRecurring = b.IsRecurring
  | 2 => a.Datetime = b.Datetime
  | 3 => a.String = b.String
  | 4 => a.Timezone = b.Timezone
  | _ => True

/-- Two `Duration` values have the same value in the field with the given index. -/
def Duration.agreeOn (f : Nat) (a b : Duration) : Prop :=
  match f with
  | 0 => a.Amount = b.Amount
  | 1 => a.Unit = b.Unit
  | _ => True

/-- What a notion of agreement on a field must satisfy with respect to the storing of one
member: it is reflexive and transitive, a member whose key selects another field or none
leaves the field as it is, and a member whose key selects the field overwrites it in a way
that does not depend on what the other fields hold. -/
structure FieldLaws {α : Type} (store : GoString → Json → α → α × Status)
    (names : List GoString) (agree : Nat → α → α → Prop) : Prop where
  refl : ∀ f a, agree f a a
  trans : ∀ f a b c, agree f a b → agree f b c → agree f a c
  other : ∀ key j t f, fieldIndex names key ≠ some f → agree f (store key j t).1 t
  same : ∀ key j t1 t2 f, fieldIndex names key = some f → agree f t1 t2 →
    agree f (store key j t1).1 (store key j t2).1

/-- The value of the first member of an object whose key selects the field with index
`f`; `none` when no key selects it. -/
def memberFor (names : List GoString) (f : Nat) (members : List (GoString × Json)) :
    Option Json :=
  (members.find? fun m => fieldIndex names m.1 == some f).map (·.2)

/-- No field is selected by the keys of two members of the object. -/
def distinctFields (names : List GoString) : List (GoString × Json) → Bool
  | [] => true
  | m :: rest =>
    (match fieldIndex names m.1 with
      | none => true
      | some f => rest.all fun m2 => fieldIndex names m2.1 != some f)
    && distinctFields names rest

/-- Following the specification, the value of a string field: the string of the member
present for it, the zero value when the member is absent or null. -/
def expectedString : Option Json → GoString
  | some (.str s) => s
  | _ => []

/-- Following the specification, the value of a boolean field. -/
def expectedBool : Option Json → Bool
  | some (.bool b) => b
  | _ => false

/-- Following the specification, the value of an integer field. -/
def expectedInt : Option Json → GoInt
  | some (.int n) => if h : -2 ^ 63 ≤ n ∧ n < 2 ^ 63 then ⟨n, h⟩ else GoInt.zero
  | _ => GoInt.zero

/-- Following the specification, the value of a time field: the instant the RFC 3339
timestamp of the member names. -/
def expectedTime : Option Json → Time
  | some (.str s) => ((runesOf s).bind parseRFC3339).getD Time.zero
  | _ => Time.zero

/-- Following the specification, the value of a field that is a list of strings: the
strings of the array in their order, nil when the member is absent or null. -/
def expectedStrings : Option Json → Option (List GoString)
  | some (.arr elems) => some (elems.map fun e => expectedString (some e))
  | _ => none

/-- Following the specification, the `Due` an object stands for: every field from the
member present for it. -/
def Due.ofMembers (members : List (GoString × Json)) : Due :=
  { Date := expectedString (memberFor Due.fieldNames 0 members),
    IsRecurring := expectedBool (memberFor Due.fieldNames 1 members),
    Datetime := expectedString (memberFor Due.fieldNames 2 members),
    String := expectedString (memberFor Due.fieldNames 3 members),
    Timezone := expectedString (memberFor Due.fieldNames 4 members) }

/-- Following the specification, the value of the `due` field. -/
def expectedDue : Option Json → Due
  | some (.obj members) => Due.ofMembers members
  | _ => Due.zero

/-- Following the specification, the `Duration` an object stands for. -/
def Duration.ofMembers (members : List (GoString × Json)) : Duration :=
  { Amount := expectedInt (memberFor Duration.fieldNames 0 members),
    Unit := expectedString (memberFor Duration.fieldNames 1 members) }

/-- Following the specification, the value of the `duration` field: nil when the member is
absent or null. -/
def expectedDuration : Option Json → Option Duration
  | some (.obj members) => some (Duration.ofMembers members)
  | _ => none

/-- Following the specification, the `Task` an object of the response stands for: every
field holds the value of the member present for it, and its zero value when no member is
present for it. -/
def Task.ofMembers (members : List (GoString × Json)) : Task :=
  { CreatorID := expectedString (memberFor Task.fieldNames 0 members),
    CreatedAt := expectedTime (memberFor Task.fieldNames 1 members),
    AssigneeID := expectedString (memberFor Task.fieldNames 2 members),
    AssignerID := expectedString (memberFor Task.fieldNames 3 members),
    CommentCount := expectedInt (memberFor Task.fieldNames 4 members),
    IsCompleted := expectedBool (memberFor Task.fieldNames 5 members),
    Content := expectedString (memberFor Task.fieldNames 6 members),
    Description := expectedString (memberFor Task.fieldNames 7 members),
    Due := expectedDue (memberFor Task.fieldNames 8 members),
    Duration := expectedDuration (memberFor Task.fieldNames 9 members),
    ID := expectedString (memberFor Task.fieldNames 10 members),
    Labels := expectedStrings (memberFor Task.fieldNames 11 members),
    Order := expectedInt (memberFor Task.fieldNames 12 members),
    Priority := expectedInt (memberFor Task.fieldNames 13 members),
    ProjectID := expectedString (memberFor Task.fieldNames 14 members),
    SectionID := expectedString (memberFor Task.fieldNames 15 members),
    ParentID := expectedString (memberFor Task.fieldNames 16 members),
    URL := expectedString (memberFor Task.fieldNames 17 members) }

/-- Following the specification, the `Task` an element of the response array stands
for. -/
def Task.ofJson : Json → Task
  | .obj members => Task.ofMembers members
  | _ => Task.zero

/-- A JSON string, or null. -/
def isStringOrNull : Json → Bool
  | .null => true
  | .str _ => true
  | _ => false

/-- A JSON boolean, or null. -/
def isBoolOrNull : Json → Bool
  | .null => true
  | .bool _ => true
  | _ => false

/-- An integer literal in the range of a 64-bit `int`, or null. -/
def isIntOrNull : Json → Bool
  | .null => true
  | .int n => decide (-2 ^ 63 ≤ n ∧ n < 2 ^ 63)
  | _ => false

/-- A JSON string that holds a timestamp in RFC 3339 form, or null. -/
def isTimeOrNull : Json → Bool
  | .null => true
  | .str s => ((runesOf s).bind parseRFC3339).isSome
  | _ => false

/-- An array of JSON strings, or null. -/
def isStringsOrNull : Json → Bool
  | .null => true
  | .arr elems => elems.all fun e => match e with
    | .str _ => true
    | _ => false
  | _ => false

/-- The type the `Due` field with the given index asks of a member's value. -/
def Due.fieldOK : Option Nat → Json → Bool
  | none => fun _ => true
  | some 1 => isBoolOrNull
  | some _ => isStringOrNull

/-- The members of a well-formed `due` object: no field is given twice, and every member
that gives a field has a value of the field's type. -/
def Due.wellFormed (members : List (GoString × Json)) : Bool :=
  distinctFields Due.fieldNames members &&
    members.all fun m => Due.fieldOK (fieldIndex Due.fieldNames m.1) m.2

/-- The type the `Duration` field with the given index asks of a member's value. -/
def Duration.fieldOK : Option Nat → Json → Bool
  | none => fun _ => true
  | some 0 => isIntOrNull
  | some _ => isStringOrNull

/-- The members of a well-formed `duration` object. -/
def Duration.wellFormed (members : List (GoString × Json)) : Bool :=
  distinctFields Duration.fieldNames members &&
    members.all fun m => Duration.fieldOK (fieldIndex Duration.fieldNames m.1) m.2

/-- A well-formed `due` object, or null. -/
def isDueOrNull : Json → Bool
  | .null => true
  | .obj members => Due.wellFormed members
  | _ => false

/-- A well-formed `duration` object, or null. -/
def isDurationOrNull : Json → Bool
  | .null => true
  | .obj members => Duration.wellFormed members
  | _ => false

/-- The type the `Task` field with the given index asks of a member's value. -/
def Task.fieldOK : Option Nat → Json → Bool
  | none => fun _ => true
  | some 1 => isTimeOrNull
  | some 4 => isIntOrNull
  | some 5 => isBoolOrNull
  | some 8 => isDueOrNull
  | some 9 => isDurationOrNull
  | some 11 => isStringsOrNull
  | some 12 => isIntOrNull
  | some 13 => isIntOrNull
  | some _ => isStringOrNull

/-- The members of a well-formed Task object: no field is given twice, and every member
that gives a field has a value of the field's type (or null); members that give no field
are free. -/
def Task.wellFormed (members : List (GoString × Json)) : Bool :=
  distinctFields Task.fieldNames members &&
    members.all fun m => Task.fieldOK (fieldIndex Task.fieldNames m.1) m.2

/-- A well-formed Task object. -/
def wellFormedTask (e : Json) : Bool :=
  match e with
  | .obj members => Task.wellFormed members
  | _ => false

/-- The characters a timestamp in RFC 3339 form is made of. -/
def timestampChar (n : Nat) : Bool :=
  (48 ≤ n && n ≤ 57) || [45, 58, 84, 90, 46, 43].contains n

/-- What follows a backslash is the `u` escape of a character a timestamp is made of. -/
def escapedTimestampChar : List StrElem → Bool
  | .rune e :: .rune h1 :: .rune h2 :: .rune h3 :: .rune h4 :: _ =>
    e = 'u' && ((getu4 h1 h2 h3 h4).map timestampChar).getD false
  | _ => false

/-- No character a timestamp is made of is written as an escape sequence in the text, so
that a string literal that holds a timestamp holds it letter by letter. (`encoding/json`
hands `Time.UnmarshalJSON` the literal as it is written, and the method does not resolve
escape sequences.) -/
def timestampsVerbatim : List StrElem → Bool
  | [] => true
  | [_] => true
  | .raw _ :: e :: rest => timestampsVerbatim (e :: rest)
  | .rune c :: e :: rest =>
    if c = bslash then !escapedTimestampChar (e :: rest) && timestampsVerbatim rest
    else timestampsVerbatim (e :: rest)

/-! ## Measures on times and their text -/

/-- The last `w` decimal digits of `n`, most significant first. -/
def fixedDigits : Nat → Nat → List Char
  | 0, _ => []
  | w + 1, n => fixedDigits w (n / 10) ++ [digitChar n]

/-- The digits without their trailing zeros, as `appendNano` cuts them. -/
def stripZeros (l : List Char) : List Char := (l.reverse.dropWhile (· = '0')).reverse

/-- A civil reading: month, day, hour, minute, second and nanosecond in their ranges, as
they are in every `time.Time`. -/
def Time.isCivil (t : Time) : Bool :=
  decide (1 ≤ t.month ∧ t.month ≤ 12 ∧ 1 ≤ t.day ∧ t.day ≤ daysIn t.month t.year.natAbs
    ∧ t.hour < 24 ∧ t.minute < 60 ∧ t.second < 60 ∧ t.nanosecond < 10 ^ 9)

/-! ## The JSON form of a task -/

/-- The member a struct field contributes to the JSON object: none when it is omitted. -/
def optMember (omitted : Bool) (name : GoString) (j : Json) : List (GoString × Json) :=
  if omitted then [] else [(name, j)]

/-- The JSON object `json.Marshal` produces for a `Due`. -/
def Due.json (d : Due) : Json :=
  .obj [(gs "date", .str d.Date), (gs "is_recurring", .bool d.IsRecurring),
    (gs "datetime", .str d.Datetime), (gs "string", .str d.String),
    (gs "timezone", .str d.Timezone)]

/-- The JSON object `json.Marshal` produces for a `Duration`. -/
def Duration.json (d : Duration) : Json :=
  .obj [(gs "amount", .int d.Amount.val), (gs "unit", .str d.Unit)]

/-- The JSON value `json.Marshal` produces for a `*Duration`. -/
def Duration.jsonOpt : Option Duration → Json
  | none => .null
  | some d => d.json

/-- The JSON value `json.Marshal` produces for a `[]string`. -/
def labelsJson : Option (List GoString) → Json
  | none => .null
  | some ls => .arr (ls.map Json.str)

/-- The members of the JSON object `json.Marshal` produces for a task, `createdAt` being the
text of its `CreatedAt`. -/
def Task.members (t : Task) (createdAt : GoString) : List (GoString × Json) :=
  optMember (t.CreatorID.length == 0) (gs "creator_id") (.str t.CreatorID) ++
  (optMember false (gs "created_at") (.str createdAt) ++
  (optMember (t.AssigneeID.length == 0) (gs "assignee_id") (.str t.AssigneeID) ++
  (optMember (t.AssignerID.length == 0) (gs "assigner_id") (.str t.AssignerID) ++
  (optMember (t.CommentCount.val == 0) (gs "comment_count") (.int t.CommentCount.val) ++
  (optMember (!t.IsCompleted) (gs "is_completed") (.bool t.IsCompleted) ++
  (optMember false (gs "content") (.str t.Content) ++
  (optMember (t.Description.length == 0) (gs "description") (.str t.Description) ++
  (optMember false (gs "due") t.Due.json ++
  (optMember t.Duration.isNone (gs "duration") (Duration.jsonOpt t.Duration) ++
  (optMember (t.ID.length == 0) (gs "id") (.str t.ID) ++
  (optMember ((t.Labels.getD []).length == 0) (gs "labels") (labelsJson t.Labels) ++
  (optMember (t.Order.val == 0) (gs "order") (.int t.Order.val) ++
  (optMember (t.Priority.val == 0) (gs "priority") (.int t.Priority.val) ++
  (optMember (t.ProjectID.length == 0) (gs "project_id") (.str t.ProjectID) ++
  (optMember (t.SectionID.length == 0) (gs "section_id") (.str t.SectionID) ++
  (optMember (t.ParentID.length == 0) (gs "parent_id") (.str t.ParentID) ++
  (optMember (t.URL.length == 0) (gs "url") (.str t.URL) ++
  [])))))))))))))))))

/-- What a trip through JSON makes of a slice under `omitempty`: an empty slice is not
written and so comes back nil. -/
def omitEmptySlice {α : Type} : Option (List α) → Option (List α)
  | some [] => none
  | x => x

/-- Every string in the task is valid UTF-8. -/
def Task.validStrings (t : Task) : Bool :=
  validUTF8 t.CreatorID && validUTF8 t.AssigneeID && validUTF8 t.AssignerID
    && validUTF8 t.Content && validUTF8 t.Description
    && validUTF8 t.Due.Date && validUTF8 t.Due.Datetime && validUTF8 t.Due.String
    && validUTF8 t.Due.Timezone
    && (match t.Duration with
        | none => true
        | some d => validUTF8 d.Unit)
    && validUTF8 t.ID && (t.Labels.getD []).all validUTF8
    && validUTF8 t.ProjectID && validUTF8 t.SectionID && validUTF8 t.ParentID
    && validUTF8 t.URL

/-! ## Measures on JSON values -/

mutual
/-- A value `json.Marshal` can have written for a task: no number literal with a fraction or
an exponent, and every string (object keys included) free of stray bytes. -/
def Json.plain : Json → Bool
  | .null => true
  | .bool _ => true
  | .int _ => true
  | .float _ => false
  | .str s => validUTF8 s
  | .arr elems => plainElems elems
  | .obj members => plainMembers members
/-- All elements are plain. -/
def plainElems : List Json → Bool
  | [] => true
  | x :: rest => x.plain && plainElems rest
/-- All keys and values are plain. -/
def plainMembers : List (GoString × Json) → Bool
  | [] => true
  | (k, x) :: rest => validUTF8 k && x.plain && plainMembers rest
end

mutual
/-- How deep arrays and objects nest in a value. -/
def Json.depth : Json → Nat
  | .arr elems => 1 + depthElems elems
  | .obj members => 1 + depthMembers members
  | _ => 0
/-- The largest depth among the elements. -/
def depthElems : List Json → Nat
  | [] => 0
  | x :: rest => max x.depth (depthElems rest)
/-- The largest depth among the values of the members. -/
def depthMembers : List (GoString × Json) → Nat
  | [] => 0
  | (_, x) :: rest => max x.depth (depthMembers rest)
end

mutual
/-- The recursion fuel `parseValue` needs to read the text of a value. -/
def Json.cost : Json → Nat
  | .arr elems => 1 + costElems elems
  | .obj members => 1 + costMembers members
  | _ => 1
/-- The fuel `parseElems` needs. -/
def costElems : List Json → Nat
  | [] => 0
  | x :: rest => 1 + x.cost + costElems rest
/-- The fuel `parseMembers` needs. -/
def costMembers : List (GoString × Json) → Nat
  | [] => 0
  | (_, x) :: rest => 1 + x.cost + costMembers rest
end

/-- The input goes on with a comma, a closing bracket or a closing brace, or ends. -/
def delimited (rest : List StrElem) : Prop :=
  ∀ c tail, rest = .rune c :: tail → c = ',' ∨ c = ']' ∨ c.toNat = 125

/-! ## Sample inputs -/

/-- A transport that answers every request with the given status code and body. -/
def server (code : Int) (body : GoString) : RoundTripper :=
  fun _ => .ok { StatusCode := code, Body := body }

/-- A transport that fails on every request. -/
def broken (e : GoError) : RoundTripper := fun _ => .error e

/-- The task whose only non-zero field is the content `Buy milk`. -/
def buyMilk : Task := { Task.zero with Content := gs "Buy milk" }

/-- The text `json.Marshal` writes for `buyMilk`. -/
def buyMilkJSON : GoString :=
  gs "\x7b\"created_at\":\"0001-01-01T00:00:00Z\",\"content\":\"Buy milk\",\"due\":\x7b\"date\":\"\",\"is_recurring\":false,\"datetime\":\"\",\"string\":\"\",\"timezone\":\"\"\x7d\x7d"

/-- The body of an error response. -/
def badRequest : GoString := gs "\x7b\"error\":\"bad request\"\x7d"

/-- A body that is not well-formed JSON. -/
def malformed : GoString := gs "[\x7b\"content\": oops"

/-- A response body with two tasks. -/
def twoTasks : GoString :=
  gs "[\x7b\"id\":\"1\",\"content\":\"Buy milk\",\"created_at\":\"2024-03-01T09:30:00.5+01:00\",\"labels\":[\"home\",\"shop\"],\"due\":\x7b\"date\":\"2024-03-02\",\"is_recurring\":true,\"lang\":\"en\"\x7d,\"duration\":\x7b\"amount\":15,\"unit\":\"minute\"\x7d,\"priority\":4,\"is_completed\":true,\"parent_id\":null,\"Order\":-2,\"extra\":[1,\x7b\"a\":null\x7d]\x7d, \x7b\"content\":\"Call\"\x7d]"

/-- The two elements of `twoTasks`. -/
def twoTasksElems : List Json :=
  [.obj [(gs "id", .str (gs "1")), (gs "content", .str (gs "Buy milk")),
     (gs "created_at", .str (gs "2024-03-01T09:30:00.5+01:00")),
     (gs "labels", .arr [.str (gs "home"), .str (gs "shop")]),
     (gs "due", .obj [(gs "date", .str (gs "2024-03-02")), (gs "is_recurring", .bool true),
       (gs "lang", .str (gs "en"))]),
     (gs "duration", .obj [(gs "amount", .int 15), (gs "unit", .str (gs "minute"))]),
     (gs "priority", .int 4), (gs "is_completed", .bool true), (gs "parent_id", .null),
     (gs "Order", .int (-2)),
     (gs "extra", .arr [.int 1, .obj [(gs "a", .null)]])],
   .obj [(gs "content", .str (gs "Call"))]]

/-- The two tasks `twoTasks` stands for. -/
def twoTasksExpected : List Task :=
  [{ Task.zero with
      ID := gs "1", Content := gs "Buy milk",
      CreatedAt := ⟨2024, 3, 1, 9, 30, 0, 500000000, 3600⟩,
      Labels := some [gs "home", gs "shop"],
      Due := { Due.zero with Date := gs "2024-03-02", IsRecurring := true },
      Duration := some { Amount := ⟨15, by decide⟩, Unit := gs "minute" },
      Priority := ⟨4, by decide⟩, IsCompleted := true, Order := ⟨-2, by decide⟩ },
   { Task.zero with Content := gs "Call" }]

/-- A task with every field set. -/
def sampleTask : Task :=
  { CreatorID := gs "2671355", CreatedAt := ⟨2023, 2, 28, 23, 59, 58, 500000000, 19800⟩,
    AssigneeID := gs "2423523", AssignerID := gs "2971358", CommentCount := ⟨10, by decide⟩,
    IsCompleted := true, Content := gs "Buy <milk> & \"eggs\"",
    Description := gs "line one\nline two",
    Due := { Date := gs "2016-09-01", IsRecurring := true, Datetime := gs "2016-09-01T12:00:00Z",
             String := gs "tomorrow at 12", Timezone := gs "Europe/Moscow" },
    Duration := some { Amount := ⟨15, by decide⟩, Unit := gs "minute" },
    ID := gs "2995104339", Labels := some [gs "Food", gs "Shopping"],
    Order := ⟨1, by decide⟩, Priority := ⟨4, by decide⟩, ProjectID := gs "2203306141",
    SectionID := gs "7025", ParentID := gs "2995104589",
    URL := gs "https://todoist.com/showTask?id=2995104339" }

/-- The text of the `CreatedAt` of `sampleTask`. -/
def sampleCreatedAt : GoString := gs "2023-02-28T23:59:58.5+05:30"

/-- A task whose content is one byte that is not valid UTF-8. -/
def invalidText : Task := { Task.zero with Content := [.raw 255] }

/-- A task created at midnight in a zone thirty seconds east of UTC. -/
def oddZone : Task := { Task.zero with CreatedAt := ⟨2024, 1, 1, 0, 0, 0, 0, 30⟩ }

/-- A transport that redirects every request to another host with a 307 and answers the
follow-up request with an empty list of tasks. -/
def elsewhere : Redirects.RoundTripper :=
  { first := fun _ => .ok (.redirect
      { URL := gs "https://tasks.example.org/v2/tasks", SameDomain := false,
        Downgrade := false }),
    next := fun _ => .ok { StatusCode := 200, Body := gs "[]" } }

/-! ## Helper lemmas -/

theorem NewRequest_get (body : Option GoString) :
    NewRequest MethodGet todositAPITasksURL body
      = .ok { Method := MethodGet, URL := todositAPITasksURL, Header := [], Body := body } := by
  rfl

theorem NewRequest_post (body : Option GoString) :
    NewRequest MethodPost todositAPITasksURL body
      = .ok { Method := MethodPost, URL := todositAPITasksURL, Header := [], Body := body } := by
  rfl

theorem headers_eq (token : GoString) :
    Header.Add (Header.Add [] (gs "Authorization") (gs "Bearer " ++ token))
        (gs "Content-Type") (gs "application/json")
      = [(gs "Authorization", [gs "Bearer " ++ token]),
         (gs "Content-Type", [gs "application/json"])] := by
  simp only [Header.Add]
  rw [if_neg (by decide)]

theorem makeRequest_get (dflt : RoundTripper) (c : Client) (url : GoString)
    (body : Option GoString) :
    c.makeRequest dflt MethodGet url body
      = (match c.transport dflt (c.request MethodGet body) with
         | .error e =>
           .error (Errorf_w (gs "error sending request: ")
             (urlError (gs "Get") todositAPITasksURL e))
         | .ok resp => .ok resp, [c.request MethodGet body]) := by
  unfold Client.makeRequest
  rw [NewRequest_get]
  simp only [HttpClient.Do, Client.transport]
  rw [headers_eq]
  change (match (match c.httpClient.Transport.getD dflt (c.request MethodGet body) with
    | .error e => (Except.error (urlError (urlErrorOp MethodGet) todositAPITasksURL e),
        [c.request MethodGet body])
    | .ok resp => (Except.ok resp, [c.request MethodGet body])) with
    | (.error err, sent) => (Except.error (Errorf_w (gs "error sending request: ") err), sent)
    | (.ok resp, sent) => (Except.ok resp, sent)) = _
  cases h : c.httpClient.Transport.getD dflt (c.request MethodGet body) with
  | error e => rfl
  | ok resp => rfl

theorem makeRequest_post (dflt : RoundTripper) (c : Client) (url : GoString)
    (body : Option GoString) :
    c.makeRequest dflt MethodPost url body
      = (match c.transport dflt (c.request MethodPost body) with
         | .error e =>
           .error (Errorf_w (gs "error sending request: ")
             (urlError (gs "Post") todositAPITasksURL e))
         | .ok resp => .ok resp, [c.request MethodPost body]) := by
  unfold Client.makeRequest
  rw [NewRequest_post]
  simp only [HttpClient.Do, Client.transport]
  rw [headers_eq]
  change (match (match c.httpClient.Transport.getD dflt (c.request MethodPost body) with
    | .error e => (Except.error (urlError (urlErrorOp MethodPost) todositAPITasksURL e),
        [c.request MethodPost body])
    | .ok resp => (Except.ok resp, [c.request MethodPost body])) with
    | (.error err, sent) => (Except.error (Errorf_w (gs "error sending request: ") err), sent)
    | (.ok resp, sent) => (Except.ok resp, sent)) = _
  cases h : c.httpClient.Transport.getD dflt (c.request MethodPost body) with
  | error e => rfl
  | ok resp => rfl

/-- What `ListTasks` does, in terms of the answer of the transport to its one request. -/
theorem ListTasks_eq (dflt : RoundTripper) (c : Client) :
    c.ListTasks dflt
      = (match c.transport dflt (c.request MethodGet none) with
         | .error e =>
           (none, some (Errorf_w (gs "error making get task request: ")
             (Errorf_w (gs "error sending request: ")
               (urlError (gs "Get") todositAPITasksURL e))))
         | .ok resp =>
           if resp.StatusCode ≠ StatusOK then
             (none, some (Errorf_s_error (gs "error making get task request: ") none))
           else ((UnmarshalTasks resp.Body none).1, none),
         [c.request MethodGet none]) := by
  unfold Client.ListTasks
  rw [makeRequest_get]
  cases h : c.transport dflt (c.request MethodGet none) with
  | error e => rfl
  | ok resp =>
    by_cases hc : resp.StatusCode = StatusOK <;> simp [hc]

/-- What `CreateTask` does once the task is serialized, in terms of the answer of the
transport to its one request. -/
theorem CreateTask_eq (dflt : RoundTripper) (c : Client) (task : Task) (jsonValue : GoString)
    (hm : Marshal task.reflect = .ok jsonValue) :
    c.CreateTask dflt task
      = (match c.transport dflt (c.request MethodPost (some jsonValue)) with
         | .error e =>
           some (Errorf_w (gs "error making create task request: ")
             (Errorf_w (gs "error sending request: ")
               (urlError (gs "Post") todositAPITasksURL e)))
         | .ok resp =>
           if resp.StatusCode ≠ StatusOK then
             some (Errorf_s_bytes (gs "error making create task request: ") resp.Body)
           else none,
         [c.request MethodPost (some jsonValue)]) := by
  unfold Client.CreateTask
  rw [hm]
  simp only
  rw [makeRequest_post]
  cases h : c.transport dflt (c.request MethodPost (some jsonValue)) with
  | error e => rfl
  | ok resp =>
    by_cases hc : resp.StatusCode = StatusOK <;> simp [hc]

theorem GoError.mem_chain_self (e : GoError) : e ∈ e.chain := by
  cases e <;> simp [GoError.chain]

theorem NewClient_snoc (t : GoString) (opts : List ClientOption) (o : ClientOption) :
    NewClient t (opts ++ [o]) = o (NewClient t opts) := by
  simp [NewClient, List.foldl_append]

theorem NewClient_token (t : GoString) (rs : List RoundTripper) :
    (NewClient t (rs.map WithHTTPTransport)).token = t := by
  induction rs using List.reverseRecOn with
  | nil => rfl
  | append_singleton rs r ih =>
    rw [List.map_append, List.map_singleton, NewClient_snoc]
    exact ih

theorem Task.agreeOn_refl (f : Nat) (a : Task) : Task.agreeOn f a a := by
  rcases f with _ | _ | _ | _ | _ | _ | _ | _ | _ | _ | _ | _ | _ | _ | _ | _ | _ | _ | f <;> first | exact rfl | exact trivial

theorem Task.agreeOn_trans (f : Nat) (a b c : Task) (h1 : Task.agreeOn f a b)
    (h2 : Task.agreeOn f b c) : Task.agreeOn f a c := by
  rcases f with _ | _ | _ | _ | _ | _ | _ | _ | _ | _ | _ | _ | _ | _ | _ | _ | _ | _ | f <;> first | exact Eq.trans h1 h2 | exact trivial

set_option maxHeartbeats 4000000 in
theorem Task.store_agreeOn_other (key : GoString) (j : Json) (t : Task) (f : Nat)
    (h : fieldIndex Task.fieldNames key ≠ some f) :
    Task.agreeOn f (Task.store key j t).1 t := by
  unfold Task.store
  cases hn : fieldIndex Task.fieldNames key with
  | none => exact Task.agreeOn_refl f t
  | some n =>
    rw [hn] at h
    rcases n with _ | _ | _ | _ | _ | _ | _ | _ | _ | _ | _ | _ | _ | _ | _ | _ | _ | _ | n <;> rcases f with _ | _ | _ | _ | _ | _ | _ | _ | _ | _ | _ | _ | _ | _ | _ | _ | _ | _ | f <;>
      first
        | exact absurd rfl h
        | exact rfl
        | exact trivial

theorem Task.store_agreeOn_same (key : GoString) (j : Json) (t1 t2 : Task) (f : Nat)
    (h : fieldIndex Task.fieldNames key = some f) (h12 : Task.agreeOn f t1 t2) :
    Task.agreeOn f (Task.store key j t1).1 (Task.store key j t2).1 := by
  unfold Task.store
  rw [h]
  rcases f with _ | _ | _ | _ | _ | _ | _ | _ | _ | _ | _ | _ | _ | _ | _ | _ | _ | _ | f
  all_goals first
    | exact trivial
    | (have h3 : _ = _ := h12
       show _ = _
       simp only [h3])

theorem Status.andThen_eq_fine (a b : Status) (h : a.andThen b = .fine) :
    a = .fine ∧ b = .fine := by
  cases a <;> cases b <;> simp_all [Status.andThen]

theorem decodeMembers_cons {α : Type} (store : GoString → Json → α → α × Status)
    (key : GoString) (j : Json) (rest : List (GoString × Json)) (cur : α)
    (h : (decodeMembers store ((key, j) :: rest) cur).2 = .fine) :
    (store key j cur).2 = .fine ∧
      decodeMembers store ((key, j) :: rest) cur = decodeMembers store rest (store key j cur).1 := by
  simp only [decodeMembers] at h ⊢
  rcases hs : store key j cur with ⟨v, st⟩
  rw [hs] at h
  cases st with
  | aborted err => simp at h
  | fine =>
    refine ⟨rfl, ?_⟩
    simp [Status.andThen]
  | saved err =>
    simp only at h
    exact absurd (Status.andThen_eq_fine _ _ h).1 (by simp)

theorem decodeElems_fine {α : Type} (dec : Json → α → α × Status) (zero : α)
    (elems : List Json) (h : ∀ e ∈ elems, (dec e zero).2 = .fine) :
    decodeElems dec zero elems [] = (elems.map fun e => (dec e zero).1, .fine) := by
  induction elems with
  | nil => rfl
  | cons e rest ih =>
    have he := h e (by simp)
    have hrest := ih fun x hx => h x (List.mem_cons_of_mem _ hx)
    simp only [decodeElems, List.headD_nil, List.tail_nil]
    rcases hs : dec e zero with ⟨v, st⟩
    rw [hs] at he
    simp only at he
    subst he
    simp [hrest, Status.andThen, hs]

theorem decodeMembers_absent {α : Type} {store : GoString → Json → α → α × Status}
    {names : List GoString} {agree : Nat → α → α → Prop} (laws : FieldLaws store names agree)
    (f : Nat) (members : List (GoString × Json)) (t : α)
    (habs : ∀ m ∈ members, fieldIndex names m.1 ≠ some f) :
    agree f (decodeMembers store members t).1 t := by
  induction members generalizing t with
  | nil => exact laws.refl f t
  | cons m rest ih =>
    obtain ⟨key, j⟩ := m
    have hkey : fieldIndex names key ≠ some f := habs (key, j) (by simp)
    have hrest : ∀ m ∈ rest, fieldIndex names m.1 ≠ some f :=
      fun m hm => habs m (List.mem_cons_of_mem _ hm)
    have hstep := laws.other key j t f hkey
    unfold decodeMembers
    rcases hs : store key j t with ⟨v, st⟩
    rw [hs] at hstep
    cases st with
    | aborted err => exact hstep
    | fine => exact laws.trans f _ _ _ (ih v hrest) hstep
    | saved err => exact laws.trans f _ _ _ (ih v hrest) hstep

theorem decodeMembers_present {α : Type} {store : GoString → Json → α → α × Status}
    {names : List GoString} {agree : Nat → α → α → Prop} (laws : FieldLaws store names agree)
    (f : Nat) (pre post : List (GoString × Json)) (key : GoString) (value : Json) (t : α)
    (hfine : (decodeMembers store (pre ++ (key, value) :: post) t).2 = .fine)
    (hkey : fieldIndex names key = some f)
    (hpre : ∀ m ∈ pre, fieldIndex names m.1 ≠ some f)
    (hpost : ∀ m ∈ post, fieldIndex names m.1 ≠ some f) :
    agree f (decodeMembers store (pre ++ (key, value) :: post) t).1 (store key value t).1 := by
  induction pre generalizing t with
  | nil =>
    rw [List.nil_append] at hfine ⊢
    rw [(decodeMembers_cons store key value post t hfine).2]
    exact decodeMembers_absent laws f post _ hpost
  | cons m pre ih =>
    obtain ⟨k, j⟩ := m
    rw [List.cons_append] at hfine ⊢
    have hk : fieldIndex names k ≠ some f := hpre (k, j) (by simp)
    have hpre2 : ∀ m ∈ pre, fieldIndex names m.1 ≠ some f :=
      fun m hm => hpre m (List.mem_cons_of_mem _ hm)
    have hstep := (decodeMembers_cons store k j _ t hfine).2
    rw [hstep] at hfine ⊢
    exact laws.trans f _ _ _ (ih _ hfine hpre2)
      (laws.same key value _ _ f hkey (laws.other k j t f hk))

theorem memberFor_none (names : List GoString) (f : Nat) (members : List (GoString × Json))
    (habs : ∀ m ∈ members, fieldIndex names m.1 ≠ some f) : memberFor names f members = none := by
  unfold memberFor
  rw [Option.map_eq_none', List.find?_eq_none]
  intro m hm
  simpa using habs m hm

/-- Either no member selects the field, or the members split around the one that does. -/
theorem members_split (names : List GoString) (f : Nat) (members : List (GoString × Json))
    (hd : distinctFields names members = true) :
    (∀ m ∈ members, fieldIndex names m.1 ≠ some f) ∨
    ∃ pre key value post, members = pre ++ (key, value) :: post ∧
      fieldIndex names key = some f ∧ memberFor names f members = some value ∧
      (∀ m ∈ pre, fieldIndex names m.1 ≠ some f) ∧
      (∀ m ∈ post, fieldIndex names m.1 ≠ some f) := by
  induction members with
  | nil => left; simp
  | cons m rest ih =>
    obtain ⟨k, j⟩ := m
    rw [distinctFields, Bool.and_eq_true] at hd
    by_cases hk : fieldIndex names k = some f
    · right
      refine ⟨[], k, j, rest, rfl, hk, ?_, by simp, ?_⟩
      · simp [memberFor, List.find?, hk]
      · intro m hm
        have h1 := hd.1
        simp only [hk, List.all_eq_true] at h1
        simpa using h1 m hm
    · rcases ih hd.2 with habs | ⟨pre, key, value, post, hsplit, hkey, hmem, hpre, hpost⟩
      · left
        intro m hm
        rcases List.mem_cons.1 hm with rfl | hm
        · exact hk
        · exact habs m hm
      · right
        refine ⟨(k, j) :: pre, key, value, post, by rw [hsplit]; rfl, hkey, ?_, ?_, hpost⟩
        · have : (fieldIndex names k == some f) = false := by simpa using hk
          simpa [memberFor, List.find?, this] using hmem
        · intro m hm
          rcases List.mem_cons.1 hm with rfl | hm
          · exact hk
          · exact hpre m hm

/-- What decoding leaves in a field, for members that decode without complaint and give no
field twice: the field of the zero value when no member gives it, else what storing the one
member that gives it into the zero value leaves there. -/
theorem decodeMembers_field {α : Type} {store : GoString → Json → α → α × Status}
    {names : List GoString} {agree : Nat → α → α → Prop} (laws : FieldLaws store names agree)
    (zero expected : α) (members : List (GoString × Json)) (f : Nat)
    (hfine : (decodeMembers store members zero).2 = .fine)
    (hd : distinctFields names members = true)
    (hnone : memberFor names f members = none → agree f zero expected)
    (hsome : ∀ key value, (key, value) ∈ members → fieldIndex names key = some f →
      memberFor names f members = some value → agree f (store key value zero).1 expected) :
    agree f (decodeMembers store members zero).1 expected := by
  rcases members_split names f members hd with habs |
    ⟨pre, key, value, post, hsplit, hkey, hmem, hpre, hpost⟩
  · exact laws.trans f _ _ _ (decodeMembers_absent laws f members zero habs)
      (hnone (memberFor_none names f members habs))
  · have hin : (key, value) ∈ members := by rw [hsplit]; simp
    have h1 := hsome key value hin hkey hmem
    subst hsplit
    exact laws.trans f _ _ _
      (decodeMembers_present laws f pre post key value zero hfine hkey hpre hpost) h1

/-- Members that are each stored without complaint are decoded without complaint. -/
theorem decodeMembers_fine {α : Type} (store : GoString → Json → α → α × Status)
    (members : List (GoString × Json)) (t : α)
    (h : ∀ m ∈ members, ∀ cur, (store m.1 m.2 cur).2 = .fine) :
    (decodeMembers store members t).2 = .fine := by
  induction members generalizing t with
  | nil => rfl
  | cons m rest ih =>
    obtain ⟨key, j⟩ := m
    have h1 := h (key, j) (by simp) t
    have h2 := fun v => ih v fun m hm => h m (List.mem_cons_of_mem _ hm)
    unfold decodeMembers
    rcases hs : store key j t with ⟨v, st⟩
    rw [hs] at h1
    simp only at h1
    subst h1
    simp [Status.andThen, h2]

theorem Task_fieldLaws : FieldLaws Task.store Task.fieldNames Task.agreeOn :=
  ⟨Task.agreeOn_refl, Task.agreeOn_trans, Task.store_agreeOn_other, Task.store_agreeOn_same⟩

theorem Due_fieldLaws : FieldLaws Due.store Due.fieldNames Due.agreeOn where
  refl f a := by
    rcases f with _ | _ | _ | _ | _ | f <;> first | exact rfl | exact trivial
  trans f a b c h1 h2 := by
    rcases f with _ | _ | _ | _ | _ | f <;> first | exact Eq.trans h1 h2 | exact trivial
  other key j t f h := by
    unfold Due.store
    cases hn : fieldIndex Due.fieldNames key with
    | none => rcases f with _ | _ | _ | _ | _ | f <;> first | exact rfl | exact trivial
    | some n =>
      rw [hn] at h
      rcases n with _ | _ | _ | _ | _ | n <;> rcases f with _ | _ | _ | _ | _ | f <;>
        first
          | exact absurd rfl h
          | exact rfl
          | exact trivial
  same key j t1 t2 f h h12 := by
    unfold Due.store
    rw [h]
    rcases f with _ | _ | _ | _ | _ | f
    all_goals first
      | exact trivial
      | (have h3 : _ = _ := h12
         show _ = _
         simp only [h3])

theorem Duration_fieldLaws : FieldLaws Duration.store Duration.fieldNames Duration.agreeOn where
  refl f a := by
    rcases f with _ | _ | f <;> first | exact rfl | exact trivial
  trans f a b c h1 h2 := by
    rcases f with _ | _ | f <;> first | exact Eq.trans h1 h2 | exact trivial
  other key j t f h := by
    unfold Duration.store
    cases hn : fieldIndex Duration.fieldNames key with
    | none => rcases f with _ | _ | f <;> first | exact rfl | exact trivial
    | some n =>
      rw [hn] at h
      rcases n with _ | _ | n <;> rcases f with _ | _ | f <;>
        first
          | exact absurd rfl h
          | exact rfl
          | exact trivial
  same key j t1 t2 f h h12 := by
    unfold Duration.store
    rw [h]
    rcases f with _ | _ | f
    all_goals first
      | exact trivial
      | (have h3 : _ = _ := h12
         show _ = _
         simp only [h3])

theorem Due_eq_of_agreeOn (a b : Due) (h : ∀ f, Due.agreeOn f a b) : a = b := by
  cases a
  cases b
  have h0 := h 0
  have h1 := h 1
  have h2 := h 2
  have h3 := h 3
  have h4 := h 4
  simp only [Due.agreeOn] at h0 h1 h2 h3 h4
  simp [h0, h1, h2, h3, h4]

theorem Duration_eq_of_agreeOn (a b : Duration) (h : ∀ f, Duration.agreeOn f a b) : a = b := by
  cases a
  cases b
  have h0 := h 0
  have h1 := h 1
  simp only [Duration.agreeOn] at h0 h1
  simp [h0, h1]

theorem Task_eq_of_agreeOn (a b : Task) (h : ∀ f, Task.agreeOn f a b) : a = b := by
  cases a
  cases b
  have h0 := h 0
  have h1 := h 1
  have h2 := h 2
  have h3 := h 3
  have h4 := h 4
  have h5 := h 5
  have h6 := h 6
  have h7 := h 7
  have h8 := h 8
  have h9 := h 9
  have h10 := h 10
  have h11 := h 11
  have h12 := h 12
  have h13 := h 13
  have h14 := h 14
  have h15 := h 15
  have h16 := h 16
  have h17 := h 17
  simp only [Task.agreeOn] at h0 h1 h2 h3 h4 h5 h6 h7 h8 h9 h10 h11 h12 h13 h14 h15 h16 h17
  simp [h0, h1, h2, h3, h4, h5, h6, h7, h8, h9, h10, h11, h12, h13, h14, h15, h16, h17]

theorem decodeString_expected (j : Json) (cur : GoString) (h : isStringOrNull j = true) :
    (decodeString j cur).2 = .fine ∧ (decodeString j []).1 = expectedString (some j) := by
  cases j <;> simp_all [isStringOrNull, decodeString, expectedString]

theorem decodeBool_expected (j : Json) (cur : Bool) (h : isBoolOrNull j = true) :
    (decodeBool j cur).2 = .fine ∧ (decodeBool j false).1 = expectedBool (some j) := by
  cases j <;> simp_all [isBoolOrNull, decodeBool, expectedBool]

theorem decodeInt_expected (j : Json) (cur : GoInt) (h : isIntOrNull j = true) :
    (decodeInt j cur).2 = .fine ∧ (decodeInt j GoInt.zero).1 = expectedInt (some j) := by
  cases j with
  | int n =>
    have hn : -2 ^ 63 ≤ n ∧ n < 2 ^ 63 := by simpa [isIntOrNull] using h
    refine ⟨?_, ?_⟩ <;> simp only [decodeInt, expectedInt, dif_pos hn]
  | _ => simp_all [isIntOrNull, decodeInt, expectedInt]

theorem decodeTime_expected (j : Json) (cur : Time) (h : isTimeOrNull j = true) :
    (decodeTime j cur).2 = .fine ∧ (decodeTime j Time.zero).1 = expectedTime (some j) := by
  cases j with
  | str s =>
    simp only [isTimeOrNull, Option.isSome_iff_exists] at h
    obtain ⟨t, ht⟩ := h
    simp [decodeTime, Time.UnmarshalJSON, expectedTime, ht]
  | _ => simp_all [isTimeOrNull, decodeTime, expectedTime]

theorem decodeElems_expected (elems : List Json) (cur : List GoString)
    (h : ∀ e ∈ elems, ∃ s, e = .str s) :
    decodeElems decodeString [] elems cur
      = (elems.map fun e => expectedString (some e), .fine) := by
  induction elems generalizing cur with
  | nil => rfl
  | cons e rest ih =>
    obtain ⟨s, rfl⟩ := h e (by simp)
    have hrest := ih cur.tail fun x hx => h x (List.mem_cons_of_mem _ hx)
    simp [decodeElems, decodeString, hrest, Status.andThen, expectedString]

theorem decodeStrings_expected (j : Json) (cur : Option (List GoString))
    (h : isStringsOrNull j = true) :
    (decodeSlice decodeString [] "[]string" j cur).2 = .fine ∧
    (decodeSlice decodeString [] "[]string" j none).1 = expectedStrings (some j) := by
  cases j with
  | arr elems =>
    have hs : ∀ e ∈ elems, ∃ s, e = .str s := by
      intro e he
      simp only [isStringsOrNull, List.all_eq_true] at h
      have := h e he
      cases e <;> simp_all
    simp [decodeSlice, expectedStrings, decodeElems_expected _ _ hs]
  | _ => simp_all [isStringsOrNull, decodeSlice, expectedStrings]

theorem Due_store_fine (key : GoString) (j : Json) (cur : Due)
    (h : Due.fieldOK (fieldIndex Due.fieldNames key) j = true) :
    (Due.store key j cur).2 = .fine := by
  unfold Due.store
  cases hn : fieldIndex Due.fieldNames key with
  | none => rfl
  | some n =>
    rw [hn] at h
    rcases n with _ | _ | _ | _ | _ | n
    · exact (decodeString_expected j _ h).1
    · exact (decodeBool_expected j _ h).1
    · exact (decodeString_expected j _ h).1
    · exact (decodeString_expected j _ h).1
    · exact (decodeString_expected j _ h).1
    · rfl

theorem Due_decodeMembers_wellFormed (members : List (GoString × Json))
    (h : Due.wellFormed members = true) :
    decodeMembers Due.store members Due.zero = (Due.ofMembers members, .fine) := by
  rw [Due.wellFormed, Bool.and_eq_true, List.all_eq_true] at h
  obtain ⟨hd, hall⟩ := h
  have hfine := decodeMembers_fine Due.store members Due.zero
    fun m hm cur => Due_store_fine m.1 m.2 cur (hall m hm)
  have hval : (decodeMembers Due.store members Due.zero).1 = Due.ofMembers members := by
    refine Due_eq_of_agreeOn _ _ fun f =>
      decodeMembers_field Due_fieldLaws Due.zero (Due.ofMembers members) members f hfine hd ?_ ?_
    · intro hm
      rcases f with _ | _ | _ | _ | _ | f
      all_goals first
        | exact trivial
        | (show _ = _
           simp only [Due.ofMembers, hm]
           rfl)
    · intro key value hin hkey hm
      have hok := hall (key, value) hin
      simp only [hkey] at hok
      rcases f with _ | _ | _ | _ | _ | f
      · show (Due.store key value Due.zero).1.Date = (Due.ofMembers members).Date
        simp only [Due.store, hkey, Due.ofMembers, hm]
        exact (decodeString_expected value [] hok).2
      · show (Due.store key value Due.zero).1.IsRecurring = (Due.ofMembers members).IsRecurring
        simp only [Due.store, hkey, Due.ofMembers, hm]
        exact (decodeBool_expected value false hok).2
      · show (Due.store key value Due.zero).1.Datetime = (Due.ofMembers members).Datetime
        simp only [Due.store, hkey, Due.ofMembers, hm]
        exact (decodeString_expected value [] hok).2
      · show (Due.store key value Due.zero).1.String = (Due.ofMembers members).String
        simp only [Due.store, hkey, Due.ofMembers, hm]
        exact (decodeString_expected value [] hok).2
      · show (Due.store key value Due.zero).1.Timezone = (Due.ofMembers members).Timezone
        simp only [Due.store, hkey, Due.ofMembers, hm]
        exact (decodeString_expected value [] hok).2
      · exact trivial
  rw [← hval, ← hfine]

theorem Due_decode_expected (j : Json) (cur : Due) (h : isDueOrNull j = true) :
    (Due.decode j cur).2 = .fine ∧ (Due.decode j Due.zero).1 = expectedDue (some j) := by
  cases j with
  | obj members =>
    have hw : Due.wellFormed members = true := h
    refine ⟨?_, ?_⟩
    · rw [Due.wellFormed, Bool.and_eq_true, List.all_eq_true] at hw
      exact decodeMembers_fine Due.store members cur
        fun m hm c => Due_store_fine m.1 m.2 c (hw.2 m hm)
    · show (decodeMembers Due.store members Due.zero).1 = _
      rw [Due_decodeMembers_wellFormed members hw]
      rfl
  | _ => simp_all [isDueOrNull, Due.decode, decodeStruct, expectedDue]

theorem Duration_store_fine (key : GoString) (j : Json) (cur : Duration)
    (h : Duration.fieldOK (fieldIndex Duration.fieldNames key) j = true) :
    (Duration.store key j cur).2 = .fine := by
  unfold Duration.store
  cases hn : fieldIndex Duration.fieldNames key with
  | none => rfl
  | some n =>
    rw [hn] at h
    rcases n with _ | _ | n
    · exact (decodeInt_expected j _ h).1
    · exact (decodeString_expected j _ h).1
    · rfl

theorem Duration_decodeMembers_wellFormed (members : List (GoString × Json))
    (h : Duration.wellFormed members = true) :
    decodeMembers Duration.store members Duration.zero
      = (Duration.ofMembers members, .fine) := by
  rw [Duration.wellFormed, Bool.and_eq_true, List.all_eq_true] at h
  obtain ⟨hd, hall⟩ := h
  have hfine := decodeMembers_fine Duration.store members Duration.zero
    fun m hm cur => Duration_store_fine m.1 m.2 cur (hall m hm)
  have hval : (decodeMembers Duration.store members Duration.zero).1
      = Duration.ofMembers members := by
    refine Duration_eq_of_agreeOn _ _ fun f =>
      decodeMembers_field Duration_fieldLaws Duration.zero (Duration.ofMembers members)
        members f hfine hd ?_ ?_
    · intro hm
      rcases f with _ | _ | f
      all_goals first
        | exact trivial
        | (show _ = _
           simp only [Duration.ofMembers, hm]
           rfl)
    · intro key value hin hkey hm
      have hok := hall (key, value) hin
      simp only [hkey] at hok
      rcases f with _ | _ | f
      · show (Duration.store key value Duration.zero).1.Amount
          = (Duration.ofMembers members).Amount
        simp only [Duration.store, hkey, Duration.ofMembers, hm]
        exact (decodeInt_expected value GoInt.zero hok).2
      · show (Duration.store key value Duration.zero).1.Unit
          = (Duration.ofMembers members).Unit
        simp only [Duration.store, hkey, Duration.ofMembers, hm]
        exact (decodeString_expected value [] hok).2
      · exact trivial
  rw [← hval, ← hfine]

theorem Duration_decode_expected (j : Json) (cur : Option Duration)
    (h : isDurationOrNull j = true) :
    (decodePtr Duration.decode Duration.zero j cur).2 = .fine ∧
    (decodePtr Duration.decode Duration.zero j none).1 = expectedDuration (some j) := by
  cases j with
  | obj members =>
    have hw : Duration.wellFormed members = true := h
    refine ⟨?_, ?_⟩
    · rw [Duration.wellFormed, Bool.and_eq_true, List.all_eq_true] at hw
      exact decodeMembers_fine Duration.store members (cur.getD Duration.zero)
        fun m hm c => Duration_store_fine m.1 m.2 c (hw.2 m hm)
    · show some (decodeMembers Duration.store members Duration.zero).1 = _
      rw [Duration_decodeMembers_wellFormed members hw]
      rfl
  | _ => simp_all [isDurationOrNull, decodePtr, expectedDuration]

theorem Task_store_fine (key : GoString) (j : Json) (cur : Task)
    (h : Task.fieldOK (fieldIndex Task.fieldNames key) j = true) :
    (Task.store key j cur).2 = .fine := by
  unfold Task.store
  cases hn : fieldIndex Task.fieldNames key with
  | none => rfl
  | some n =>
    rw [hn] at h
    rcases n with _ | _ | _ | _ | _ | _ | _ | _ | _ | _ | _ | _ | _ | _ | _ | _ | _ | _ | n
    · exact (decodeString_expected j _ h).1
    · exact (decodeTime_expected j _ h).1
    · exact (decodeString_expected j _ h).1
    · exact (decodeString_expected j _ h).1
    · exact (decodeInt_expected j _ h).1
    · exact (decodeBool_expected j _ h).1
    · exact (decodeString_expected j _ h).1
    · exact (decodeString_expected j _ h).1
    · exact (Due_decode_expected j _ h).1
    · exact (Duration_decode_expected j _ h).1
    · exact (decodeString_expected j _ h).1
    · exact (decodeStrings_expected j _ h).1
    · exact (decodeInt_expected j _ h).1
    · exact (decodeInt_expected j _ h).1
    · exact (decodeString_expected j _ h).1
    · exact (decodeString_expected j _ h).1
    · exact (decodeString_expected j _ h).1
    · exact (decodeString_expected j _ h).1
    · rfl

set_option maxHeartbeats 1000000 in
theorem Task_decodeMembers_wellFormed (members : List (GoString × Json))
    (h : Task.wellFormed members = true) :
    decodeMembers Task.store members Task.zero = (Task.ofMembers members, .fine) := by
  rw [Task.wellFormed, Bool.and_eq_true, List.all_eq_true] at h
  obtain ⟨hd, hall⟩ := h
  have hfine := decodeMembers_fine Task.store members Task.zero
    fun m hm cur => Task_store_fine m.1 m.2 cur (hall m hm)
  have hval : (decodeMembers Task.store members Task.zero).1 = Task.ofMembers members := by
    refine Task_eq_of_agreeOn _ _ fun f =>
      decodeMembers_field Task_fieldLaws Task.zero (Task.ofMembers members) members f hfine hd
        ?_ ?_
    · intro hm
      rcases f with _ | _ | _ | _ | _ | _ | _ | _ | _ | _ | _ | _ | _ | _ | _ | _ | _ | _ | f
      all_goals first
        | exact trivial
        | (show _ = _
           simp only [Task.ofMembers, hm]
           rfl)
    · intro key value hin hkey hm
      have hok := hall (key, value) hin
      simp only [hkey] at hok
      rcases f with _ | _ | _ | _ | _ | _ | _ | _ | _ | _ | _ | _ | _ | _ | _ | _ | _ | _ | f
      · show (Task.store key value Task.zero).1.CreatorID = (Task.ofMembers members).CreatorID
        simp only [Task.store, hkey, Task.ofMembers, hm]
        exact (decodeString_expected value [] hok).2
      · show (Task.store key value Task.zero).1.CreatedAt = (Task.ofMembers members).CreatedAt
        simp only [Task.store, hkey, Task.ofMembers, hm]
        exact (decodeTime_expected value Time.zero hok).2
      · show (Task.store key value Task.zero).1.AssigneeID = (Task.ofMembers members).AssigneeID
        simp only [Task.store, hkey, Task.ofMembers, hm]
        exact (decodeString_expected value [] hok).2
      · show (Task.store key value Task.zero).1.AssignerID = (Task.ofMembers members).AssignerID
        simp only [Task.store, hkey, Task.ofMembers, hm]
        exact (decodeString_expected value [] hok).2
      · show (Task.store key value Task.zero).1.CommentCount = (Task.ofMembers members).CommentCount
        simp only [Task.store, hkey, Task.ofMembers, hm]
        exact (decodeInt_expected value GoInt.zero hok).2
      · show (Task.store key value Task.zero).1.IsCompleted = (Task.ofMembers members).IsCompleted
        simp only [Task.store, hkey, Task.ofMembers, hm]
        exact (decodeBool_expected value false hok).2
      · show (Task.store key value Task.zero).1.Content = (Task.ofMembers members).Content
        simp only [Task.store, hkey, Task.ofMembers, hm]
        exact (decodeString_expected value [] hok).2
      · show (Task.store key value Task.zero).1.Description = (Task.ofMembers members).Description
        simp only [Task.store, hkey, Task.ofMembers, hm]
        exact (decodeString_expected value [] hok).2
      · show (Task.store key value Task.zero).1.Due = (Task.ofMembers members).Due
        simp only [Task.store, hkey, Task.ofMembers, hm]
        exact (Due_decode_expected value Due.zero hok).2
      · show (Task.store key value Task.zero).1.Duration = (Task.ofMembers members).Duration
        simp only [Task.store, hkey, Task.ofMembers, hm]
        exact (Duration_decode_expected value none hok).2
      · show (Task.store key value Task.zero).1.ID = (Task.ofMembers members).ID
        simp only [Task.store, hkey, Task.ofMembers, hm]
        exact (decodeString_expected value [] hok).2
      · show (Task.store key value Task.zero).1.Labels = (Task.ofMembers members).Labels
        simp only [Task.store, hkey, Task.ofMembers, hm]
        exact (decodeStrings_expected value none hok).2
      · show (Task.store key value Task.zero).1.Order = (Task.ofMembers members).Order
        simp only [Task.store, hkey, Task.ofMembers, hm]
        exact (decodeInt_expected value GoInt.zero hok).2
      · show (Task.store key value Task.zero).1.Priority = (Task.ofMembers members).Priority
        simp only [Task.store, hkey, Task.ofMembers, hm]
        exact (decodeInt_expected value GoInt.zero hok).2
      · show (Task.store key value Task.zero).1.ProjectID = (Task.ofMembers members).ProjectID
        simp only [Task.store, hkey, Task.ofMembers, hm]
        exact (decodeString_expected value [] hok).2
      · show (Task.store key value Task.zero).1.SectionID = (Task.ofMembers members).SectionID
        simp only [Task.store, hkey, Task.ofMembers, hm]
        exact (decodeString_expected value [] hok).2
      · show (Task.store key value Task.zero).1.ParentID = (Task.ofMembers members).ParentID
        simp only [Task.store, hkey, Task.ofMembers, hm]
        exact (decodeString_expected value [] hok).2
      · show (Task.store key value Task.zero).1.URL = (Task.ofMembers members).URL
        simp only [Task.store, hkey, Task.ofMembers, hm]
        exact (decodeString_expected value [] hok).2
      · exact trivial
  rw [← hval, ← hfine]

theorem Task_decode_wellFormed (e : Json) (cur : Task) (h : wellFormedTask e = true) :
    (Task.decode e cur).2 = .fine ∧ Task.decode e Task.zero = (Task.ofJson e, .fine) := by
  cases e with
  | obj members =>
    have hw : Task.wellFormed members = true := h
    refine ⟨?_, Task_decodeMembers_wellFormed members hw⟩
    rw [Task.wellFormed, Bool.and_eq_true, List.all_eq_true] at hw
    exact decodeMembers_fine Task.store members cur
      fun m hm c => Task_store_fine m.1 m.2 c (hw.2 m hm)
  | _ => simp [wellFormedTask] at h

namespace Redirects

theorem NewClient_append (t : GoString) (opts : List ClientOption) (o : ClientOption) :
    NewClient t (opts ++ [o]) = o (NewClient t opts) := by
  simp [NewClient, List.foldl_append]

theorem NewClient_keeps_token (t : GoString) (opts : List ClientOption)
    (hopts : ∀ o ∈ opts, ∀ c : Client, (o c).token = c.token) :
    (NewClient t opts).token = t := by
  induction opts using List.reverseRecOn with
  | nil => rfl
  | append_singleton opts o ih =>
    rw [NewClient_append, hopts o (by simp)]
    exact ih fun o2 ho2 => hopts o2 (List.mem_append_left _ ho2)

theorem WithHTTPTransport_keeps_token (r : RoundTripper) (c : Client) :
    (WithHTTPTransport r c).token = c.token := rfl

/-- The requests `Do` hands to the transport: the request itself, and then the follow-up
request when the answer to it is a redirect. -/
theorem Do_sent (dropContent : Bool) (dflt : RoundTripper) (c : Client) (req : Request) :
    ∃ rest, (Do dropContent dflt c.httpClient req).2 = req :: rest ∧
      ∀ r, rest.head? = some r → ∃ target,
        (transport dflt c).first req = .ok (.redirect target) ∧
        r = followUp dropContent req target := by
  unfold Do transport
  simp only
  cases h : (c.httpClient.Transport.getD dflt).first req with
  | error e => exact ⟨[], rfl, by simp⟩
  | ok reply =>
    cases reply with
    | response resp => exact ⟨[], rfl, by simp⟩
    | redirect target =>
      refine ⟨[followUp dropContent req target], ?_, ?_⟩
      · simp only
        cases h2 : (c.httpClient.Transport.getD dflt).next (followUp dropContent req target)
          <;> rfl
      · intro r hr
        simp only [List.head?_cons, Option.some.injEq] at hr
        subst hr
        exact ⟨target, rfl, rfl⟩

theorem makeRequest_sent (dropContent : Bool) (dflt : RoundTripper) (c : Client)
    (method url : GoString) (body : Option GoString)
    (hm : method = MethodGet ∨ method = MethodPost) :
    (makeRequest dropContent dflt c method url body).2
      = (Do dropContent dflt c.httpClient (request c method body)).2 := by
  have hnew : NewRequest method todositAPITasksURL body
      = .ok { Method := method, URL := todositAPITasksURL, Header := [], Body := body } := by
    rcases hm with rfl | rfl
    · exact NewRequest_get body
    · exact NewRequest_post body
  unfold makeRequest
  rw [hnew]
  simp only
  rw [headers_eq]
  change (match Do dropContent dflt c.httpClient (request c method body) with
    | (.error err, sent) => (Except.error (Errorf_w (gs "error sending request: ") err), sent)
    | (.ok resp, sent) => (Except.ok resp, sent)).2 = _
  rcases Do dropContent dflt c.httpClient (request c method body) with ⟨r, sent⟩
  cases r <;> rfl

theorem ListTasks_sent (dropContent : Bool) (dflt : RoundTripper) (c : Client) :
    (ListTasks dropContent dflt c).2
      = (Do dropContent dflt c.httpClient (request c MethodGet none)).2 := by
  rw [← makeRequest_sent dropContent dflt c MethodGet todositAPITasksURL none (.inl rfl)]
  unfold ListTasks
  rcases makeRequest dropContent dflt c MethodGet todositAPITasksURL none with ⟨r, sent⟩
  cases r with
  | error e => rfl
  | ok resp =>
    simp only
    split <;> rfl

theorem CreateTask_sent (dropContent : Bool) (dflt : RoundTripper) (c : Client)
    (task : Task) (jsonValue : GoString) (hm : Marshal task.reflect = .ok jsonValue) :
    (CreateTask dropContent dflt c task).2
      = (Do dropContent dflt c.httpClient (request c MethodPost (some jsonValue))).2 := by
  rw [← makeRequest_sent dropContent dflt c MethodPost todositAPITasksURL
    (some jsonValue) (.inr rfl)]
  unfold CreateTask
  rw [hm]
  simp only
  rcases makeRequest dropContent dflt c MethodPost todositAPITasksURL
    (some jsonValue) with ⟨r, sent⟩
  cases r with
  | error e => rfl
  | ok resp =>
    simp only
    split <;> rfl

theorem request_authorization (c : Client) (m : GoString) (b : Option GoString) :
    (request c m b).Header.Values (gs "Authorization") = [gs "Bearer " ++ c.token] := by
  simp [request, Header.Values]

theorem request_content_type (c : Client) (m : GoString) (b : Option GoString) :
    (request c m b).Header.Get (gs "Content-Type") = gs "application/json" := by
  simp only [request, Header.Get, Header.Values]
  rw [if_neg (by decide)]
  simp

theorem followUp_authorization (dropContent : Bool) (c : Client) (m : GoString)
    (body : Option GoString) (target : Redirection) :
    (followUp dropContent (request c m body) target).Header.Values (gs "Authorization")
      = if target.SameDomain then [gs "Bearer " ++ c.token] else [] := by
  have hs1 : sensitiveHeader (gs "Authorization") = true := by decide
  have hs2 : sensitiveHeader (gs "Content-Type") = false := by decide
  have hc1 : contentHeader (gs "Authorization") = false := by decide
  have hc2 : contentHeader (gs "Content-Type") = true := by decide
  have k1 : ¬ (gs "Authorization" = gs "Referer") := by decide
  have k2 : ¬ (gs "Content-Type" = gs "Referer") := by decide
  have k3 : ¬ (gs "Content-Type" = gs "Authorization") := by decide
  have k4 : ¬ (gs "Referer" = gs "Authorization") := by decide
  obtain ⟨url, same, down⟩ := target
  cases same <;> cases down <;> cases dropContent <;> cases body <;>
    simp [followUp, request, List.filter, hs1, hs2, hc1, hc2, Header.Set,
      Header.Values, k1, k2, k3, k4]

theorem followUp_content_type (dropContent : Bool) (c : Client) (m : GoString)
    (body : GoString) (target : Redirection) :
    (followUp dropContent (request c m (some body)) target).Header.Get (gs "Content-Type")
      = gs "application/json" := by
  have hs1 : sensitiveHeader (gs "Authorization") = true := by decide
  have hs2 : sensitiveHeader (gs "Content-Type") = false := by decide
  have hc1 : contentHeader (gs "Authorization") = false := by decide
  have hc2 : contentHeader (gs "Content-Type") = true := by decide
  have k1 : ¬ (gs "Authorization" = gs "Referer") := by decide
  have k2 : ¬ (gs "Content-Type" = gs "Referer") := by decide
  have k3 : ¬ (gs "Authorization" = gs "Content-Type") := by decide
  have k4 : ¬ (gs "Referer" = gs "Content-Type") := by decide
  obtain ⟨url, same, down⟩ := target
  cases same <;> cases down <;> cases dropContent <;>
    simp [followUp, request, List.filter, hs1, hs2, hc1, hc2, Header.Set,
      Header.Values, Header.Get, k1, k2, k3, k4]

/-- Over transports that never redirect, `Do` is the one exchange of `HttpClient.Do`. -/
theorem Do_without_redirect (dropContent : Bool) (dflt : Todoist.RoundTripper)
    (c : Todoist.Client) (req : Request) :
    Do dropContent (RoundTripper.ofPlain dflt) (ofPlain c).httpClient req
      = c.httpClient.Do dflt req := by
  unfold Do HttpClient.Do ofPlain
  cases c.httpClient.Transport with
  | none =>
    simp only [Option.map_none', Option.getD_none, RoundTripper.ofPlain]
    cases dflt req <;> rfl
  | some rt =>
    simp only [Option.map_some', Option.getD_some, RoundTripper.ofPlain]
    cases rt req <;> rfl

theorem makeRequest_without_redirect (dropContent : Bool) (dflt : Todoist.RoundTripper)
    (c : Todoist.Client) (method url : GoString) (body : Option GoString) :
    makeRequest dropContent (RoundTripper.ofPlain dflt) (ofPlain c) method url body
      = c.makeRequest dflt method url body := by
  unfold makeRequest Todoist.Client.makeRequest
  cases NewRequest method todositAPITasksURL body with
  | error err => rfl
  | ok req =>
    simp only [Do_without_redirect]
    try rfl

/-- Over transports that never redirect, `ListTasks` is `Client.ListTasks`. -/
theorem ListTasks_without_redirect (dropContent : Bool) (dflt : Todoist.RoundTripper)
    (c : Todoist.Client) :
    ListTasks dropContent (RoundTripper.ofPlain dflt) (ofPlain c) = c.ListTasks dflt := by
  unfold ListTasks Todoist.Client.ListTasks
  rw [makeRequest_without_redirect]

/-- Over transports that never redirect, `CreateTask` is `Client.CreateTask`. -/
theorem CreateTask_without_redirect (dropContent : Bool) (dflt : Todoist.RoundTripper)
    (c : Todoist.Client) (task : Task) :
    CreateTask dropContent (RoundTripper.ofPlain dflt) (ofPlain c) task
      = c.CreateTask dflt task := by
  unfold CreateTask Todoist.Client.CreateTask
  cases Marshal task.reflect with
  | error err => rfl
  | ok jsonValue =>
    simp only
    rw [makeRequest_without_redirect]

end Redirects

/-! ## Reading back what was written -/

theorem digitVal_digitChar (d : Nat) : digitVal (digitChar d) = some (d % 10) := by
  have h : d % 10 < 10 := Nat.mod_lt _ (by decide)
  generalize hd : d % 10 = r at h
  unfold digitChar
  rw [hd]
  interval_cases r <;> decide

theorem digitChar_eq_zero (d : Nat) (h : digitChar d = '0') : d % 10 = 0 := by
  have h2 := digitVal_digitChar d
  rw [h] at h2
  have h3 : digitVal '0' = some 0 := by decide
  rw [h3] at h2
  exact (Option.some.inj h2).symm

theorem natDigitsAux_acc (fuel n : Nat) (acc : List Char) :
    natDigitsAux fuel n acc = natDigitsAux fuel n [] ++ acc := by
  induction fuel generalizing n acc with
  | zero => rfl
  | succ fuel ih =>
    unfold natDigitsAux
    split
    · rfl
    · rw [ih (n / 10) (digitChar n :: acc), ih (n / 10) [digitChar n]]
      simp

theorem natDigitsAux_fuel (fuel1 fuel2 n : Nat) (h1 : n < fuel1) (h2 : n < fuel2) :
    natDigitsAux fuel1 n [] = natDigitsAux fuel2 n [] := by
  induction fuel1 generalizing n fuel2 with
  | zero => omega
  | succ fuel1 ih =>
    cases fuel2 with
    | zero => omega
    | succ fuel2 =>
      unfold natDigitsAux
      split
      · rfl
      · rw [natDigitsAux_acc fuel1, natDigitsAux_acc fuel2,
          ih fuel2 (n / 10) (by omega) (by omega)]

theorem natDigits_small (n : Nat) (h : n < 10) : natDigits n = [digitChar n] := by
  unfold natDigits natDigitsAux
  rw [if_pos h]

theorem natDigits_large (n : Nat) (h : ¬ n < 10) :
    natDigits n = natDigits (n / 10) ++ [digitChar n] := by
  unfold natDigits
  conv => lhs; unfold natDigitsAux
  rw [if_neg h, natDigitsAux_acc]
  rw [natDigitsAux_fuel n (n / 10 + 1) (n / 10) (by omega) (by omega)]

theorem parseDigits_append (xs : List Char) (c : Char) (acc : Nat) :
    parseDigits (xs ++ [c]) acc
      = (parseDigits xs acc).bind fun v => (digitVal c).map fun d => v * 10 + d := by
  induction xs generalizing acc with
  | nil =>
    simp only [List.nil_append, parseDigits]
    cases digitVal c <;> rfl
  | cons x xs ih =>
    simp only [List.cons_append, parseDigits]
    cases digitVal x with
    | none => rfl
    | some d => exact ih _

theorem parseDigits_natDigits (n : Nat) : parseDigits (natDigits n) 0 = some n := by
  induction n using Nat.strong_induction_on with
  | _ n ih =>
    by_cases h : n < 10
    · rw [natDigits_small n h]
      simp [parseDigits, digitVal_digitChar, Nat.mod_eq_of_lt h]
    · rw [natDigits_large n h, parseDigits_append, ih (n / 10) (by omega), digitVal_digitChar]
      simp
      omega

theorem natDigits_all_digits (n : Nat) : ∀ c ∈ natDigits n, (digitVal c).isSome = true := by
  induction n using Nat.strong_induction_on with
  | _ n ih =>
    by_cases h : n < 10
    · rw [natDigits_small n h]
      simp [digitVal_digitChar]
    · rw [natDigits_large n h]
      intro c hc
      rw [List.mem_append] at hc
      rcases hc with hc | hc
      · exact ih (n / 10) (by omega) c hc
      · simp at hc
        subst hc
        simp [digitVal_digitChar]

/-- The digits of a number start with a digit other than zero, unless the number is zero and
has the single digit zero. -/
theorem natDigits_head (n : Nat) :
    ∃ d ds, natDigits n = d :: ds ∧ (d = '0' → ds = []) := by
  induction n using Nat.strong_induction_on with
  | _ n ih =>
    by_cases h : n < 10
    · exact ⟨digitChar n, [], natDigits_small n h, fun _ => rfl⟩
    · obtain ⟨d, ds, hd, hz⟩ := ih (n / 10) (by omega)
      refine ⟨d, ds ++ [digitChar n], by rw [natDigits_large n h, hd]; rfl, ?_⟩
      intro h0
      exfalso
      have hds := hz h0
      subst h0 hds
      -- natDigits (n / 10) = ['0'] but n / 10 ≥ 1
      have hp := parseDigits_natDigits (n / 10)
      rw [hd] at hp
      have : parseDigits ['0'] 0 = some 0 := by decide
      rw [this] at hp
      have := Option.some.inj hp
      omega

theorem getu4_low : ∀ n < 256, getu4 '0' '0' (hexChar (n / 16)) (hexChar n) = some n := by
  decide

theorem char_ofNat_toNat (c : Char) : Char.ofNat c.toNat = c := by
  simp [Char.ofNat_toNat]

theorem parseString_plain (fuel : Nat) (c : Char) (rest : List StrElem)
    (hq : c ≠ dquote) (hb : c ≠ bslash) (hge : 0x20 ≤ c.toNat) :
    parseString (fuel + 1) (.rune c :: rest)
      = (parseString fuel rest).map fun r => (.rune c :: r.1, r.2) := by
  show (if c = dquote then _ else if c = bslash then _ else if c.toNat < 0x20 then _ else _) = _
  rw [if_neg hq, if_neg hb, if_neg (by omega)]

theorem bslash_ne_dquote : ¬ bslash = dquote := by decide

theorem parseString_simple (fuel : Nat) (e x : Char) (rest : List StrElem)
    (he : e ≠ 'u') (hx : simpleEscape e = some x) :
    parseString (fuel + 1) (.rune bslash :: .rune e :: rest)
      = (parseString fuel rest).map fun r => (.rune x :: r.1, r.2) := by
  conv => lhs; unfold parseString
  simp only [bslash_ne_dquote, if_false, if_true, he, hx]

theorem parseString_u4 (fuel : Nat) (h1 h2 h3 h4 : Char) (n : Nat) (rest : List StrElem)
    (hn : getu4 h1 h2 h3 h4 = some n) (hs : isSurrogate n = false) :
    parseString (fuel + 1)
        (.rune bslash :: .rune 'u' :: .rune h1 :: .rune h2 :: .rune h3 :: .rune h4 :: rest)
      = (parseString fuel rest).map fun r => (.rune (Char.ofNat n) :: r.1, r.2) := by
  conv => lhs; unfold parseString
  simp only [bslash_ne_dquote, if_false, if_true, hn, hs]
  rfl

theorem parseString_step (c : Char) (fuel : Nat) (tail : List StrElem) :
    parseString (fuel + 1) ((escapeElem (.rune c)).map StrElem.rune ++ tail)
      = (parseString fuel tail).map fun r => (.rune c :: r.1, r.2) := by
  simp only [escapeElem]
  by_cases h1 : c.toNat < 0x80
  · rw [if_pos h1]
    by_cases h2 : htmlSafe c = true
    · rw [if_pos h2]
      simp only [htmlSafe, Bool.and_eq_true, decide_eq_true_eq, bne_iff_ne, ne_eq] at h2
      obtain ⟨⟨⟨⟨⟨⟨hge, _⟩, hq⟩, hb⟩, _⟩, _⟩, _⟩ := h2
      exact parseString_plain fuel c tail hq hb hge
    · rw [if_neg h2]
      by_cases h3 : c = bslash ∨ c = dquote
      · rw [if_pos h3]
        rcases h3 with h3 | h3 <;> subst h3 <;>
          exact parseString_simple fuel _ _ tail (by decide) (by decide)
      · rw [if_neg h3]
        have esc : ∀ (e x : Char), e ≠ 'u' → simpleEscape e = some x → c.toNat = x.toNat →
            parseString (fuel + 1) (List.map StrElem.rune [bslash, e] ++ tail)
              = (parseString fuel tail).map fun r => (.rune c :: r.1, r.2) := by
          intro e x he hx hc
          have : x = c := by
            rw [← char_ofNat_toNat x, ← hc, char_ofNat_toNat]
          rw [← this]
          exact parseString_simple fuel e x tail he hx
        by_cases h8 : c.toNat = 8
        · rw [if_pos h8]; exact esc 'b' (Char.ofNat 8) (by decide) (by decide) h8
        rw [if_neg h8]
        by_cases h12 : c.toNat = 12
        · rw [if_pos h12]; exact esc 'f' (Char.ofNat 12) (by decide) (by decide) h12
        rw [if_neg h12]
        by_cases h10 : c.toNat = 10
        · rw [if_pos h10]; exact esc 'n' (Char.ofNat 10) (by decide) (by decide) h10
        rw [if_neg h10]
        by_cases h13 : c.toNat = 13
        · rw [if_pos h13]; exact esc 'r' (Char.ofNat 13) (by decide) (by decide) h13
        rw [if_neg h13]
        by_cases h9 : c.toNat = 9
        · rw [if_pos h9]; exact esc 't' (Char.ofNat 9) (by decide) (by decide) h9
        rw [if_neg h9]
        have hs : isSurrogate c.toNat = false := by
          simp only [isSurrogate, Bool.and_eq_false_imp, decide_eq_true_eq,
            decide_eq_false_iff_not]
          omega
        have := parseString_u4 fuel '0' '0' (hexChar (c.toNat / 16)) (hexChar c.toNat) c.toNat
          tail (getu4_low c.toNat (by omega)) hs
        rw [char_ofNat_toNat] at this
        exact this
  · rw [if_neg h1]
    have hq : c ≠ dquote := by
      intro h; subst h; exact h1 (by decide)
    have hb : c ≠ bslash := by
      intro h; subst h; exact h1 (by decide)
    by_cases h2 : c.toNat = 0x2028 ∨ c.toNat = 0x2029
    · rw [if_pos h2]
      have hg : getu4 '2' '0' '2' (hexChar c.toNat) = some c.toNat := by
        rcases h2 with h2 | h2 <;> rw [h2] <;> decide
      have hs : isSurrogate c.toNat = false := by
        rcases h2 with h2 | h2 <;> rw [h2] <;> decide
      have := parseString_u4 fuel '2' '0' '2' (hexChar c.toNat) c.toNat tail hg hs
      rw [char_ofNat_toNat] at this
      exact this
    · rw [if_neg h2]
      exact parseString_plain fuel c tail hq hb (by omega)

theorem parseString_render (s : GoString) (hv : validUTF8 s = true) (rest : List StrElem)
    (fuel : Nat) (hf : s.length < fuel) :
    parseString fuel ((s.flatMap escapeElem ++ [dquote]).map StrElem.rune ++ rest)
      = some (s, rest) := by
  induction s generalizing fuel with
  | nil =>
    cases fuel with
    | zero => simp at hf
    | succ fuel =>
      show (if dquote = dquote then some ([], rest) else _) = _
      rw [if_pos rfl]
  | cons e s ih =>
    cases fuel with
    | zero => simp at hf
    | succ fuel =>
      cases e with
      | raw b => simp [validUTF8] at hv
      | rune c =>
        have hv2 : validUTF8 s = true := by
          simpa [validUTF8] using hv
        have hsplit : ((StrElem.rune c :: s).flatMap escapeElem ++ [dquote]).map StrElem.rune
            ++ rest
            = (escapeElem (.rune c)).map StrElem.rune
              ++ ((s.flatMap escapeElem ++ [dquote]).map StrElem.rune ++ rest) := by
          simp
        rw [hsplit, parseString_step, ih hv2 fuel (by simpa using hf)]
        rfl
theorem digit_range (c : Char) (h : (digitVal c).isSome = true) :
    48 ≤ c.toNat ∧ c.toNat ≤ 57 := by
  unfold digitVal at h
  split at h
  · assumption
  · simp at h

theorem skipWS_rune (c : Char) (rest : List StrElem) (h : isSpace c = false) :
    skipWS (.rune c :: rest) = .rune c :: rest := by
  rw [skipWS, h]
  rfl

theorem isSpace_of_toNat (c : Char) (h1 : c.toNat ≠ 32) (h2 : c.toNat ≠ 9) (h3 : c.toNat ≠ 10)
    (h4 : c.toNat ≠ 13) : isSpace c = false := by
  have h0 : c ≠ ' ' := by
    intro h; subst h; exact h1 rfl
  simp [isSpace, h0, h2, h3, h4]

theorem spanDigits_digits (ds : List Char) (rest : List StrElem)
    (hds : ∀ c ∈ ds, (digitVal c).isSome = true)
    (hrest : ∀ c tail, rest = .rune c :: tail → (digitVal c).isSome = false) :
    spanDigits (ds.map StrElem.rune ++ rest) = (ds, rest) := by
  induction ds with
  | nil =>
    simp only [List.map_nil, List.nil_append]
    cases rest with
    | nil => rfl
    | cons e tail =>
      cases e with
      | raw b => rfl
      | rune c =>
        rw [spanDigits, hrest c tail rfl]
        rfl
  | cons d ds ih =>
    simp only [List.map_cons, List.cons_append]
    rw [spanDigits, hds d (by simp), ih fun c hc => hds c (List.mem_cons_of_mem _ hc)]
    rfl

theorem delimited_not_digit (rest : List StrElem) (h : delimited rest) :
    ∀ c tail, rest = .rune c :: tail → (digitVal c).isSome = false := by
  intro c tail hc
  rcases h c tail hc with h | h | h
  · subst h; decide
  · subst h; decide
  · unfold digitVal
    rw [if_neg (by omega)]
    rfl

theorem parseFrac_delimited (rest : List StrElem) (h : delimited rest) :
    parseFrac rest = some ([], rest) := by
  unfold parseFrac
  split
  · rename_i tail
    exfalso
    have h2 := h '.' tail rfl
    revert h2
    decide
  · rfl

theorem parseExp_delimited (rest : List StrElem) (h : delimited rest) :
    parseExp rest = some ([], rest) := by
  unfold parseExp
  split
  · rename_i e tail
    have he : ¬ (e = 'e' ∨ e = 'E') := by
      rintro (he | he) <;> subst he <;> have h2 := h _ tail rfl <;> revert h2 <;> decide
    rw [if_neg he]
  · rfl

theorem parseNumber_natDigits (neg : Bool) (m : Nat) (rest : List StrElem)
    (h : delimited rest) :
    parseNumber neg ((natDigits m).map StrElem.rune ++ rest)
      = some (.int (if neg then -(m : Int) else (m : Int)), rest) := by
  unfold parseNumber
  rw [spanDigits_digits _ _ (natDigits_all_digits m) (delimited_not_digit rest h)]
  obtain ⟨d, ds, hd, hz⟩ := natDigits_head m
  have hp := parseDigits_natDigits m
  rw [hd] at hp ⊢
  simp only
  have hlead : ¬ (d = '0' ∧ ds ≠ []) := fun ⟨h0, hne⟩ => hne (hz h0)
  rw [if_neg hlead, parseFrac_delimited rest h]
  simp only
  rw [parseExp_delimited rest h]
  simp only [and_self, if_true, hp]
theorem escapeElem_length (e : StrElem) : 1 ≤ (escapeElem e).length := by
  cases e with
  | raw b => simp [escapeElem]
  | rune c =>
    simp only [escapeElem]
    repeat' split
    all_goals simp

theorem flatMap_escape_length (s : GoString) : s.length ≤ (s.flatMap escapeElem).length := by
  induction s with
  | nil => simp
  | cons e s ih =>
    simp only [List.flatMap_cons, List.length_append, List.length_cons]
    have := escapeElem_length e
    omega

theorem parseValue_null (fuel depth : Nat) (rest : List StrElem) :
    parseValue (fuel + 1) depth ((Json.null).render.map StrElem.rune ++ rest)
      = some (.null, rest) := by
  rfl

theorem parseValue_bool (b : Bool) (fuel depth : Nat) (rest : List StrElem) :
    parseValue (fuel + 1) depth ((Json.bool b).render.map StrElem.rune ++ rest)
      = some (.bool b, rest) := by
  cases b <;> rfl

theorem parseValue_str (s : GoString) (hv : validUTF8 s = true) (fuel depth : Nat)
    (rest : List StrElem) :
    parseValue (fuel + 1) depth ((Json.str s).render.map StrElem.rune ++ rest)
      = some (.str s, rest) := by
  have hshape : (Json.str s).render.map StrElem.rune ++ rest
      = .rune dquote :: ((s.flatMap escapeElem ++ [dquote]).map StrElem.rune ++ rest) := by
    simp [Json.render, renderString]
  rw [hshape]
  conv => lhs; unfold parseValue
  rw [skipWS_rune dquote _ (by decide)]
  simp only [if_true]
  rw [parseString_render s hv rest _ (by
    have := flatMap_escape_length s
    simp only [List.length_append, List.length_map, List.length_cons, List.length_nil]
    omega)]
  rfl

theorem parseValue_digit (d : Char) (hd : (digitVal d).isSome = true) (fuel depth : Nat)
    (rest : List StrElem) :
    parseValue (fuel + 1) depth (.rune d :: rest) = parseNumber false (.rune d :: rest) := by
  have hr := digit_range d hd
  have hsp : isSpace d = false := isSpace_of_toNat d (by omega) (by omega) (by omega) (by omega)
  have h1 : d ≠ dquote := by intro h; subst h; revert hd; decide
  have h2 : d ≠ '[' := by intro h; subst h; revert hd; decide
  have h3 : d.toNat ≠ 123 := by omega
  have h4 : d ≠ '-' := by intro h; subst h; revert hd; decide
  conv => lhs; unfold parseValue
  rw [skipWS_rune d _ hsp]
  simp only [h1, h2, h3, h4, hd, if_false, if_true]

theorem parseValue_int (n : Int) (fuel depth : Nat) (rest : List StrElem)
    (h : delimited rest) :
    parseValue (fuel + 1) depth ((Json.int n).render.map StrElem.rune ++ rest)
      = some (.int n, rest) := by
  simp only [Json.render, intDigits]
  by_cases hn : n < 0
  · rw [if_pos hn]
    simp only [List.map_cons, List.cons_append]
    conv => lhs; unfold parseValue
    rw [skipWS_rune '-' _ (by decide)]
    have e1 : ¬ ('-' = dquote) := by decide
    have e2 : ¬ ('-' = '[') := by decide
    have e3 : ¬ ('-'.toNat = 123) := by decide
    simp only [e1, e2, e3, if_false, if_true]
    rw [parseNumber_natDigits true n.natAbs rest h]
    simp only [if_true]
    congr 2
    congr 1
    omega
  · rw [if_neg hn]
    obtain ⟨d, ds, hd, _⟩ := natDigits_head n.natAbs
    have hdig : (digitVal d).isSome = true :=
      natDigits_all_digits n.natAbs d (by rw [hd]; simp)
    have key := parseNumber_natDigits false n.natAbs rest h
    rw [hd] at key ⊢
    simp only [List.map_cons, List.cons_append] at key ⊢
    rw [parseValue_digit d hdig, key]
    simp only [Bool.false_eq_true, if_false]
    congr 2
    congr 1
    omega

/-- The text of a plain value starts with a character that is neither white space nor a
closing bracket or brace. -/
theorem render_head (j : Json) (hp : j.plain = true) :
    ∃ c tl, j.render = c :: tl ∧ isSpace c = false ∧ c ≠ ']' ∧ c.toNat ≠ 125 := by
  cases j with
  | null => exact ⟨'n', _, rfl, by decide, by decide, by decide⟩
  | bool b => cases b
              · exact ⟨'f', _, rfl, by decide, by decide, by decide⟩
              · exact ⟨'t', _, rfl, by decide, by decide, by decide⟩
  | int n =>
    simp only [Json.render, intDigits]
    by_cases hn : n < 0
    · rw [if_pos hn]
      exact ⟨'-', _, rfl, by decide, by decide, by decide⟩
    · rw [if_neg hn]
      obtain ⟨d, ds, hd, _⟩ := natDigits_head n.natAbs
      have hdig : (digitVal d).isSome = true :=
        natDigits_all_digits n.natAbs d (by rw [hd]; simp)
      have hr := digit_range d hdig
      refine ⟨d, ds, hd, isSpace_of_toNat d (by omega) (by omega) (by omega) (by omega), ?_,
        by omega⟩
      intro h; subst h; revert hdig; decide
  | float lit => simp [Json.plain] at hp
  | str s => exact ⟨dquote, _, rfl, by decide, by decide, by decide⟩
  | arr elems => exact ⟨'[', _, by rw [Json.render], by decide, by decide, by decide⟩
  | obj members =>
    exact ⟨Char.ofNat 123, _, by rw [Json.render], by decide, by decide, by decide⟩

theorem delimited_comma (rest : List StrElem) : delimited (.rune ',' :: rest) := by
  intro c tail h
  cases h
  exact Or.inl rfl

theorem delimited_bracket (rest : List StrElem) : delimited (.rune ']' :: rest) := by
  intro c tail h
  cases h
  exact Or.inr (Or.inl rfl)

theorem delimited_brace (rest : List StrElem) : delimited (.rune (Char.ofNat 125) :: rest) := by
  intro c tail h
  cases h
  exact Or.inr (Or.inr rfl)

theorem parseValue_arr_nil (fuel depth : Nat) (rest : List StrElem) :
    parseValue (fuel + 1) (depth + 1) ((Json.arr []).render.map StrElem.rune ++ rest)
      = some (.arr [], rest) := by
  rfl

theorem parseValue_obj_nil (fuel depth : Nat) (rest : List StrElem) :
    parseValue (fuel + 1) (depth + 1) ((Json.obj []).render.map StrElem.rune ++ rest)
      = some (.obj [], rest) := by
  rfl

theorem parseValue_arr_cons (fuel depth : Nat) (c : Char) (tail : List StrElem)
    (hsp : isSpace c = false) (hc : c ≠ ']') :
    parseValue (fuel + 1) (depth + 1) (.rune '[' :: .rune c :: tail)
      = (parseElems fuel depth (.rune c :: tail)).map fun r => (.arr r.1, r.2) := by
  conv => lhs; unfold parseValue
  rw [skipWS_rune '[' _ (by decide)]
  have e1 : ¬ ('[' = dquote) := by decide
  simp only [e1, if_false, if_true]
  rw [skipWS_rune c _ hsp]
  split
  · rename_i heq
    cases heq
    exact absurd rfl hc
  · rfl

theorem parseValue_obj_cons (fuel depth : Nat) (tail : List StrElem) :
    parseValue (fuel + 1) (depth + 1) (.rune (Char.ofNat 123) :: .rune dquote :: tail)
      = (parseMembers fuel depth (.rune dquote :: tail)).map fun r => (.obj r.1, r.2) := by
  conv => lhs; unfold parseValue
  rw [skipWS_rune (Char.ofNat 123) _ (by decide)]
  have e1 : ¬ (Char.ofNat 123 = dquote) := by decide
  have e2 : ¬ (Char.ofNat 123 = '[') := by decide
  have e3 : (Char.ofNat 123).toNat = 123 := by decide
  simp only [e1, e2, e3, if_false, if_true]
  rw [skipWS_rune dquote _ (by decide)]
  have e4 : ¬ (dquote.toNat = 125) := by decide
  simp only [e4, if_false]

theorem parseElems_step (fuel depth : Nat) (s : List StrElem) (v : Json) (c : Char)
    (tail : List StrElem) (hv : parseValue fuel depth s = some (v, .rune c :: tail))
    (hsp : isSpace c = false) :
    parseElems (fuel + 1) depth s
      = if c = ',' then (parseElems fuel depth tail).map fun r => (v :: r.1, r.2)
        else if c = ']' then some ([v], tail) else none := by
  conv => lhs; unfold parseElems
  rw [hv]
  simp only
  rw [skipWS_rune c _ hsp]

theorem parseMembers_step (fuel depth : Nat) (key : GoString) (hk : validUTF8 key = true)
    (s : List StrElem) (v : Json) (c : Char) (tail : List StrElem)
    (hv : parseValue fuel depth s = some (v, .rune c :: tail))
    (hsp : isSpace c = false) :
    parseMembers (fuel + 1) depth ((renderString key).map StrElem.rune ++ .rune ':' :: s)
      = if c = ',' then (parseMembers fuel depth tail).map fun r => ((key, v) :: r.1, r.2)
        else if c.toNat = 125 then some ([(key, v)], tail) else none := by
  have hshape : (renderString key).map StrElem.rune ++ .rune ':' :: s
      = .rune dquote ::
        ((key.flatMap escapeElem ++ [dquote]).map StrElem.rune ++ .rune ':' :: s) := by
    simp [renderString]
  rw [hshape]
  conv => lhs; unfold parseMembers
  rw [skipWS_rune dquote _ (by decide)]
  simp only [if_true]
  rw [parseString_render key hk _ _ (by
    have := flatMap_escape_length key
    simp only [List.length_append, List.length_map, List.length_cons, List.length_nil]
    omega)]
  simp only
  rw [skipWS_rune ':' _ (by decide)]
  simp only [if_true]
  rw [hv]
  simp only
  rw [skipWS_rune c _ hsp]
theorem renderElems_cons_map (x : Json) (xs : List Json) (rest : List StrElem) :
    (renderElems (x :: xs)).map StrElem.rune ++ .rune ']' :: rest
      = x.render.map StrElem.rune ++
        (match xs with
         | [] => .rune ']' :: rest
         | y :: ys => .rune ',' :: ((renderElems (y :: ys)).map StrElem.rune ++ .rune ']' :: rest)) := by
  cases xs with
  | nil => simp [renderElems]
  | cons y ys => simp [renderElems]

theorem renderMembers_cons_map (k : GoString) (x : Json) (ms : List (GoString × Json))
    (rest : List StrElem) :
    (renderMembers ((k, x) :: ms)).map StrElem.rune ++ .rune (Char.ofNat 125) :: rest
      = (renderString k).map StrElem.rune ++ .rune ':' :: (x.render.map StrElem.rune ++
        (match ms with
         | [] => .rune (Char.ofNat 125) :: rest
         | m :: ms2 =>
           .rune ',' :: ((renderMembers (m :: ms2)).map StrElem.rune
             ++ .rune (Char.ofNat 125) :: rest))) := by
  cases ms with
  | nil => simp [renderMembers]
  | cons m ms2 => simp [renderMembers]

mutual
theorem parseValue_render : (j : Json) → j.plain = true →
    ∀ (fuel depth : Nat) (rest : List StrElem), j.cost ≤ fuel → j.depth ≤ depth →
      delimited rest →
      parseValue fuel depth (j.render.map StrElem.rune ++ rest) = some (j, rest)
  | .null, _, fuel, depth, rest, hf, _, _ => by
    cases fuel with
    | zero => simp [Json.cost] at hf
    | succ f => exact parseValue_null f depth rest
  | .bool b, _, fuel, depth, rest, hf, _, _ => by
    cases fuel with
    | zero => simp [Json.cost] at hf
    | succ f => exact parseValue_bool b f depth rest
  | .int n, _, fuel, depth, rest, hf, _, hd => by
    cases fuel with
    | zero => simp [Json.cost] at hf
    | succ f => exact parseValue_int n f depth rest hd
  | .float lit, hp, _, _, _, _, _, _ => by
    simp [Json.plain] at hp
  | .str s, hp, fuel, depth, rest, hf, _, _ => by
    cases fuel with
    | zero => simp [Json.cost] at hf
    | succ f => exact parseValue_str s (by simpa [Json.plain] using hp) f depth rest
  | .arr [], _, fuel, depth, rest, hf, hdp, _ => by
    cases fuel with
    | zero => simp [Json.cost] at hf
    | succ f =>
      cases depth with
      | zero => simp [Json.depth] at hdp
      | succ d => exact parseValue_arr_nil f d rest
  | .arr (x :: xs), hp, fuel, depth, rest, hf, hdp, _ => by
    cases fuel with
    | zero => simp [Json.cost] at hf
    | succ f =>
      cases depth with
      | zero => simp [Json.depth] at hdp
      | succ d =>
        have hpl : plainElems (x :: xs) = true := by simpa [Json.plain] using hp
        have hpx : x.plain = true := by
          simp only [plainElems, Bool.and_eq_true] at hpl
          exact hpl.1
        obtain ⟨c, tl, hc, hsp, hne, _⟩ := render_head x hpx
        have ih := parseElems_render (x :: xs) (by simp) hpl f d rest
          (by simp only [Json.cost] at hf; omega) (by simp only [Json.depth] at hdp; omega)
        have hshape : (Json.arr (x :: xs)).render.map StrElem.rune ++ rest
            = .rune '[' :: ((renderElems (x :: xs)).map StrElem.rune ++ .rune ']' :: rest) := by
          simp [Json.render]
        rw [hshape]
        rw [renderElems_cons_map, hc] at ih ⊢
        simp only [List.map_cons, List.cons_append] at ih ⊢
        rw [parseValue_arr_cons f d c _ hsp hne, ih]
        rfl
  | .obj [], _, fuel, depth, rest, hf, hdp, _ => by
    cases fuel with
    | zero => simp [Json.cost] at hf
    | succ f =>
      cases depth with
      | zero => simp [Json.depth] at hdp
      | succ d => exact parseValue_obj_nil f d rest
  | .obj ((k, x) :: ms), hp, fuel, depth, rest, hf, hdp, _ => by
    cases fuel with
    | zero => simp [Json.cost] at hf
    | succ f =>
      cases depth with
      | zero => simp [Json.depth] at hdp
      | succ d =>
        have hpl : plainMembers ((k, x) :: ms) = true := by simpa [Json.plain] using hp
        have ih := parseMembers_render ((k, x) :: ms) (by simp) hpl f d rest
          (by simp only [Json.cost] at hf; omega) (by simp only [Json.depth] at hdp; omega)
        have hshape : (Json.obj ((k, x) :: ms)).render.map StrElem.rune ++ rest
            = .rune (Char.ofNat 123) ::
              ((renderMembers ((k, x) :: ms)).map StrElem.rune
                ++ .rune (Char.ofNat 125) :: rest) := by
          simp [Json.render]
        rw [hshape]
        have hkey : ∃ tl, (renderMembers ((k, x) :: ms)).map StrElem.rune
            ++ .rune (Char.ofNat 125) :: rest = .rune dquote :: tl := by
          rw [renderMembers_cons_map]
          exact ⟨_, by simp [renderString]; rfl⟩
        obtain ⟨tl, htl⟩ := hkey
        rw [htl] at ih ⊢
        rw [parseValue_obj_cons f d tl, ih]
        rfl
theorem parseElems_render : (xs : List Json) → xs ≠ [] → plainElems xs = true →
    ∀ (fuel depth : Nat) (rest : List StrElem), costElems xs ≤ fuel → depthElems xs ≤ depth →
      parseElems fuel depth ((renderElems xs).map StrElem.rune ++ .rune ']' :: rest)
        = some (xs, rest)
  | [], h, _, _, _, _, _, _ => absurd rfl h
  | [x], _, hp, fuel, depth, rest, hf, hdp => by
    cases fuel with
    | zero => simp [costElems] at hf
    | succ f =>
      have hpx : x.plain = true := by
        simp only [plainElems, Bool.and_eq_true] at hp
        exact hp.1
      have hv := parseValue_render x hpx f depth (.rune ']' :: rest)
        (by simp only [costElems] at hf; omega)
        (by simp only [depthElems] at hdp; omega) (delimited_bracket rest)
      rw [renderElems_cons_map]
      simp only
      rw [parseElems_step f depth _ x ']' rest hv (by decide)]
      rfl
  | x :: y :: ys, _, hp, fuel, depth, rest, hf, hdp => by
    cases fuel with
    | zero => simp [costElems] at hf
    | succ f =>
      have hp2 : x.plain = true ∧ plainElems (y :: ys) = true := by
        rw [plainElems, Bool.and_eq_true] at hp
        exact hp
      have hv := parseValue_render x hp2.1 f depth
        (.rune ',' :: ((renderElems (y :: ys)).map StrElem.rune ++ .rune ']' :: rest))
        (by rw [costElems] at hf; omega)
        (by rw [depthElems] at hdp; omega) (delimited_comma _)
      have ih := parseElems_render (y :: ys) (by simp) hp2.2 f depth rest
        (by rw [costElems] at hf; omega) (by rw [depthElems] at hdp; omega)
      rw [renderElems_cons_map]
      simp only
      rw [parseElems_step f depth _ x ',' _ hv (by decide), if_pos rfl, ih]
      rfl
theorem parseMembers_render : (ms : List (GoString × Json)) → ms ≠ [] →
    plainMembers ms = true →
    ∀ (fuel depth : Nat) (rest : List StrElem), costMembers ms ≤ fuel →
      depthMembers ms ≤ depth →
      parseMembers fuel depth
          ((renderMembers ms).map StrElem.rune ++ .rune (Char.ofNat 125) :: rest)
        = some (ms, rest)
  | [], h, _, _, _, _, _, _ => absurd rfl h
  | [(k, x)], _, hp, fuel, depth, rest, hf, hdp => by
    cases fuel with
    | zero => simp [costMembers] at hf
    | succ f =>
      have hp2 : validUTF8 k = true ∧ x.plain = true := by
        simp only [plainMembers, Bool.and_eq_true] at hp
        exact hp.1
      have hv := parseValue_render x hp2.2 f depth (.rune (Char.ofNat 125) :: rest)
        (by simp only [costMembers] at hf; omega)
        (by simp only [depthMembers] at hdp; omega) (delimited_brace rest)
      rw [renderMembers_cons_map]
      simp only
      rw [parseMembers_step f depth k hp2.1 _ x (Char.ofNat 125) rest hv (by decide)]
      rfl
  | (k, x) :: m :: ms, _, hp, fuel, depth, rest, hf, hdp => by
    cases fuel with
    | zero => simp [costMembers] at hf
    | succ f =>
      have hp2 : (validUTF8 k = true ∧ x.plain = true) ∧ plainMembers (m :: ms) = true := by
        rw [plainMembers, Bool.and_eq_true, Bool.and_eq_true] at hp
        exact hp
      have hv := parseValue_render x hp2.1.2 f depth
        (.rune ',' :: ((renderMembers (m :: ms)).map StrElem.rune
          ++ .rune (Char.ofNat 125) :: rest))
        (by rw [costMembers] at hf; omega)
        (by rw [depthMembers] at hdp; omega) (delimited_comma _)
      have ih := parseMembers_render (m :: ms) (by simp) hp2.2 f depth rest
        (by rw [costMembers] at hf; omega) (by rw [depthMembers] at hdp; omega)
      rw [renderMembers_cons_map]
      simp only
      rw [parseMembers_step f depth k hp2.1.1 _ x ',' _ hv (by decide), if_pos rfl, ih]
      rfl
end
theorem natDigits_length_pos (n : Nat) : 1 ≤ (natDigits n).length := by
  obtain ⟨d, ds, hd, _⟩ := natDigits_head n
  rw [hd]
  simp

theorem renderString_length (s : GoString) : 2 ≤ (renderString s).length := by
  simp [renderString]

mutual
theorem cost_le_render : (j : Json) → j.plain = true → j.cost + 1 ≤ 2 * j.render.length
  | .null, _ => by simp [Json.cost, Json.render]
  | .bool true, _ => by simp [Json.cost, Json.render]
  | .bool false, _ => by simp [Json.cost, Json.render]
  | .int n, _ => by
    have h := natDigits_length_pos n.natAbs
    simp only [Json.cost, Json.render, intDigits]
    split
    · simp only [List.length_cons]
      omega
    · omega
  | .float lit, hp => by simp [Json.plain] at hp
  | .str s, _ => by
    have h := renderString_length s
    simp only [Json.cost, Json.render]
    omega
  | .arr elems, hp => by
    have h := costElems_le_render elems (by simpa [Json.plain] using hp)
    simp only [Json.cost, Json.render, List.length_cons, List.length_append, List.length_nil]
    omega
  | .obj members, hp => by
    have h := costMembers_le_render members (by simpa [Json.plain] using hp)
    simp only [Json.cost, Json.render, List.length_cons, List.length_append, List.length_nil]
    omega
theorem costElems_le_render : (xs : List Json) → plainElems xs = true →
    costElems xs ≤ 2 * (renderElems xs).length
  | [], _ => by simp [costElems]
  | [x], hp => by
    have hpx : x.plain = true := by
      simp only [plainElems, Bool.and_eq_true] at hp
      exact hp.1
    have h := cost_le_render x hpx
    simp only [costElems, renderElems]
    omega
  | x :: y :: ys, hp => by
    have hp2 : x.plain = true ∧ plainElems (y :: ys) = true := by
      rw [plainElems, Bool.and_eq_true] at hp
      exact hp
    have h := cost_le_render x hp2.1
    have h2 := costElems_le_render (y :: ys) hp2.2
    rw [costElems, renderElems]
    simp only [List.length_cons, List.length_append]
    omega
theorem costMembers_le_render : (ms : List (GoString × Json)) → plainMembers ms = true →
    costMembers ms ≤ 2 * (renderMembers ms).length
  | [], _ => by simp [costMembers]
  | [(k, x)], hp => by
    have hpx : x.plain = true := by
      simp only [plainMembers, Bool.and_eq_true] at hp
      exact hp.1.2
    have h := cost_le_render x hpx
    simp only [costMembers, renderMembers, List.length_cons, List.length_append]
    omega
  | (k, x) :: m :: ms, hp => by
    have hp2 : (validUTF8 k = true ∧ x.plain = true) ∧ plainMembers (m :: ms) = true := by
      rw [plainMembers, Bool.and_eq_true, Bool.and_eq_true] at hp
      exact hp
    have h := cost_le_render x hp2.1.2
    have h2 := costMembers_le_render (m :: ms) hp2.2
    rw [costMembers, renderMembers]
    simp only [List.length_cons, List.length_append]
    omega
end

/-- Reading back the text written for a plain value that does not nest too deep gives the
value. -/
theorem parseJSON_render (j : Json) (hp : j.plain = true) (hd : j.depth ≤ maxNestingDepth) :
    parseJSON (j.render.map StrElem.rune) = some j := by
  have hc := cost_le_render j hp
  have h := parseValue_render j hp (2 * (j.render.map StrElem.rune).length + 2)
    maxNestingDepth [] (by simp only [List.length_map]; omega) hd
    (by intro c tail h; cases h)
  rw [List.append_nil] at h
  unfold parseJSON
  rw [h]
  rfl

/-! ## A time through its text and back -/

theorem natDigits_length_le (w n : Nat) (h : n < 10 ^ w) (hw : 1 ≤ w) :
    (natDigits n).length ≤ w := by
  induction w generalizing n with
  | zero => omega
  | succ w ih =>
    by_cases hn : n < 10
    · rw [natDigits_small n hn]
      simp
    · rw [natDigits_large n hn]
      have hw1 : 1 ≤ w := by
        rcases w with _ | w
        · simp at h; omega
        · omega
      have := ih (n / 10) (by rw [pow_succ] at h; omega) hw1
      simp only [List.length_append, List.length_cons, List.length_nil]
      omega

theorem appendInt_zero (w : Nat) (hw : 1 ≤ w) : appendInt 0 w = List.replicate w '0' := by
  unfold appendInt
  rw [natDigits_small 0 (by decide)]
  have : w = (w - 1) + 1 := by omega
  simp only [List.length_cons, List.length_nil]
  conv => rhs; rw [this, List.replicate_succ']
  rfl

theorem appendInt_succ (w n : Nat) (hw : 1 ≤ w) (h : n < 10 ^ (w + 1)) :
    appendInt n (w + 1) = appendInt (n / 10) w ++ [digitChar n] := by
  by_cases hn : n < 10
  · have h0 : n / 10 = 0 := by omega
    rw [h0, appendInt_zero w hw]
    unfold appendInt
    rw [natDigits_small n hn]
    simp
  · unfold appendInt
    have hlen := natDigits_length_le w (n / 10) (by rw [pow_succ] at h; omega) hw
    rw [natDigits_large n hn]
    simp only [List.length_append, List.length_cons, List.length_nil]
    have : w + 1 - ((natDigits (n / 10)).length + 1) = w - (natDigits (n / 10)).length := by
      omega
    rw [this, List.append_assoc]

theorem appendInt_fixed (w n : Nat) (hw : 1 ≤ w) (h : n < 10 ^ w) :
    appendInt n w = fixedDigits w n := by
  induction w generalizing n with
  | zero => omega
  | succ w ih =>
    rcases w with _ | w
    · have hn : n < 10 := by simpa using h
      unfold appendInt
      rw [natDigits_small n hn]
      rfl
    · rw [appendInt_succ (w + 1) n (by omega) h, fixedDigits,
        ih (n / 10) (by omega) (by rw [pow_succ] at h; omega)]

theorem parseDigits_fixed (w n : Nat) :
    parseDigits (fixedDigits w n) 0 = some (n % 10 ^ w) := by
  induction w generalizing n with
  | zero => simp [fixedDigits, parseDigits, Nat.mod_one]
  | succ w ih =>
    rw [fixedDigits, parseDigits_append, ih, digitVal_digitChar]
    simp only [Option.some_bind, Option.map_some']
    congr 1
    rw [pow_succ]
    have := Nat.mod_mul_right_div_self n 10 (10 ^ w)
    have h1 : n % (10 ^ w * 10) = n % 10 + 10 * (n / 10 % 10 ^ w) := by
      rw [Nat.mul_comm, Nat.mod_mul]
    omega

theorem fixedDigits_all_digits (w n : Nat) :
    ∀ c ∈ fixedDigits w n, (digitVal c).isSome = true := by
  induction w generalizing n with
  | zero => simp [fixedDigits]
  | succ w ih =>
    intro c hc
    rw [fixedDigits, List.mem_append] at hc
    rcases hc with hc | hc
    · exact ih _ c hc
    · simp at hc
      subst hc
      simp [digitVal_digitChar]

theorem fixedDigits_length (w n : Nat) : (fixedDigits w n).length = w := by
  induction w generalizing n with
  | zero => rfl
  | succ w ih => simp [fixedDigits, ih]

theorem stripZeros_snoc_zero (l : List Char) : stripZeros (l ++ ['0']) = stripZeros l := by
  simp [stripZeros, List.dropWhile]

theorem stripZeros_snoc_other (l : List Char) (c : Char) (h : c ≠ '0') :
    stripZeros (l ++ [c]) = l ++ [c] := by
  simp [stripZeros, List.dropWhile, h]

theorem stripZeros_value (l : List Char) :
    ∀ v, parseDigits l 0 = some v →
      ∃ k u, l.length = (stripZeros l).length + k ∧ parseDigits (stripZeros l) 0 = some u
        ∧ v = u * 10 ^ k := by
  induction l using List.reverseRecOn with
  | nil =>
    intro v hv
    exact ⟨0, v, rfl, hv, by simp⟩
  | append_singleton l c ih =>
    intro v hv
    by_cases hc : c = '0'
    · subst hc
      rw [stripZeros_snoc_zero]
      rw [parseDigits_append] at hv
      cases hl : parseDigits l 0 with
      | none => rw [hl] at hv; simp at hv
      | some v2 =>
        rw [hl] at hv
        have hz : digitVal '0' = some 0 := by decide
        simp only [Option.some_bind, hz, Option.map_some', Option.some.injEq] at hv
        obtain ⟨k, u, hlen, hu, hv2⟩ := ih v2 hl
        refine ⟨k + 1, u, by simp [hlen]; omega, hu, ?_⟩
        rw [← hv, hv2, pow_succ]
        ring
    · rw [stripZeros_snoc_other l c hc]
      exact ⟨0, v, rfl, hv, by simp⟩

theorem stripZeros_all (l : List Char) (p : Char → Prop) (h : ∀ c ∈ l, p c) :
    ∀ c ∈ stripZeros l, p c := by
  intro c hc
  apply h
  simp only [stripZeros, List.mem_reverse] at hc
  have := (List.dropWhile_suffix (· = '0') (l := l.reverse)).subset hc
  simpa using this

theorem takeWhile_digits (s rest : List Char) (hs : ∀ c ∈ s, (digitVal c).isSome = true)
    (hrest : ∀ c tail, rest = c :: tail → (digitVal c).isSome = false) :
    (s ++ rest).takeWhile (fun c => (digitVal c).isSome) = s
      ∧ (s ++ rest).dropWhile (fun c => (digitVal c).isSome) = rest := by
  induction s with
  | nil =>
    cases rest with
    | nil => simp
    | cons c tail => simp [List.takeWhile, List.dropWhile, hrest c tail rfl]
  | cons d s ih =>
    have hd := hs d (by simp)
    have := ih fun c hc => hs c (List.mem_cons_of_mem _ hc)
    simp [List.takeWhile, List.dropWhile, hd, this.1, this.2]

theorem parseUint_fixed (w n lo hi : Nat) (hn : n < 10 ^ w) (hlo : lo ≤ n) (hhi : n ≤ hi) :
    parseUint (fixedDigits w n) lo hi = some n := by
  unfold parseUint
  rw [parseDigits_fixed, Nat.mod_eq_of_lt hn]
  simp only
  rw [if_neg (by omega)]

/-- The zone suffix `appendZone` writes for an offset of whole minutes below a day reads
back as that offset. -/
theorem parseZone_appendZone (offset : Int) (hmin : offset % 60 = 0)
    (hday : (offset.tdiv 60).natAbs / 60 < 24) :
    parseZone (appendZone offset) = some offset := by
  unfold appendZone
  by_cases h0 : offset = 0
  · rw [if_pos h0, h0]
    rfl
  · rw [if_neg h0]
    obtain ⟨q, hq⟩ := Int.dvd_of_emod_eq_zero hmin
    have hdiv : offset.tdiv 60 = q := by
      rw [hq]
      exact Int.mul_tdiv_cancel_left q (by decide)
    rw [hdiv] at hday ⊢
    have hq0 : q ≠ 0 := by
      intro h
      apply h0
      rw [hq, h]
      rfl
    simp only
    rw [appendInt_fixed 2 (q.natAbs / 60) (by decide) (by norm_num; omega),
      appendInt_fixed 2 (q.natAbs % 60) (by decide) (by norm_num; omega)]
    have hh := parseUint_fixed 2 (q.natAbs / 60) 0 23 (by norm_num; omega) (by omega) (by omega)
    have hm := parseUint_fixed 2 (q.natAbs % 60) 0 59 (by norm_num; omega) (by omega) (by omega)
    simp only [fixedDigits, List.nil_append, List.cons_append, List.singleton_append] at hh hm ⊢
    unfold parseZone
    simp only [hh, hm]
    by_cases hneg : q < 0
    · simp only [hneg, if_true, true_or, and_self]
      congr 1
      have := Nat.div_add_mod q.natAbs 60
      omega
    · have e2 : ¬ ('+' = '-') := by decide
      simp only [hneg, if_false, or_true, and_self, if_true, e2]
      congr 1
      have := Nat.div_add_mod q.natAbs 60
      omega

theorem runesOf_map (l : List Char) : runesOf (l.map StrElem.rune) = some l := by
  induction l with
  | nil => rfl
  | cons c l ih => simp [runesOf, ih]

theorem appendNano_eq (n : Nat) :
    appendNano n = if n = 0 then [] else '.' :: stripZeros (appendInt n 9) := by
  rfl

theorem appendZone_head (offset : Int) :
    ∃ c tail, appendZone offset = c :: tail ∧ (digitVal c).isSome = false ∧ c ≠ '.' := by
  unfold appendZone
  split
  · exact ⟨'Z', [], rfl, by decide, by decide⟩
  · simp only
    split
    · exact ⟨'-', _, rfl, by decide, by decide⟩
    · exact ⟨'+', _, rfl, by decide, by decide⟩

theorem splitFraction_appendNano (n : Nat) (hn : n < 10 ^ 9) (zone : List Char)
    (hz : ∃ c tail, zone = c :: tail ∧ (digitVal c).isSome = false ∧ c ≠ '.') :
    ∃ digits, splitFraction (appendNano n ++ zone) = (digits, zone)
      ∧ parseFraction digits = some n := by
  obtain ⟨c, tail, hzone, hc, hdot⟩ := hz
  rw [appendNano_eq]
  by_cases h0 : n = 0
  · rw [if_pos h0, h0, hzone]
    refine ⟨[], ?_, rfl⟩
    simp only [List.nil_append]
    unfold splitFraction
    split
    · rename_i heq
      cases heq
      exact absurd rfl hdot
    · rfl
  · rw [if_neg h0, appendInt_fixed 9 n (by decide) hn]
    have hall := stripZeros_all (fixedDigits 9 n) (fun c => (digitVal c).isSome = true)
      (fixedDigits_all_digits 9 n)
    obtain ⟨k, u, hlen, hu, hv⟩ := stripZeros_value (fixedDigits 9 n) (n % 10 ^ 9)
      (parseDigits_fixed 9 n)
    rw [Nat.mod_eq_of_lt hn] at hv
    rw [fixedDigits_length] at hlen
    have hne : stripZeros (fixedDigits 9 n) ≠ [] := by
      intro h
      rw [h] at hu
      simp only [parseDigits, Option.some.injEq] at hu
      rw [← hu] at hv
      omega
    obtain ⟨d, more, hs⟩ := List.exists_cons_of_ne_nil hne
    have htw := takeWhile_digits (stripZeros (fixedDigits 9 n)) zone hall (by
      intro c2 tail2 h2
      rw [hzone] at h2
      cases h2
      exact hc)
    rw [hs] at htw hall hu hlen
    have hd : (digitVal d).isSome = true := hall d (by simp)
    refine ⟨d :: more, ?_, ?_⟩
    · rw [hs]
      have h1 := htw.1
      have h2 := htw.2
      simp only [List.cons_append] at h1 h2 ⊢
      unfold splitFraction
      simp only [hd, if_true, h1, h2]
    · have hlen2 : (d :: more).length ≤ 9 := by omega
      unfold parseFraction parseNanoseconds
      simp only [List.isEmpty_cons, Bool.false_eq_true, if_false]
      rw [List.take_of_length_le hlen2, hu]
      simp only [Option.map_some']
      congr 1
      rw [hv]
      congr 2
      omega

/-- The text `Time.MarshalJSON` writes for a civil time with a zone offset of whole minutes
reads back as that time. -/
theorem Time_text_round_trip (t : Time) (s : GoString) (hc : t.isCivil = true)
    (hm : t.MarshalJSON = .ok s) (hoff : t.offset % 60 = 0) :
    Time.UnmarshalJSON s = .ok t := by
  unfold Time.MarshalJSON at hm
  split at hm
  · cases hm
  rename_i hy
  split at hm
  · cases hm
  rename_i hz
  cases hm
  simp only [Time.isCivil, decide_eq_true_eq] at hc
  obtain ⟨hmo1, hmo2, hd1, hd2, hh, hmi, hse, hns⟩ := hc
  have hyear : t.year = (t.year.natAbs : Int) := by omega
  have hyr : t.year.natAbs ≤ 9999 := by omega
  have hdays : daysIn t.month t.year.natAbs ≤ 31 := by
    unfold daysIn
    split
    · split <;> omega
    · split <;> omega
  obtain ⟨digits, hsplit, hfrac⟩ := splitFraction_appendNano t.nanosecond hns
    (appendZone t.offset) (appendZone_head t.offset)
  have hzone := parseZone_appendZone t.offset hoff (by omega)
  have py := parseUint_fixed 4 t.year.natAbs 0 9999 (by norm_num; omega) (by omega) hyr
  have pmo := parseUint_fixed 2 t.month 1 12 (by norm_num; omega) hmo1 hmo2
  have pd := parseUint_fixed 2 t.day 1 (daysIn t.month t.year.natAbs) (by norm_num; omega)
    hd1 hd2
  have ph := parseUint_fixed 2 t.hour 0 23 (by norm_num; omega) (by omega) (by omega)
  have pmi := parseUint_fixed 2 t.minute 0 59 (by norm_num; omega) (by omega) (by omega)
  have pse := parseUint_fixed 2 t.second 0 59 (by norm_num; omega) (by omega) (by omega)
  unfold Time.UnmarshalJSON
  rw [runesOf_map]
  simp only [Option.some_bind]
  unfold Time.appendFormatRFC3339
  rw [appendInt_fixed 4 t.year.natAbs (by decide) (by norm_num; omega),
    appendInt_fixed 2 t.month (by decide) (by norm_num; omega),
    appendInt_fixed 2 t.day (by decide) (by norm_num; omega),
    appendInt_fixed 2 t.hour (by decide) (by norm_num; omega),
    appendInt_fixed 2 t.minute (by decide) (by norm_num; omega),
    appendInt_fixed 2 t.second (by decide) (by norm_num; omega)]
  simp only [fixedDigits, List.nil_append, List.cons_append, List.singleton_append,
    List.append_assoc] at py pmo pd ph pmi pse ⊢
  unfold parseRFC3339
  simp only [py, pmo, pd, ph, pmi, pse, and_self, if_true, hsplit, hfrac, hzone]
  congr 1
  cases t
  simp only [Time.mk.injEq, and_true, true_and] at hyear ⊢
  exact hyear.symm

/-! ## A task through JSON and back -/

theorem fieldsToJson_cons_ok (tag : FieldTag) (v : GoValue) (j : Json)
    (rest : List (FieldTag × GoValue)) (h : v.toJson = .ok j) :
    fieldsToJson ((tag, v) :: rest)
      = (fieldsToJson rest).map
          fun ms => optMember (tag.omitEmpty && isEmptyValue v) tag.name j ++ ms := by
  rw [fieldsToJson]
  by_cases ho : (tag.omitEmpty && isEmptyValue v) = true
  · rw [if_pos ho, ho]
    cases fieldsToJson rest <;> rfl
  · rw [if_neg ho, h]
    have ho2 : (tag.omitEmpty && isEmptyValue v) = false := by simpa using ho
    rw [ho2]
    cases fieldsToJson rest <;> rfl

theorem decodeMembers_optMember (omitted : Bool) (name : GoString) (j : Json)
    (rest : List (GoString × Json)) (T T2 : Task)
    (hstep : omitted = false → Task.store name j T = (T2, .fine))
    (hskip : omitted = true → T2 = T) :
    decodeMembers Task.store (optMember omitted name j ++ rest) T
      = decodeMembers Task.store rest T2 := by
  cases omitted with
  | true =>
    rw [hskip rfl]
    rfl
  | false =>
    have h := hstep rfl
    show decodeMembers Task.store ((name, j) :: rest) T = _
    rw [decodeMembers, h]
    simp [Status.andThen]

theorem decodeInt_val (v cur : GoInt) : decodeInt (.int v.val) cur = (v, .fine) := by
  unfold decodeInt
  simp only
  rw [dif_pos v.property]

theorem Due_decode_json (d cur : Due) : Due.decode d.json cur = (d, .fine) := by
  have h0 : fieldIndex Due.fieldNames (gs "date") = some 0 := by decide
  have h1 : fieldIndex Due.fieldNames (gs "is_recurring") = some 1 := by decide
  have h2 : fieldIndex Due.fieldNames (gs "datetime") = some 2 := by decide
  have h3 : fieldIndex Due.fieldNames (gs "string") = some 3 := by decide
  have h4 : fieldIndex Due.fieldNames (gs "timezone") = some 4 := by decide
  simp [Due.decode, Due.json, decodeStruct, decodeMembers, Due.store, h0, h1, h2, h3, h4,
    decodeString, decodeBool, Status.andThen]

theorem Duration_decode_json (d cur : Duration) : Duration.decode d.json cur = (d, .fine) := by
  have h0 : fieldIndex Duration.fieldNames (gs "amount") = some 0 := by decide
  have h1 : fieldIndex Duration.fieldNames (gs "unit") = some 1 := by decide
  simp [Duration.decode, Duration.json, decodeStruct, decodeMembers, Duration.store, h0, h1,
    decodeString, decodeInt_val, Status.andThen]

theorem decodePtr_json (d : Duration) (cur : Option Duration) :
    decodePtr Duration.decode Duration.zero d.json cur = (some d, .fine) := by
  show (let r := Duration.decode d.json (cur.getD Duration.zero); (some r.1, r.2)) = _
  rw [Duration_decode_json]

theorem decodeElems_strings (ls : List GoString) :
    decodeElems decodeString [] (ls.map Json.str) [] = (ls, .fine) := by
  rw [decodeElems_fine decodeString [] (ls.map Json.str) (by
    intro e he
    rw [List.mem_map] at he
    obtain ⟨s, _, rfl⟩ := he
    rfl)]
  simp [decodeString, Function.comp_def]

theorem step_CreatorID (v : GoString) (T : Task) (rest : List (GoString × Json)) (hT : T.CreatorID = []) :
    decodeMembers Task.store (optMember (v.length == 0) (gs "creator_id") (.str v) ++ rest) T
      = decodeMembers Task.store rest { T with CreatorID := v } := by
  apply decodeMembers_optMember
  · intro _
    simp [Task.store, (show fieldIndex Task.fieldNames (gs "creator_id") = some 0 from by decide), decodeString]
  · intro h
    have hv : v = [] := by simpa using h
    subst hv
    cases T
    simp_all

theorem step_CreatedAt (v : Time) (s : GoString) (T : Task) (rest : List (GoString × Json))
    (hback : Time.UnmarshalJSON s = .ok v) :
    decodeMembers Task.store (optMember false (gs "created_at") (.str s) ++ rest) T
      = decodeMembers Task.store rest { T with CreatedAt := v } := by
  apply decodeMembers_optMember
  · intro _
    simp [Task.store, (show fieldIndex Task.fieldNames (gs "created_at") = some 1 from by decide), decodeTime, hback]
  · intro h
    cases h

theorem step_AssigneeID (v : GoString) (T : Task) (rest : List (GoString × Json)) (hT : T.AssigneeID = []) :
    decodeMembers Task.store (optMember (v.length == 0) (gs "assignee_id") (.str v) ++ rest) T
      = decodeMembers Task.store rest { T with AssigneeID := v } := by
  apply decodeMembers_optMember
  · intro _
    simp [Task.store, (show fieldIndex Task.fieldNames (gs "assignee_id") = some 2 from by decide), decodeString]
  · intro h
    have hv : v = [] := by simpa using h
    subst hv
    cases T
    simp_all

theorem step_AssignerID (v : GoString) (T : Task) (rest : List (GoString × Json)) (hT : T.AssignerID = []) :
    decodeMembers Task.store (optMember (v.length == 0) (gs "assigner_id") (.str v) ++ rest) T
      = decodeMembers Task.store rest { T with AssignerID := v } := by
  apply decodeMembers_optMember
  · intro _
    simp [Task.store, (show fieldIndex Task.fieldNames (gs "assigner_id") = some 3 from by decide), decodeString]
  · intro h
    have hv : v = [] := by simpa using h
    subst hv
    cases T
    simp_all

theorem step_CommentCount (v : GoInt) (T : Task) (rest : List (GoString × Json))
    (hT : T.CommentCount = GoInt.zero) :
    decodeMembers Task.store (optMember (v.val == 0) (gs "comment_count") (.int v.val) ++ rest) T
      = decodeMembers Task.store rest { T with CommentCount := v } := by
  apply decodeMembers_optMember
  · intro _
    simp [Task.store, (show fieldIndex Task.fieldNames (gs "comment_count") = some 4 from by decide), decodeInt_val]
  · intro h
    have hv : v = GoInt.zero := Subtype.ext (by simpa using h)
    subst hv
    cases T
    simp_all

theorem step_IsCompleted (v : Bool) (T : Task) (rest : List (GoString × Json))
    (hT : T.IsCompleted = false) :
    decodeMembers Task.store (optMember (!v) (gs "is_completed") (.bool v) ++ rest) T
      = decodeMembers Task.store rest { T with IsCompleted := v } := by
  apply decodeMembers_optMember
  · intro _
    simp [Task.store, (show fieldIndex Task.fieldNames (gs "is_completed") = some 5 from by decide), decodeBool]
  · intro h
    have hv : v = false := by simpa using h
    subst hv
    cases T
    simp_all

theorem step_Content (v : GoString) (T : Task) (rest : List (GoString × Json)) :
    decodeMembers Task.store (optMember false (gs "content") (.str v) ++ rest) T
      = decodeMembers Task.store rest { T with Content := v } := by
  apply decodeMembers_optMember
  · intro _
    simp [Task.store, (show fieldIndex Task.fieldNames (gs "content") = some 6 from by decide), decodeString]
  · intro h
    cases h

theorem step_Description (v : GoString) (T : Task) (rest : List (GoString × Json)) (hT : T.Description = []) :
    decodeMembers Task.store (optMember (v.length == 0) (gs "description") (.str v) ++ rest) T
      = decodeMembers Task.store rest { T with Description := v } := by
  apply decodeMembers_optMember
  · intro _
    simp [Task.store, (show fieldIndex Task.fieldNames (gs "description") = some 7 from by decide), decodeString]
  · intro h
    have hv : v = [] := by simpa using h
    subst hv
    cases T
    simp_all

theorem step_Due (v : Due) (T : Task) (rest : List (GoString × Json)) :
    decodeMembers Task.store (optMember false (gs "due") v.json ++ rest) T
      = decodeMembers Task.store rest { T with Due := v } := by
  apply decodeMembers_optMember
  · intro _
    simp [Task.store, (show fieldIndex Task.fieldNames (gs "due") = some 8 from by decide), Due_decode_json]
  · intro h
    cases h

theorem step_Duration (v : Option Duration) (T : Task) (rest : List (GoString × Json))
    (hT : T.Duration = none) :
    decodeMembers Task.store (optMember v.isNone (gs "duration") (Duration.jsonOpt v) ++ rest) T
      = decodeMembers Task.store rest { T with Duration := v } := by
  apply decodeMembers_optMember
  · intro h
    cases v with
    | none => simp at h
    | some d =>
      simp [Task.store, (show fieldIndex Task.fieldNames (gs "duration") = some 9 from by decide), Duration.jsonOpt,
        decodePtr_json]
  · intro h
    cases v with
    | none =>
      cases T
      simp_all
    | some d => simp at h

theorem step_ID (v : GoString) (T : Task) (rest : List (GoString × Json)) (hT : T.ID = []) :
    decodeMembers Task.store (optMember (v.length == 0) (gs "id") (.str v) ++ rest) T
      = decodeMembers Task.store rest { T with ID := v } := by
  apply decodeMembers_optMember
  · intro _
    simp [Task.store, (show fieldIndex Task.fieldNames (gs "id") = some 10 from by decide), decodeString]
  · intro h
    have hv : v = [] := by simpa using h
    subst hv
    cases T
    simp_all

theorem step_Labels (v : Option (List GoString)) (T : Task) (rest : List (GoString × Json))
    (hT : T.Labels = none) :
    decodeMembers Task.store
        (optMember ((v.getD []).length == 0) (gs "labels") (labelsJson v) ++ rest) T
      = decodeMembers Task.store rest { T with Labels := omitEmptySlice v } := by
  apply decodeMembers_optMember
  · intro h
    cases v with
    | none => simp at h
    | some ls =>
      cases ls with
      | nil => simp at h
      | cons a ls =>
        simp [Task.store, (show fieldIndex Task.fieldNames (gs "labels") = some 11 from by decide), labelsJson, decodeSlice, hT, omitEmptySlice,
          ← List.map_cons, decodeElems_strings]
  · intro h
    cases v with
    | none =>
      cases T
      simp_all [omitEmptySlice]
    | some ls =>
      cases ls with
      | nil =>
        cases T
        simp_all [omitEmptySlice]
      | cons a ls => simp at h

theorem step_Order (v : GoInt) (T : Task) (rest : List (GoString × Json))
    (hT : T.Order = GoInt.zero) :
    decodeMembers Task.store (optMember (v.val == 0) (gs "order") (.int v.val) ++ rest) T
      = decodeMembers Task.store rest { T with Order := v } := by
  apply decodeMembers_optMember
  · intro _
    simp [Task.store, (show fieldIndex Task.fieldNames (gs "order") = some 12 from by decide), decodeInt_val]
  · intro h
    have hv : v = GoInt.zero := Subtype.ext (by simpa using h)
    subst hv
    cases T
    simp_all

theorem step_Priority (v : GoInt) (T : Task) (rest : List (GoString × Json))
    (hT : T.Priority = GoInt.zero) :
    decodeMembers Task.store (optMember (v.val == 0) (gs "priority") (.int v.val) ++ rest) T
      = decodeMembers Task.store rest { T with Priority := v } := by
  apply decodeMembers_optMember
  · intro _
    simp [Task.store, (show fieldIndex Task.fieldNames (gs "priority") = some 13 from by decide), decodeInt_val]
  · intro h
    have hv : v = GoInt.zero := Subtype.ext (by simpa using h)
    subst hv
    cases T
    simp_all

theorem step_ProjectID (v : GoString) (T : Task) (rest : List (GoString × Json)) (hT : T.ProjectID = []) :
    decodeMembers Task.store (optMember (v.length == 0) (gs "project_id") (.str v) ++ rest) T
      = decodeMembers Task.store rest { T with ProjectID := v } := by
  apply decodeMembers_optMember
  · intro _
    simp [Task.store, (show fieldIndex Task.fieldNames (gs "project_id") = some 14 from by decide), decodeString]
  · intro h
    have hv : v = [] := by simpa using h
    subst hv
    cases T
    simp_all

theorem step_SectionID (v : GoString) (T : Task) (rest : List (GoString × Json)) (hT : T.SectionID = []) :
    decodeMembers Task.store (optMember (v.length == 0) (gs "section_id") (.str v) ++ rest) T
      = decodeMembers Task.store rest { T with SectionID := v } := by
  apply decodeMembers_optMember
  · intro _
    simp [Task.store, (show fieldIndex Task.fieldNames (gs "section_id") = some 15 from by decide), decodeString]
  · intro h
    have hv : v = [] := by simpa using h
    subst hv
    cases T
    simp_all

theorem step_ParentID (v : GoString) (T : Task) (rest : List (GoString × Json)) (hT : T.ParentID = []) :
    decodeMembers Task.store (optMember (v.length == 0) (gs "parent_id") (.str v) ++ rest) T
      = decodeMembers Task.store rest { T with ParentID := v } := by
  apply decodeMembers_optMember
  · intro _
    simp [Task.store, (show fieldIndex Task.fieldNames (gs "parent_id") = some 16 from by decide), decodeString]
  · intro h
    have hv : v = [] := by simpa using h
    subst hv
    cases T
    simp_all

theorem step_URL (v : GoString) (T : Task) (rest : List (GoString × Json)) (hT : T.URL = []) :
    decodeMembers Task.store (optMember (v.length == 0) (gs "url") (.str v) ++ rest) T
      = decodeMembers Task.store rest { T with URL := v } := by
  apply decodeMembers_optMember
  · intro _
    simp [Task.store, (show fieldIndex Task.fieldNames (gs "url") = some 17 from by decide), decodeString]
  · intro h
    have hv : v = [] := by simpa using h
    subst hv
    cases T
    simp_all

/-- Decoding the JSON object written for a task into a zero task gives the task back, an
empty label slice coming back nil. -/
theorem Task.decode_members (t : Task) (createdAt : GoString)
    (hback : Time.UnmarshalJSON createdAt = .ok t.CreatedAt) :
    Task.decode (.obj (Task.members t createdAt)) Task.zero
      = ({ t with Labels := omitEmptySlice t.Labels }, .fine) := by
  show decodeMembers Task.store (Task.members t createdAt) Task.zero = _
  unfold Task.members
  rw [step_CreatorID t.CreatorID _ _ rfl]
  rw [step_CreatedAt t.CreatedAt createdAt _ _ hback]
  rw [step_AssigneeID t.AssigneeID _ _ rfl]
  rw [step_AssignerID t.AssignerID _ _ rfl]
  rw [step_CommentCount t.CommentCount _ _ rfl]
  rw [step_IsCompleted t.IsCompleted _ _ rfl]
  rw [step_Content t.Content _ _]
  rw [step_Description t.Description _ _ rfl]
  rw [step_Due t.Due _ _]
  rw [step_Duration t.Duration _ _ rfl]
  rw [step_ID t.ID _ _ rfl]
  rw [step_Labels t.Labels _ _ rfl]
  rw [step_Order t.Order _ _ rfl]
  rw [step_Priority t.Priority _ _ rfl]
  rw [step_ProjectID t.ProjectID _ _ rfl]
  rw [step_SectionID t.SectionID _ _ rfl]
  rw [step_ParentID t.ParentID _ _ rfl]
  rw [step_URL t.URL _ _ rfl]
  rfl

theorem Due_reflect_toJson (d : Due) : d.reflect.toJson = .ok d.json := by
  rfl

theorem Duration_reflect_toJson (d : Duration) : d.reflect.toJson = .ok d.json := by
  rfl

theorem elemsToJson_strings (ls : List GoString) :
    elemsToJson (ls.map GoValue.string) = .ok (ls.map Json.str) := by
  induction ls with
  | nil => rfl
  | cons a ls ih =>
    rw [List.map_cons, elemsToJson, ih]
    rfl

/-- The JSON value of a task whose `CreatedAt` has the text `createdAt`. -/
theorem Task_reflect_toJson (t : Task) (createdAt : GoString)
    (htime : t.CreatedAt.MarshalJSON = .ok createdAt) :
    t.reflect.toJson = .ok (.obj (Task.members t createdAt)) := by
  have hT : (GoValue.time t.CreatedAt).toJson = .ok (.str createdAt) := by
    rw [GoValue.toJson, htime]
  have hD : (Duration.reflectPtr t.Duration).toJson = .ok (Duration.jsonOpt t.Duration) := by
    cases t.Duration with
    | none => rfl
    | some d => exact Duration_reflect_toJson d
  have hL : (reflectStrings t.Labels).toJson = .ok (labelsJson t.Labels) := by
    cases t.Labels with
    | none => rfl
    | some ls =>
      rw [reflectStrings, GoValue.toJson, elemsToJson_strings]
      rfl
  have hDe : isEmptyValue (Duration.reflectPtr t.Duration) = t.Duration.isNone := by
    cases t.Duration <;> rfl
  have hLe : isEmptyValue (reflectStrings t.Labels) = ((t.Labels.getD []).length == 0) := by
    cases t.Labels with
    | none => rfl
    | some ls => simp [isEmptyValue, reflectStrings]
  rw [Task.reflect, GoValue.toJson]
  rw [fieldsToJson_cons_ok _ (.string t.CreatorID) (.str t.CreatorID) _ rfl]
  rw [fieldsToJson_cons_ok _ (.time t.CreatedAt) (.str createdAt) _ hT]
  rw [fieldsToJson_cons_ok _ (.string t.AssigneeID) (.str t.AssigneeID) _ rfl]
  rw [fieldsToJson_cons_ok _ (.string t.AssignerID) (.str t.AssignerID) _ rfl]
  rw [fieldsToJson_cons_ok _ (.int t.CommentCount.val) (.int t.CommentCount.val) _ rfl]
  rw [fieldsToJson_cons_ok _ (.bool t.IsCompleted) (.bool t.IsCompleted) _ rfl]
  rw [fieldsToJson_cons_ok _ (.string t.Content) (.str t.Content) _ rfl]
  rw [fieldsToJson_cons_ok _ (.string t.Description) (.str t.Description) _ rfl]
  rw [fieldsToJson_cons_ok _ t.Due.reflect t.Due.json _ (Due_reflect_toJson t.Due)]
  rw [fieldsToJson_cons_ok _ (Duration.reflectPtr t.Duration) (Duration.jsonOpt t.Duration) _ hD]
  rw [fieldsToJson_cons_ok _ (.string t.ID) (.str t.ID) _ rfl]
  rw [fieldsToJson_cons_ok _ (reflectStrings t.Labels) (labelsJson t.Labels) _ hL]
  rw [fieldsToJson_cons_ok _ (.int t.Order.val) (.int t.Order.val) _ rfl]
  rw [fieldsToJson_cons_ok _ (.int t.Priority.val) (.int t.Priority.val) _ rfl]
  rw [fieldsToJson_cons_ok _ (.string t.ProjectID) (.str t.ProjectID) _ rfl]
  rw [fieldsToJson_cons_ok _ (.string t.SectionID) (.str t.SectionID) _ rfl]
  rw [fieldsToJson_cons_ok _ (.string t.ParentID) (.str t.ParentID) _ rfl]
  rw [fieldsToJson_cons_ok _ (.string t.URL) (.str t.URL) _ rfl]
  rw [fieldsToJson, hDe, hLe]
  rfl

theorem mem_optMember (omitted : Bool) (name : GoString) (j : Json) (m : GoString × Json)
    (h : m ∈ optMember omitted name j) : m = (name, j) := by
  cases omitted <;> simp [optMember] at h
  exact h

theorem plainMembers_of_forall (ms : List (GoString × Json))
    (h : ∀ m ∈ ms, validUTF8 m.1 = true ∧ m.2.plain = true) : plainMembers ms = true := by
  induction ms with
  | nil => rfl
  | cons m ms ih =>
    obtain ⟨k, x⟩ := m
    have hm := h (k, x) (by simp)
    rw [plainMembers, ih fun m hm => h m (List.mem_cons_of_mem _ hm)]
    simp [hm.1, hm.2]

theorem depthMembers_le (ms : List (GoString × Json)) (d : Nat)
    (h : ∀ m ∈ ms, m.2.depth ≤ d) : depthMembers ms ≤ d := by
  induction ms with
  | nil => simp [depthMembers]
  | cons m ms ih =>
    obtain ⟨k, x⟩ := m
    have hm := h (k, x) (by simp)
    have := ih fun m hm => h m (List.mem_cons_of_mem _ hm)
    rw [depthMembers]
    exact max_le hm this

theorem plainElems_strings (ls : List GoString) (h : ls.all validUTF8 = true) :
    plainElems (ls.map Json.str) = true := by
  induction ls with
  | nil => rfl
  | cons a ls ih =>
    simp only [List.all_cons, Bool.and_eq_true] at h
    rw [List.map_cons, plainElems, ih h.2]
    simp [Json.plain, h.1]

theorem depthElems_strings (ls : List GoString) : depthElems (ls.map Json.str) = 0 := by
  induction ls with
  | nil => rfl
  | cons a ls ih =>
    rw [List.map_cons, depthElems, ih]
    rfl

theorem validUTF8_map_rune (l : List Char) : validUTF8 (l.map StrElem.rune) = true := by
  simp [validUTF8]

theorem validUTF8_gs (s : String) : validUTF8 (gs s) = true :=
  validUTF8_map_rune _

theorem Time.MarshalJSON_valid (t : Time) (s : GoString) (h : t.MarshalJSON = .ok s) :
    validUTF8 s = true := by
  unfold Time.MarshalJSON at h
  split at h
  · cases h
  · split at h
    · cases h
    · cases h
      exact validUTF8_map_rune _

/-- Every member of the object written for a task with valid strings has a valid key and a
plain value of depth at most one. -/
theorem Task.members_plain (t : Task) (createdAt : GoString)
    (hs : t.validStrings = true) (hc : validUTF8 createdAt = true) :
    ∀ m ∈ Task.members t createdAt,
      validUTF8 m.1 = true ∧ m.2.plain = true ∧ m.2.depth ≤ 1 := by
  simp only [Task.validStrings, Bool.and_eq_true] at hs
  obtain ⟨⟨⟨⟨⟨⟨⟨⟨⟨⟨⟨⟨⟨⟨⟨h1, h2⟩, h3⟩, h4⟩, h5⟩, h6⟩, h7⟩, h8⟩, h9⟩, h10⟩, h11⟩, h12⟩, h13⟩, h14⟩,
    h15⟩, h16⟩ := hs
  have hdue : t.Due.json.plain = true ∧ t.Due.json.depth ≤ 1 := by
    constructor
    · simp [Due.json, Json.plain, plainMembers, h6, h7, h8, h9, validUTF8_gs]
    · simp [Due.json, Json.depth, depthMembers]
  have hdur : (Duration.jsonOpt t.Duration).plain = true
      ∧ (Duration.jsonOpt t.Duration).depth ≤ 1 := by
    cases hd : t.Duration with
    | none => exact ⟨rfl, by simp [Duration.jsonOpt, Json.depth]⟩
    | some d =>
      rw [hd] at h10
      simp only at h10
      constructor
      · simp [Duration.jsonOpt, Duration.json, Json.plain, plainMembers, h10, validUTF8_gs]
      · simp [Duration.jsonOpt, Duration.json, Json.depth, depthMembers]
  have hlab : (labelsJson t.Labels).plain = true ∧ (labelsJson t.Labels).depth ≤ 1 := by
    cases hl : t.Labels with
    | none => exact ⟨rfl, by simp [labelsJson, Json.depth]⟩
    | some ls =>
      rw [hl] at h12
      constructor
      · simp only [labelsJson, Json.plain]
        exact plainElems_strings ls (by simpa using h12)
      · simp [labelsJson, Json.depth, depthElems_strings]
  intro m hm
  simp only [Task.members, List.mem_append, List.not_mem_nil, or_false] at hm
  rcases hm with hm | hm | hm | hm | hm | hm | hm | hm | hm | hm | hm | hm | hm | hm | hm | hm
    | hm | hm
  all_goals
    have he := mem_optMember _ _ _ _ hm
    subst he
    refine ⟨validUTF8_gs _, ?_, ?_⟩
  all_goals first
    | exact hdue.1
    | exact hdue.2
    | exact hdur.1
    | exact hdur.2
    | exact hlab.1
    | exact hlab.2
    | (simp only [Json.depth]; omega)
    | (simp only [Json.plain]; assumption)
    | rfl

/-! ## The claims -/

/-- C2: when the transport answers the request of `ListTasks` with a response whose status
code is not 200, `ListTasks` returns a nil task sequence and a non-nil error, and the
outcome is one fixed value in which the body of the response plays no part (it is never
decoded). -/
theorem ListTasks_status_not_ok (dflt : RoundTripper) (c : Client) (resp : Response)
    (hresp : ∀ req ∈ (c.ListTasks dflt).2, c.transport dflt req = .ok resp)
    (hcode : resp.StatusCode ≠ 200) :
    (c.ListTasks dflt).1.1 = none ∧ (c.ListTasks dflt).1.2 ≠ none ∧
      (c.ListTasks dflt).1
        = (none, some (.new (gs "error making get task request: %!s(<nil>)"))) := by
  have hr := hresp (c.request MethodGet none) (by rw [ListTasks_eq]; simp)
  have h : (c.ListTasks dflt).1
      = (none, some (.new (gs "error making get task request: %!s(<nil>)"))) := by
    rw [ListTasks_eq, hr]
    simp only [StatusOK, ne_eq, hcode, not_false_eq_true, if_true]
    rfl
  rw [h]
  simp

theorem ListTasks_status_not_ok_witness :
    (∀ req ∈ ((NewClient (gs "tok") []).ListTasks (server 500 (gs "oops"))).2,
        (NewClient (gs "tok") []).transport (server 500 (gs "oops")) req
          = .ok { StatusCode := 500, Body := gs "oops" }) ∧
      ((NewClient (gs "tok") []).ListTasks (server 500 (gs "oops"))).1.1 = none ∧
      ((NewClient (gs "tok") []).ListTasks (server 500 (gs "oops"))).1.2 ≠ none ∧
      ((NewClient (gs "tok") []).ListTasks (server 500 (gs "oops"))).1
        = (none, some (.new (gs "error making get task request: %!s(<nil>)"))) :=
  ⟨by decide,
   ListTasks_status_not_ok (server 500 (gs "oops")) (NewClient (gs "tok") [])
     { StatusCode := 500, Body := gs "oops" } (by decide) (by decide)⟩

/-- C3: when the task serializes and the transport answers the request of `CreateTask`
with a response whose status code is not 200 and whose body reads as `B`, `CreateTask`
returns a non-nil error whose message is `error making create task request: ` followed by
`B`, so that `B` is a substring of the message. -/
theorem CreateTask_status_not_ok (dflt : RoundTripper) (c : Client) (task : Task)
    (jsonValue : GoString) (resp : Response)
    (hm : Marshal task.reflect = .ok jsonValue)
    (hresp : ∀ req ∈ (c.CreateTask dflt task).2, c.transport dflt req = .ok resp)
    (hcode : resp.StatusCode ≠ 200) :
    ∃ err, (c.CreateTask dflt task).1 = some err ∧
      err.Error = gs "error making create task request: " ++ resp.Body ∧
      resp.Body <:+: err.Error := by
  have hr := hresp (c.request MethodPost (some jsonValue))
    (by rw [CreateTask_eq dflt c task jsonValue hm]; simp)
  refine ⟨.new (gs "error making create task request: " ++ resp.Body), ?_, rfl, ?_⟩
  · rw [CreateTask_eq dflt c task jsonValue hm, hr]
    simp only [StatusOK, ne_eq, hcode, not_false_eq_true, if_true]
    rfl
  · exact ⟨gs "error making create task request: ", [], by simp [GoError.Error]⟩

theorem CreateTask_status_not_ok_witness :
    Marshal buyMilk.reflect = .ok buyMilkJSON ∧
      ∃ err, ((NewClient (gs "tok") []).CreateTask
          (server 400 badRequest) buyMilk).1 = some err ∧
        err.Error = gs "error making create task request: "
          ++ badRequest ∧
        badRequest <:+: err.Error :=
  ⟨by decide,
   CreateTask_status_not_ok (server 400 badRequest)
     (NewClient (gs "tok") []) buyMilk buyMilkJSON
     { StatusCode := 400, Body := badRequest }
     (by decide) (by decide) (by decide)⟩

/-- C7: when the transport answers the request of `ListTasks` with status 200 and a body
that is not well-formed JSON, `ListTasks` returns a nil error and a nil task sequence. -/
theorem ListTasks_malformed_body (dflt : RoundTripper) (c : Client) (resp : Response)
    (hresp : ∀ req ∈ (c.ListTasks dflt).2, c.transport dflt req = .ok resp)
    (hcode : resp.StatusCode = 200)
    (hbad : parseJSON resp.Body = none) :
    (c.ListTasks dflt).1 = (none, none) := by
  have hr := hresp (c.request MethodGet none) (by rw [ListTasks_eq]; simp)
  rw [ListTasks_eq, hr]
  simp [StatusOK, hcode, UnmarshalTasks, Unmarshal, hbad]

theorem ListTasks_malformed_body_witness :
    (∀ req ∈ ((NewClient (gs "tok") []).ListTasks (server 200 malformed)).2,
        (NewClient (gs "tok") []).transport (server 200 malformed) req
          = .ok { StatusCode := 200, Body := malformed }) ∧
      parseJSON malformed = none ∧
      ((NewClient (gs "tok") []).ListTasks (server 200 malformed)).1
        = (none, none) :=
  ⟨by decide, rfl,
   ListTasks_malformed_body (server 200 malformed)
     (NewClient (gs "tok") []) { StatusCode := 200, Body := malformed }
     (by decide) (by decide) rfl⟩

/-- C8: when the transport fails with an error `e` on the request it is handed, `ListTasks`
returns a nil task sequence and a non-nil error that wraps `e` (it is on the error's unwrap
chain) and whose message starts with
`error making get task request: error sending request: `; `CreateTask`, for a task that
serializes, returns a non-nil error that wraps `e` and whose message starts with
`error making create task request: error sending request: `; and in both cases exactly one
request was handed to the transport. -/
theorem transport_failure_wrapped (dflt : RoundTripper) (c : Client) (e : GoError) :
    ((∀ req ∈ (c.ListTasks dflt).2, c.transport dflt req = .error e) →
      (c.ListTasks dflt).1.1 = none ∧
      (∃ err, (c.ListTasks dflt).1.2 = some err ∧ e ∈ err.chain ∧
        gs "error making get task request: error sending request: " <+: err.Error) ∧
      (c.ListTasks dflt).2.length = 1) ∧
    (∀ (task : Task) (jsonValue : GoString), Marshal task.reflect = .ok jsonValue →
      (∀ req ∈ (c.CreateTask dflt task).2, c.transport dflt req = .error e) →
      (∃ err, (c.CreateTask dflt task).1 = some err ∧ e ∈ err.chain ∧
        gs "error making create task request: error sending request: " <+: err.Error) ∧
      (c.CreateTask dflt task).2.length = 1) := by
  constructor
  · intro hfail
    have hr := hfail (c.request MethodGet none) (by rw [ListTasks_eq]; simp)
    rw [ListTasks_eq, hr]
    refine ⟨rfl, ⟨_, rfl, ?_, ?_⟩, rfl⟩
    · simp [Errorf_w, urlError, GoError.chain, GoError.mem_chain_self]
    · exact ⟨gs "Get" ++ gs " \"" ++ todositAPITasksURL ++ gs "\": " ++ e.Error, by
        simp [Errorf_w, urlError, GoError.Error, gs]⟩
  · intro task jsonValue hm hfail
    have hr := hfail (c.request MethodPost (some jsonValue))
      (by rw [CreateTask_eq dflt c task jsonValue hm]; simp)
    rw [CreateTask_eq dflt c task jsonValue hm, hr]
    refine ⟨⟨_, rfl, ?_, ?_⟩, rfl⟩
    · simp [Errorf_w, urlError, GoError.chain, GoError.mem_chain_self]
    · exact ⟨gs "Post" ++ gs " \"" ++ todositAPITasksURL ++ gs "\": " ++ e.Error, by
        simp [Errorf_w, urlError, GoError.Error, gs]⟩

theorem transport_failure_wrapped_witness :
    ((∀ req ∈ ((NewClient (gs "tok") []).ListTasks (broken (.new (gs "dial tcp: timeout")))).2,
        (NewClient (gs "tok") []).transport (broken (.new (gs "dial tcp: timeout"))) req
          = .error (.new (gs "dial tcp: timeout"))) ∧
      Marshal buyMilk.reflect = .ok buyMilkJSON ∧
      (∀ req ∈ ((NewClient (gs "tok") []).CreateTask
            (broken (.new (gs "dial tcp: timeout"))) buyMilk).2,
        (NewClient (gs "tok") []).transport (broken (.new (gs "dial tcp: timeout"))) req
          = .error (.new (gs "dial tcp: timeout")))) ∧
    (((NewClient (gs "tok") []).ListTasks (broken (.new (gs "dial tcp: timeout")))).1.1 = none ∧
      (∃ err, ((NewClient (gs "tok") []).ListTasks
            (broken (.new (gs "dial tcp: timeout")))).1.2 = some err ∧
        GoError.new (gs "dial tcp: timeout") ∈ err.chain ∧
        gs "error making get task request: error sending request: " <+: err.Error) ∧
      ((NewClient (gs "tok") []).ListTasks (broken (.new (gs "dial tcp: timeout")))).2.length
        = 1) ∧
    ((∃ err, ((NewClient (gs "tok") []).CreateTask
            (broken (.new (gs "dial tcp: timeout"))) buyMilk).1 = some err ∧
        GoError.new (gs "dial tcp: timeout") ∈ err.chain ∧
        gs "error making create task request: error sending request: " <+: err.Error) ∧
      ((NewClient (gs "tok") []).CreateTask
          (broken (.new (gs "dial tcp: timeout"))) buyMilk).2.length = 1) :=
  ⟨⟨by decide, by decide, by decide⟩,
   (transport_failure_wrapped (broken (.new (gs "dial tcp: timeout")))
     (NewClient (gs "tok") []) (.new (gs "dial tcp: timeout"))).1 (by decide),
   (transport_failure_wrapped (broken (.new (gs "dial tcp: timeout")))
     (NewClient (gs "tok") []) (.new (gs "dial tcp: timeout"))).2 buyMilk buyMilkJSON
     (by decide) (by decide)⟩

/-- C9: `NewClient(t, WithHTTPTransport(r1), ..., WithHTTPTransport(rn))` returns a client
whose token is `t`, whose transport is `rn` when there is one and unset when there is none,
and whose other `http.Client` fields are zero; the options are applied in argument order;
and `WithHTTPTransport` sets the transport and changes no other field of the client. -/
theorem NewClient_with_transports (t : GoString) (rs : List RoundTripper) :
    (NewClient t (rs.map WithHTTPTransport)).token = t ∧
    (NewClient t (rs.map WithHTTPTransport)).httpClient.Transport = rs.getLast? ∧
    (NewClient t (rs.map WithHTTPTransport)).httpClient.CheckRedirect = none ∧
    (NewClient t (rs.map WithHTTPTransport)).httpClient.Jar = none ∧
    (NewClient t (rs.map WithHTTPTransport)).httpClient.Timeout = 0 ∧
    (∀ (opts : List ClientOption) (o : ClientOption),
      NewClient t (opts ++ [o]) = o (NewClient t opts)) ∧
    (∀ (r : RoundTripper) (c : Client),
      (WithHTTPTransport r c).httpClient.Transport = some r ∧
      (WithHTTPTransport r c).token = c.token ∧
      (WithHTTPTransport r c).httpClient.CheckRedirect = c.httpClient.CheckRedirect ∧
      (WithHTTPTransport r c).httpClient.Jar = c.httpClient.Jar ∧
      (WithHTTPTransport r c).httpClient.Timeout = c.httpClient.Timeout) := by
  refine ⟨NewClient_token t rs, ?_, ?_, ?_, ?_, NewClient_snoc t, ?_⟩
  · induction rs using List.reverseRecOn with
    | nil => rfl
    | append_singleton rs r _ =>
      rw [List.map_append, List.map_singleton, NewClient_snoc, List.getLast?_append]
      rfl
  · induction rs using List.reverseRecOn with
    | nil => rfl
    | append_singleton rs r ih =>
      rw [List.map_append, List.map_singleton, NewClient_snoc]
      exact ih
  · induction rs using List.reverseRecOn with
    | nil => rfl
    | append_singleton rs r ih =>
      rw [List.map_append, List.map_singleton, NewClient_snoc]
      exact ih
  · induction rs using List.reverseRecOn with
    | nil => rfl
    | append_singleton rs r ih =>
      rw [List.map_append, List.map_singleton, NewClient_snoc]
      exact ih
  · intro r c
    exact ⟨rfl, rfl, rfl, rfl, rfl⟩

/-- C10: the error `ListTasks` returns for a response with a status code other than 200
does not report the response: for any two such responses, whatever their status codes and
bodies (and whatever the clients), the two error messages are the same; whereas for
`CreateTask` two such responses with different bodies give different messages. -/
theorem ListTasks_error_is_generic (dflt1 dflt2 : RoundTripper) (c1 c2 : Client)
    (resp1 resp2 : Response)
    (hcode1 : resp1.StatusCode ≠ 200) (hcode2 : resp2.StatusCode ≠ 200) :
    ((∀ req ∈ (c1.ListTasks dflt1).2, c1.transport dflt1 req = .ok resp1) →
      (∀ req ∈ (c2.ListTasks dflt2).2, c2.transport dflt2 req = .ok resp2) →
      ∃ err1 err2, (c1.ListTasks dflt1).1.2 = some err1 ∧ (c2.ListTasks dflt2).1.2 = some err2 ∧
        err1.Error = err2.Error) ∧
    (∀ (task : Task) (jsonValue : GoString), Marshal task.reflect = .ok jsonValue →
      (∀ req ∈ (c1.CreateTask dflt1 task).2, c1.transport dflt1 req = .ok resp1) →
      (∀ req ∈ (c2.CreateTask dflt2 task).2, c2.transport dflt2 req = .ok resp2) →
      resp1.Body ≠ resp2.Body →
      ∃ err1 err2, (c1.CreateTask dflt1 task).1 = some err1 ∧
        (c2.CreateTask dflt2 task).1 = some err2 ∧ err1.Error ≠ err2.Error) := by
  constructor
  · intro h1 h2
    have hr1 := h1 (c1.request MethodGet none) (by rw [ListTasks_eq]; simp)
    have hr2 := h2 (c2.request MethodGet none) (by rw [ListTasks_eq]; simp)
    refine ⟨.new (gs "error making get task request: %!s(<nil>)"),
      .new (gs "error making get task request: %!s(<nil>)"), ?_, ?_, rfl⟩
    · rw [ListTasks_eq, hr1]
      simp only [StatusOK, ne_eq, hcode1, not_false_eq_true, if_true]
      rfl
    · rw [ListTasks_eq, hr2]
      simp only [StatusOK, ne_eq, hcode2, not_false_eq_true, if_true]
      rfl
  · intro task jsonValue hm h1 h2 hne
    have hr1 := h1 (c1.request MethodPost (some jsonValue))
      (by rw [CreateTask_eq dflt1 c1 task jsonValue hm]; simp)
    have hr2 := h2 (c2.request MethodPost (some jsonValue))
      (by rw [CreateTask_eq dflt2 c2 task jsonValue hm]; simp)
    refine ⟨.new (gs "error making create task request: " ++ resp1.Body),
      .new (gs "error making create task request: " ++ resp2.Body), ?_, ?_, ?_⟩
    · rw [CreateTask_eq dflt1 c1 task jsonValue hm, hr1]
      simp only [StatusOK, ne_eq, hcode1, not_false_eq_true, if_true]
      rfl
    · rw [CreateTask_eq dflt2 c2 task jsonValue hm, hr2]
      simp only [StatusOK, ne_eq, hcode2, not_false_eq_true, if_true]
      rfl
    · intro h
      exact hne (List.append_cancel_left h)

theorem ListTasks_error_is_generic_witness :
    ((500 : Int) ≠ 200 ∧ (404 : Int) ≠ 200) ∧
    (∃ err1 err2,
      ((NewClient (gs "tok") []).ListTasks (server 500 badRequest)).1.2 = some err1 ∧
      ((NewClient (gs "other") []).ListTasks (server 404 malformed)).1.2 = some err2 ∧
      err1.Error = err2.Error) :=
  ⟨by decide,
   (ListTasks_error_is_generic (server 500 badRequest) (server 404 malformed)
     (NewClient (gs "tok") []) (NewClient (gs "other") [])
     { StatusCode := 500, Body := badRequest } { StatusCode := 404, Body := malformed }
     (by decide) (by decide)).1 (by decide) (by decide)⟩

/-- C4 (amended): for a client built by `NewClient(t, options...)` with options that leave
the token as it is, the requests `ListTasks` hands to the transport begin with the request
it builds, which carries the one `Authorization` value `Bearer ` followed by `t`, and the
requests `CreateTask` hands to the transport for a task that serializes begin with the
request it builds, a POST that carries that `Authorization` value and the `Content-Type`
value `application/json`. The request after it, if there is one, is the follow-up request
of a redirect, and it carries that `Authorization` value when the redirect stays in the
domain and none when it leaves it. Every POST among the requests of `CreateTask` carries
the `Content-Type` value `application/json`. -/
theorem built_request_carries_headers (t : GoString) (opts : List Redirects.ClientOption)
    (hopts : ∀ o ∈ opts, ∀ c : Redirects.Client, (o c).token = c.token)
    (dropContent : Bool) (dflt : Redirects.RoundTripper) (task : Task) :
    (∃ req rest,
      (Redirects.ListTasks dropContent dflt (Redirects.NewClient t opts)).2 = req :: rest ∧
      req.Header.Values (gs "Authorization") = [gs "Bearer " ++ t] ∧
      req.Header.Get (gs "Authorization") = gs "Bearer " ++ t ∧
      (∀ r, rest.head? = some r → ∃ target,
        (Redirects.transport dflt (Redirects.NewClient t opts)).first req
          = .ok (.redirect target) ∧
        r.Header.Values (gs "Authorization")
          = if target.SameDomain then [gs "Bearer " ++ t] else [])) ∧
    ((Marshal task.reflect).toBool = true →
      ∃ req rest,
        (Redirects.CreateTask dropContent dflt (Redirects.NewClient t opts) task).2
          = req :: rest ∧
        req.Method = MethodPost ∧
        req.Header.Values (gs "Authorization") = [gs "Bearer " ++ t] ∧
        req.Header.Get (gs "Authorization") = gs "Bearer " ++ t ∧
        req.Header.Get (gs "Content-Type") = gs "application/json" ∧
        (∀ r, rest.head? = some r → ∃ target,
          (Redirects.transport dflt (Redirects.NewClient t opts)).first req
            = .ok (.redirect target) ∧
          r.Header.Values (gs "Authorization")
            = if target.SameDomain then [gs "Bearer " ++ t] else [])) ∧
    (∀ req ∈ (Redirects.CreateTask dropContent dflt (Redirects.NewClient t opts) task).2,
      req.Method = MethodPost → req.Header.Get (gs "Content-Type") = gs "application/json") := by
  have htok := Redirects.NewClient_keeps_token t opts hopts
  refine ⟨?_, ?_, ?_⟩
  · obtain ⟨rest, hsent, hrest⟩ := Redirects.Do_sent dropContent dflt
      (Redirects.NewClient t opts) (Redirects.request (Redirects.NewClient t opts) MethodGet none)
    refine ⟨Redirects.request (Redirects.NewClient t opts) MethodGet none, rest, ?_, ?_, ?_, ?_⟩
    · rw [Redirects.ListTasks_sent, hsent]
    · rw [Redirects.request_authorization, htok]
    · rw [Header.Get, Redirects.request_authorization, htok]
      rfl
    · intro r hr
      obtain ⟨target, h2, h3⟩ := hrest r hr
      refine ⟨target, h2, ?_⟩
      rw [h3, Redirects.followUp_authorization, htok]
  · intro hm
    cases hm2 : Marshal task.reflect with
    | error err => simp [hm2, Except.toBool] at hm
    | ok jsonValue =>
      obtain ⟨rest, hsent, hrest⟩ := Redirects.Do_sent dropContent dflt
        (Redirects.NewClient t opts)
        (Redirects.request (Redirects.NewClient t opts) MethodPost (some jsonValue))
      refine ⟨Redirects.request (Redirects.NewClient t opts) MethodPost (some jsonValue), rest,
        ?_, rfl, ?_, ?_, Redirects.request_content_type _ _ _, ?_⟩
      · rw [Redirects.CreateTask_sent _ _ _ _ _ hm2, hsent]
      · rw [Redirects.request_authorization, htok]
      · rw [Header.Get, Redirects.request_authorization, htok]
        rfl
      · intro r hr
        obtain ⟨target, h2, h3⟩ := hrest r hr
        refine ⟨target, h2, ?_⟩
        rw [h3, Redirects.followUp_authorization, htok]
  · intro req hreq _
    cases hm2 : Marshal task.reflect with
    | error err => simp [Redirects.CreateTask, hm2] at hreq
    | ok jsonValue =>
      rw [Redirects.CreateTask_sent _ _ _ _ _ hm2] at hreq
      unfold Redirects.Do at hreq
      simp only at hreq
      split at hreq
      · simp only [List.mem_singleton] at hreq
        subst hreq
        exact Redirects.request_content_type _ _ _
      · simp only [List.mem_singleton] at hreq
        subst hreq
        exact Redirects.request_content_type _ _ _
      · split at hreq <;>
          (simp only [List.mem_cons, List.mem_singleton, List.not_mem_nil, or_false] at hreq
           rcases hreq with rfl | rfl
           · exact Redirects.request_content_type _ _ _
           · exact Redirects.followUp_content_type _ _ _ _ _)

theorem built_request_carries_headers_witness :
    ((∀ o ∈ [Redirects.WithHTTPTransport (Redirects.RoundTripper.ofPlain (server 200 [])),
          Redirects.WithHTTPTransport elsewhere],
        ∀ c : Redirects.Client, (o c).token = c.token) ∧
      (Marshal buyMilk.reflect).toBool = true) ∧
    ∃ req rest,
      (Redirects.CreateTask false (Redirects.RoundTripper.ofPlain (server 500 []))
        (Redirects.NewClient (gs "tok")
          [Redirects.WithHTTPTransport (Redirects.RoundTripper.ofPlain (server 200 [])),
           Redirects.WithHTTPTransport elsewhere]) buyMilk).2
        = req :: rest ∧
      req.Method = MethodPost ∧
      req.Header.Values (gs "Authorization") = [gs "Bearer " ++ gs "tok"] ∧
      req.Header.Get (gs "Authorization") = gs "Bearer " ++ gs "tok" ∧
      req.Header.Get (gs "Content-Type") = gs "application/json" ∧
      (∀ r, rest.head? = some r → ∃ target,
        (Redirects.transport (Redirects.RoundTripper.ofPlain (server 500 []))
          (Redirects.NewClient (gs "tok")
            [Redirects.WithHTTPTransport (Redirects.RoundTripper.ofPlain (server 200 [])),
             Redirects.WithHTTPTransport elsewhere])).first req
          = .ok (.redirect target) ∧
        r.Header.Values (gs "Authorization")
          = if target.SameDomain then [gs "Bearer " ++ gs "tok"] else []) :=
  have hopts : ∀ o ∈ [Redirects.WithHTTPTransport (Redirects.RoundTripper.ofPlain (server 200 [])),
        Redirects.WithHTTPTransport elsewhere],
      ∀ c : Redirects.Client, (o c).token = c.token := by
    intro o ho c
    simp only [List.mem_cons, List.mem_singleton, List.not_mem_nil, or_false] at ho
    rcases ho with rfl | rfl <;> rfl
  ⟨⟨hopts, by decide⟩,
   (built_request_carries_headers (gs "tok")
     [Redirects.WithHTTPTransport (Redirects.RoundTripper.ofPlain (server 200 [])),
      Redirects.WithHTTPTransport elsewhere] hopts false
     (Redirects.RoundTripper.ofPlain (server 500 [])) buyMilk).2.1 (by decide)⟩

/-- C4 (as stated, refuted): when the transport given to `WithHTTPTransport` answers with a
307 that points to another host, the second request `ListTasks` hands to it, and the second
POST `CreateTask` hands to it, carry no `Authorization` header, whether or not `net/http`
copies the headers that describe a body; and a client built with an option that replaces
the token sends the replacement, not the token given to `NewClient`. -/
theorem follow_up_request_lacks_authorization :
    (Redirects.ListTasks false (Redirects.RoundTripper.ofPlain (server 200 []))
        (Redirects.NewClient (gs "tok") [Redirects.WithHTTPTransport elsewhere])).2.map
        (fun req => (req.Method, req.URL, req.Header.Values (gs "Authorization")))
      = [(gs "GET", gs "https://api.todoist.com/rest/v2/tasks", [gs "Bearer tok"]),
         (gs "GET", gs "https://tasks.example.org/v2/tasks", [])] ∧
    (Redirects.ListTasks true (Redirects.RoundTripper.ofPlain (server 200 []))
        (Redirects.NewClient (gs "tok") [Redirects.WithHTTPTransport elsewhere])).2.map
        (fun req => (req.Method, req.URL, req.Header.Values (gs "Authorization")))
      = [(gs "GET", gs "https://api.todoist.com/rest/v2/tasks", [gs "Bearer tok"]),
         (gs "GET", gs "https://tasks.example.org/v2/tasks", [])] ∧
    (Redirects.CreateTask false (Redirects.RoundTripper.ofPlain (server 200 []))
        (Redirects.NewClient (gs "tok") [Redirects.WithHTTPTransport elsewhere]) buyMilk).2.map
        (fun req => (req.Method, req.URL, req.Header.Values (gs "Authorization")))
      = [(gs "POST", gs "https://api.todoist.com/rest/v2/tasks", [gs "Bearer tok"]),
         (gs "POST", gs "https://tasks.example.org/v2/tasks", [])] ∧
    (Redirects.CreateTask true (Redirects.RoundTripper.ofPlain (server 200 []))
        (Redirects.NewClient (gs "tok") [Redirects.WithHTTPTransport elsewhere]) buyMilk).2.map
        (fun req => (req.Method, req.URL, req.Header.Values (gs "Authorization")))
      = [(gs "POST", gs "https://api.todoist.com/rest/v2/tasks", [gs "Bearer tok"]),
         (gs "POST", gs "https://tasks.example.org/v2/tasks", [])] ∧
    (Redirects.ListTasks false (Redirects.RoundTripper.ofPlain (server 200 (gs "[]")))
        (Redirects.NewClient (gs "tok") [Redirects.replaceToken (gs "other")])).2.map
        (fun req => req.Header.Values (gs "Authorization"))
      = [[gs "Bearer other"]] ∧
    gs "Bearer other" ≠ gs "Bearer tok" := by
  refine ⟨by decide, by decide, by decide, by decide, by decide, by decide⟩

/-- C5 (what the code does instead): for every task whose only non-zero field is `Content`,
`json.Marshal` writes an object with exactly the members `created_at`, `content` and `due`,
in that order: the `omitempty` option on `CreatedAt` and on `Due` has no effect because
their values are structs. For `Buy milk` the one request `CreateTask` hands to the transport
has the text `buyMilkJSON` as its body. -/
theorem CreateTask_body_keeps_created_at_and_due (content : GoString) (dflt : RoundTripper)
    (c : Client) :
    ({ Task.zero with Content := content } : Task).reflect.toJson
      = .ok (.obj [
          (gs "created_at", .str (gs "0001-01-01T00:00:00Z")),
          (gs "content", .str content),
          (gs "due", .obj [(gs "date", .str []), (gs "is_recurring", .bool false),
            (gs "datetime", .str []), (gs "string", .str []), (gs "timezone", .str [])])]) ∧
    (c.CreateTask dflt buyMilk).2.map (·.Body) = [some buyMilkJSON] ∧
    ((parseJSON buyMilkJSON).map fun j =>
        match j with
        | .obj members => members.map (·.1)
        | _ => [])
      = some [gs "created_at", gs "content", gs "due"] := by
  refine ⟨?_, ?_, by decide⟩
  · have htime : Time.zero.MarshalJSON = .ok (gs "0001-01-01T00:00:00Z") := by decide
    simp [Task.reflect, Due.reflect, GoValue.toJson, fieldsToJson, isEmptyValue, Task.zero,
      Due.zero, GoInt.zero, Except.map, htime, Duration.reflectPtr, reflectStrings]
  · rw [CreateTask_eq dflt c buyMilk buyMilkJSON (by decide)]
    rfl

/-- C1: when the transport answers the request of `ListTasks` with status 200 and a body
that is a JSON array of N well-formed Task objects, with the timestamps written without
escape sequences, `ListTasks` returns a nil error and exactly N tasks in the order of the
array, the i-th being the task the i-th object stands for: each field holds the value of
the member present for it (the string, the boolean, the integer, the instant of the
timestamp, the nested `due` or `duration`, the list of labels) and its zero value when no
member is present for it. -/
theorem ListTasks_decodes_array (dflt : RoundTripper) (c : Client) (resp : Response)
    (elems : List Json)
    (hresp : ∀ req ∈ (c.ListTasks dflt).2, c.transport dflt req = .ok resp)
    (hcode : resp.StatusCode = 200)
    (hbody : parseJSON resp.Body = some (.arr elems))
    (_hverbatim : timestampsVerbatim resp.Body = true)
    (hwf : ∀ e ∈ elems, wellFormedTask e = true) :
    (c.ListTasks dflt).1 = (some (elems.map Task.ofJson), none) ∧
    (elems.map Task.ofJson).length = elems.length ∧
    (∀ (i : Nat) (members : List (GoString × Json)), elems[i]? = some (.obj members) →
      (elems.map Task.ofJson)[i]? = some (Task.ofMembers members)) := by
  have hr := hresp (c.request MethodGet none) (by rw [ListTasks_eq]; simp)
  have hdec := decodeElems_fine Task.decode Task.zero elems fun e he =>
    (Task_decode_wellFormed e Task.zero (hwf e he)).1
  have hmap : (elems.map fun e => (Task.decode e Task.zero).1) = elems.map Task.ofJson := by
    apply List.map_congr_left
    intro e he
    rw [(Task_decode_wellFormed e Task.zero (hwf e he)).2]
  refine ⟨?_, by simp, ?_⟩
  · rw [ListTasks_eq, hr]
    simp [StatusOK, hcode, UnmarshalTasks, Unmarshal, hbody, decodeSlice, hdec, hmap]
  · intro i members hi
    rw [List.getElem?_map, hi]
    rfl

theorem ListTasks_decodes_array_witness :
    ((∀ req ∈ ((NewClient (gs "tok") []).ListTasks (server 200 twoTasks)).2,
        (NewClient (gs "tok") []).transport (server 200 twoTasks) req
          = .ok { StatusCode := 200, Body := twoTasks }) ∧
      parseJSON twoTasks = some (.arr twoTasksElems) ∧
      timestampsVerbatim twoTasks = true ∧
      (∀ e ∈ twoTasksElems, wellFormedTask e = true)) ∧
    ((NewClient (gs "tok") []).ListTasks (server 200 twoTasks)).1
      = (some twoTasksExpected, none) :=
  have hwf : ∀ e ∈ twoTasksElems, wellFormedTask e = true := by decide
  ⟨⟨by decide, by rfl, by decide, hwf⟩,
   (ListTasks_decodes_array (server 200 twoTasks) (NewClient (gs "tok") [])
     { StatusCode := 200, Body := twoTasks } twoTasksElems (by decide) (by decide) (by rfl)
     (by decide) hwf).1.trans (by decide)⟩

/-- C6 (amended): for every task that serializes, all of whose strings are valid UTF-8 and
whose `CreatedAt` (a civil time, as every `time.Time` is) has a zone offset of whole
minutes, decoding the JSON encoding of the task into a fresh `Task` succeeds and yields the
task itself, except that an empty non-nil `Labels` slice comes back nil: every field has the
same value as in the original, and `Labels` has the same elements in the same order. -/
theorem Task_round_trip (t : Task) (createdAt : GoString)
    (hs : t.validStrings = true)
    (htime : t.CreatedAt.MarshalJSON = .ok createdAt)
    (hcivil : t.CreatedAt.isCivil = true)
    (hzone : t.CreatedAt.offset % 60 = 0) :
    ∃ data t2, Marshal t.reflect = .ok data ∧ UnmarshalTask data Task.zero = (t2, none) ∧
      t2 = { t with Labels := omitEmptySlice t.Labels } ∧
      t2.Labels.getD [] = t.Labels.getD [] := by
  have hback := Time_text_round_trip t.CreatedAt createdAt hcivil htime hzone
  have hall := Task.members_plain t createdAt hs (Time.MarshalJSON_valid _ _ htime)
  have hplain : (Json.obj (Task.members t createdAt)).plain = true := by
    rw [Json.plain]
    exact plainMembers_of_forall _ fun m hm => ⟨(hall m hm).1, (hall m hm).2.1⟩
  have hdepth : (Json.obj (Task.members t createdAt)).depth ≤ maxNestingDepth := by
    have := depthMembers_le (Task.members t createdAt) 1 fun m hm => (hall m hm).2.2
    rw [Json.depth, maxNestingDepth]
    omega
  refine ⟨(Json.obj (Task.members t createdAt)).render.map StrElem.rune, _, ?_, ?_, rfl, ?_⟩
  · rw [Marshal, Task_reflect_toJson t createdAt htime]
    rfl
  · rw [UnmarshalTask, Unmarshal, parseJSON_render _ hplain hdepth]
    simp only
    rw [Task.decode_members t createdAt hback]
    rfl
  · cases t.Labels with
    | none => rfl
    | some ls => cases ls <;> rfl

theorem Task_round_trip_witness :
    (sampleTask.validStrings = true ∧
      sampleTask.CreatedAt.MarshalJSON = .ok sampleCreatedAt ∧
      sampleTask.CreatedAt.isCivil = true ∧
      sampleTask.CreatedAt.offset % 60 = 0) ∧
    ∃ data t2, Marshal sampleTask.reflect = .ok data ∧
      UnmarshalTask data Task.zero = (t2, none) ∧
      t2 = { sampleTask with Labels := omitEmptySlice sampleTask.Labels } ∧
      t2.Labels.getD [] = sampleTask.Labels.getD [] :=
  ⟨⟨by decide, by decide, by decide, by decide⟩,
   Task_round_trip sampleTask sampleCreatedAt (by decide) (by decide) (by decide) (by decide)⟩

/-- C6 (as stated, refuted): a task whose content is a byte that is not valid UTF-8
serializes, and decoding the result yields the content U+FFFD, not the original; and a task
created in a zone thirty seconds east of UTC serializes, and decoding the result yields a
time in UTC with the same clock reading, thirty seconds off the original. -/
theorem round_trip_changes_nonzero_fields :
    (∃ data t2, Marshal invalidText.reflect = .ok data ∧
      UnmarshalTask data Task.zero = (t2, none) ∧
      invalidText.Content ≠ Task.zero.Content ∧ t2.Content ≠ invalidText.Content) ∧
    (∃ data t2, Marshal oddZone.reflect = .ok data ∧
      UnmarshalTask data Task.zero = (t2, none) ∧
      oddZone.CreatedAt ≠ Task.zero.CreatedAt ∧ t2.CreatedAt ≠ oddZone.CreatedAt) :=
  ⟨⟨gs "\x7b\"created_at\":\"0001-01-01T00:00:00Z\",\"content\":\"\\ufffd\",\"due\":\x7b\"date\":\"\",\"is_recurring\":false,\"datetime\":\"\",\"string\":\"\",\"timezone\":\"\"\x7d\x7d",
     { Task.zero with Content := [.rune (Char.ofNat 0xFFFD)] },
     by decide, by decide, by decide, by decide⟩,
   ⟨gs "\x7b\"created_at\":\"2024-01-01T00:00:00+00:00\",\"content\":\"\",\"due\":\x7b\"date\":\"\",\"is_recurring\":false,\"datetime\":\"\",\"string\":\"\",\"timezone\":\"\"\x7d\x7d",
     { Task.zero with CreatedAt := ⟨2024, 1, 1, 0, 0, 0, 0, 0⟩ },
     by decide, by decide, by decide, by decide⟩⟩

end Todoist
